import Mathlib

/-!
# Surface-file ingestion and transform pipeline (`src/read_surf.cpp`)

A shallow embedding of `ReadSurf` from `read_surf.cpp`.

* The arrays `pts`, `lines` and `tris` are C arrays addressed by an `int`
  index; they are embedded as maps `Int → record`, a write `a[m] = v` being
  `Function.update a m v`.  A call works on the block of indices
  `[n_old, n_old + n_new)` of each array.  The source reaches the arrays through
  two sets of pointers: the grown arrays that `command` holds and hands to the
  store at its end, into which the sections are read, and `surf->pts`,
  `surf->lines`, `surf->tris`, which the operators of the keyword loop read and
  which stay those of the store before the growth until the loop is over.
  `command` keeps the two apart (`store_arrays`, `grown_arrays`).
* `int` values are embedded as `Int`: the embedded code compares them, steps
  an index below an array bound and adds an old count to a new one.  A number
  in the file that lies outside the range of `int` is not modelled.
* C strings are lists of characters, the open file is the list of the strings
  that the successive calls of `fgets` deliver (at most `MAXLINE - 1`
  characters each, `fgets_all`), and a use of a null string pointer is the
  result `none`.  Only process 0 reads and every value is broadcast as it
  was read, so the embedding follows one process.
* `double` values are embedded as elements of a type `α` carrying the
  arithmetic operations the code uses.  Exact-arithmetic results take `α` to
  be a field; `Dbl` below gives IEEE-754 binary64 addition on integer values,
  and `Binary64` the binary64 operations with rounding, underflow and
  overflow.
* `error->all(FLERR,msg)` terminates the run; it is embedded as the outcome
  `Outcome.fatal msg st`, `st` being the object state when it was raised.
-/

namespace Sparta

/-! ## Data model -/

/-- Modelled from the spec: `Surf::Point` (declared in `surf.h`), the three
coordinates `x[0]`, `x[1]`, `x[2]` of a vertex. -/
structure Point (α : Type) where
  x0 : α
  x1 : α
  x2 : α
deriving DecidableEq, Repr

/-- Modelled from the spec: `Surf::Line` (declared in `surf.h`), owning
surface id and two 1-based point indices. -/
structure Line where
  id : Int
  p1 : Int
  p2 : Int
deriving DecidableEq, Repr

/-- Modelled from the spec: `Surf::Tri` (declared in `surf.h`), owning surface
id and three 1-based point indices. -/
structure Tri where
  id : Int
  p1 : Int
  p2 : Int
  p3 : Int
deriving DecidableEq, Repr

/-- Modelled from the spec: the fields of `Domain` (declared in `domain.h`)
that `ReadSurf::command` reads: the lower corner `boxlo[0..2]` of the
simulation box and its extents `xprd`, `yprd`, `zprd`. -/
structure Domain (α : Type) where
  boxlo0 : α
  boxlo1 : α
  boxlo2 : α
  xprd : α
  yprd : α
  zprd : α

/-- State of a `ReadSurf` object during one `command` call, together with three
arrays `pts`, `lines` and `tris`.  For the functions that read the sections the
arrays are the grown ones that `command` holds; for the operators of the keyword
loop they are the arrays that `surf->pts`, `surf->lines` and `surf->tris` point
at when the operator runs. -/
structure ReadSurf (α : Type) where
  dimension : Int
  id : Int
  npoint_old : Int
  nline_old : Int
  ntri_old : Int
  npoint_new : Int
  nline_new : Int
  ntri_new : Int
  pts : Int → Point α
  lines : Int → Line
  tris : Int → Tri
  origin0 : α
  origin1 : α
  origin2 : α

/-- Result of code that may raise `error->all`: either it runs to its end in
state `s`, or it stops with message `msg` in state `s`. -/
inductive Outcome (σ : Type) where
  | ok (s : σ)
  | fatal (msg : String) (s : σ)

/-- The loop `m = start; for (i = 0; i < n; i++) { body(m); m++; }`. -/
def forLoop {σ : Type} (body : Int → σ → σ) : Nat → Int → σ → σ
  | 0, _, s => s
  | n + 1, m, s => forLoop body n (m + 1) (body m s)

/-! ## Section streamer: record validation -/

/-- Body of the record loop of `read_lines` (lines 417-424), once `p1` and `p2`
have been read by `atoi`: the index check, then the store into `lines[n]`. -/
def read_lines_record {α : Type} (st : ReadSurf α) (n p1 p2 : Int) :
    Outcome (ReadSurf α) :=
  if p1 < 1 ∨ p1 > st.npoint_new ∨ p2 < 1 ∨ p2 > st.npoint_new ∨ p1 = p2 then
    .fatal "Invalid point index in line" st
  else
    .ok { st with lines := Function.update st.lines n ⟨st.id, p1, p2⟩ }

/-- Body of the record loop of `read_tris` (lines 480-489), once `p1`, `p2` and
`p3` have been read by `atoi`: the index check, then the store into `tris[n]`. -/
def read_tris_record {α : Type} (st : ReadSurf α) (n p1 p2 p3 : Int) :
    Outcome (ReadSurf α) :=
  if p1 < 1 ∨ p1 > st.npoint_new ∨ p2 < 1 ∨ p2 > st.npoint_new ∨
      p3 < 1 ∨ p3 > st.npoint_new ∨ p1 = p2 ∨ p2 = p3 then
    .fatal "Invalid point index in triangle" st
  else
    .ok { st with tris := Function.update st.tris n ⟨st.id, p1, p2, p3⟩ }

/-! ## Transform pipeline: geometry operators -/

/-- The C library functions the code calls on `double` values: `atof`
(`stdlib.h`) and `sqrt`, `sin`, `cos` (`math.h`, used by the `MathExtra`
helpers). -/
structure Libm (α : Type) where
  atof : String → α
  sqrt : α → α
  sin : α → α
  cos : α → α

/-- A `double[3]` vector local to `rotate`. -/
structure Vec3 (α : Type) where
  v0 : α
  v1 : α
  v2 : α

/-- A `double[4]` quaternion local to `rotate`. -/
structure Quat (α : Type) where
  q0 : α
  q1 : α
  q2 : α
  q3 : α

/-- A `double[3][3]` matrix local to `rotate`. -/
structure Mat3 (α : Type) where
  m00 : α
  m01 : α
  m02 : α
  m10 : α
  m11 : α
  m12 : α
  m20 : α
  m21 : α
  m22 : α

/-- Modelled from the spec: `MathExtra::norm3` (`math_extra.h`), the standard
normalisation of a vector to unit length, `v *= 1.0/sqrt(v·v)`. -/
def norm3 {α : Type} [Add α] [Mul α] [Div α] [OfScientific α] (L : Libm α)
    (v : Vec3 α) : Vec3 α :=
  let scale := (1.0 : α) / L.sqrt (v.v0 * v.v0 + v.v1 * v.v1 + v.v2 * v.v2)
  ⟨v.v0 * scale, v.v1 * scale, v.v2 * scale⟩

/-- Modelled from the spec: `MathExtra::axisangle_to_quat` (`math_extra.h`),
the standard quaternion `(cos(θ/2), sin(θ/2)·v)` of the rotation by `angle`
about the unit axis `v`. -/
def axisangle_to_quat {α : Type} [Mul α] [OfScientific α] (L : Libm α)
    (v : Vec3 α) (angle : α) : Quat α :=
  let halfa := (0.5 : α) * angle
  let sina := L.sin halfa
  ⟨L.cos halfa, v.v0 * sina, v.v1 * sina, v.v2 * sina⟩

/-- Modelled from the spec: `MathExtra::quat_to_mat` (`math_extra.h`), the
standard rotation matrix of a quaternion `(w, i, j, k)`. -/
def quat_to_mat {α : Type} [Add α] [Sub α] [Mul α] [OfScientific α]
    (q : Quat α) : Mat3 α :=
  let w2 := q.q0 * q.q0
  let i2 := q.q1 * q.q1
  let j2 := q.q2 * q.q2
  let k2 := q.q3 * q.q3
  let twoij := (2.0 : α) * q.q1 * q.q2
  let twoik := (2.0 : α) * q.q1 * q.q3
  let twojk := (2.0 : α) * q.q2 * q.q3
  let twoiw := (2.0 : α) * q.q1 * q.q0
  let twojw := (2.0 : α) * q.q2 * q.q0
  let twokw := (2.0 : α) * q.q3 * q.q0
  ⟨w2 + i2 - j2 - k2, twoij - twokw, twojw + twoik,
   twoij + twokw, w2 - i2 + j2 - k2, twojk - twoiw,
   twoik - twojw, twojk + twoiw, w2 - i2 - j2 + k2⟩

/-- Modelled from the spec: `MathExtra::matvec` (`math_extra.h`), the
matrix-vector product. -/
def matvec {α : Type} [Add α] [Mul α] (m : Mat3 α) (v : Vec3 α) : Vec3 α :=
  ⟨m.m00 * v.v0 + m.m01 * v.v1 + m.m02 * v.v2,
   m.m10 * v.v0 + m.m11 * v.v1 + m.m12 * v.v2,
   m.m20 * v.v0 + m.m21 * v.v1 + m.m22 * v.v2⟩

/-- `ReadSurf::translate` (lines 508-519): add `(dx,dy,dz)` to each of the
`npoint_new` points from index `npoint_old` on. -/
def translate {α : Type} [Add α] (dx dy dz : α) (st : ReadSurf α) : ReadSurf α :=
  { st with pts := (forLoop (fun m pts => Function.update pts m
      ⟨(pts m).x0 + dx, (pts m).x1 + dy, (pts m).x2 + dz⟩)
      st.npoint_new.toNat st.npoint_old st.pts) }

/-- `ReadSurf::scale` (lines 526-537): scale each new point about `origin`;
`x[2]` is rewritten only when `dimension == 3`. -/
def scale {α : Type} [Add α] [Sub α] [Mul α] (sx sy sz : α) (st : ReadSurf α) :
    ReadSurf α :=
  { st with pts := (forLoop (fun m pts => Function.update pts m
      ⟨sx * ((pts m).x0 - st.origin0) + st.origin0,
       sy * ((pts m).x1 - st.origin1) + st.origin1,
       if st.dimension = 3 then sz * ((pts m).x2 - st.origin2) + st.origin2
       else (pts m).x2⟩)
      st.npoint_new.toNat st.npoint_old st.pts) }

/-- The matrix `rotmat` built at the head of `ReadSurf::rotate`
(lines 549-552). -/
def rotate_matrix {α : Type} [Add α] [Sub α] [Mul α] [Div α] [OfScientific α]
    (L : Libm α) (theta rx ry rz : α) : Mat3 α :=
  quat_to_mat (axisangle_to_quat L (norm3 L ⟨rx, ry, rz⟩) theta)

/-- Body of the point loop of `ReadSurf::rotate` (lines 558-564) for the point
`p = pts[m]`: rotate the offset of `p` from `origin` by `rotmat`; `x[2]` is
rewritten only when `dimension == 3`. -/
def rotate_point {α : Type} [Add α] [Sub α] [Mul α] (rotmat : Mat3 α)
    (origin0 origin1 origin2 : α) (dimension : Int) (p : Point α) : Point α :=
  let d : Vec3 α := ⟨p.x0 - origin0, p.x1 - origin1, p.x2 - origin2⟩
  let dnew := matvec rotmat d
  ⟨dnew.v0 + origin0, dnew.v1 + origin1,
   if dimension = 3 then dnew.v2 + origin2 else p.x2⟩

/-- `ReadSurf::rotate` (lines 544-567): build `rotmat`, then rotate each of the
`npoint_new` points from index `npoint_old` on about `origin`. -/
def rotate {α : Type} [Add α] [Sub α] [Mul α] [Div α] [OfScientific α]
    (L : Libm α) (theta rx ry rz : α) (st : ReadSurf α) : ReadSurf α :=
  let rotmat := rotate_matrix L theta rx ry rz
  { st with pts := (forLoop (fun m pts => Function.update pts m
      (rotate_point rotmat st.origin0 st.origin1 st.origin2 st.dimension (pts m)))
      st.npoint_new.toNat st.npoint_old st.pts) }

/-- The 2-D branch of `ReadSurf::invert` (lines 578-588). -/
def invert_lines {α : Type} (st : ReadSurf α) : ReadSurf α :=
  { st with lines := (forLoop (fun m lines => Function.update lines m
      { lines m with p1 := (lines m).p2, p2 := (lines m).p1 })
      st.nline_new.toNat st.nline_old st.lines) }

/-- The 3-D branch of `ReadSurf::invert` (lines 590-600); the loop bound in
the source is `nline_new`. -/
def invert_tris {α : Type} (st : ReadSurf α) : ReadSurf α :=
  { st with tris := (forLoop (fun m tris => Function.update tris m
      { tris m with p2 := (tris m).p3, p3 := (tris m).p2 })
      st.nline_new.toNat st.ntri_old st.tris) }

/-- `ReadSurf::invert` (lines 574-601). -/
def invert {α : Type} (st : ReadSurf α) : ReadSurf α :=
  let st1 := if st.dimension = 2 then invert_lines st else st
  if st1.dimension = 3 then invert_tris st1 else st1

/-! ## Transform pipeline: the keyword loop of `command` -/

/-- Message of the fatal error raised on a bad keyword or a short argument
list. -/
def msgCommand : String := "Invalid read_surf command"

/-- Message of the fatal error raised by the checks on operator arguments. -/
def msgGeometry : String :=
  "Invalid read_surf geometry transformation for 2d simulation"

/-- Effect of keyword `origin` (lines 137-139). -/
def apply_origin {α : Type} (ox oy oz : α) (st : ReadSurf α) : ReadSurf α :=
  { st with origin0 := ox, origin1 := oy, origin2 := oz }

/-- Effect of keyword `trans` (lines 149-152). -/
def apply_trans {α : Type} [Add α] (dx dy dz : α) (st : ReadSurf α) : ReadSurf α :=
  translate dx dy dz
    { st with origin0 := st.origin0 + dx, origin1 := st.origin1 + dy,
              origin2 := st.origin2 + dz }

/-- Effect of keyword `atrans` (lines 162-168). -/
def apply_atrans {α : Type} [Add α] [Sub α] (ax ay az : α) (st : ReadSurf α) :
    ReadSurf α :=
  let dx := ax - st.origin0
  let dy := ay - st.origin1
  let dz := az - st.origin2
  translate dx dy dz { st with origin0 := ax, origin1 := ay, origin2 := az }

/-- The absolute position computed by keyword `ftrans` (lines 178-182). -/
def ftrans_target {α : Type} [Add α] [Mul α] [Zero α] (dom : Domain α)
    (dimension : Int) (fx fy fz : α) : Vec3 α :=
  ⟨dom.boxlo0 + fx * dom.xprd, dom.boxlo1 + fy * dom.yprd,
   if dimension = 3 then dom.boxlo2 + fz * dom.zprd else 0⟩

/-- Effect of keyword `ftrans` (lines 178-189). -/
def apply_ftrans {α : Type} [Add α] [Sub α] [Mul α] [Zero α] (dom : Domain α)
    (fx fy fz : α) (st : ReadSurf α) : ReadSurf α :=
  let a := ftrans_target dom st.dimension fx fy fz
  let dx := a.v0 - st.origin0
  let dy := a.v1 - st.origin1
  let dz := a.v2 - st.origin2
  translate dx dy dz { st with origin0 := a.v0, origin1 := a.v1, origin2 := a.v2 }

/-- Branch `origin` of the keyword loop, after `atof` (lines 134-139). -/
def command_origin {α : Type} [Zero α] [DecidableEq α] (ox oy oz : α)
    (st : ReadSurf α) : Outcome (ReadSurf α) :=
  if st.dimension = 2 ∧ oz ≠ 0 then .fatal msgGeometry st
  else .ok (apply_origin ox oy oz st)

/-- Branch `trans` of the keyword loop, after `atof` (lines 146-152). -/
def command_trans {α : Type} [Add α] [Zero α] [DecidableEq α] (dx dy dz : α)
    (st : ReadSurf α) : Outcome (ReadSurf α) :=
  if st.dimension = 2 ∧ dz ≠ 0 then .fatal msgGeometry st
  else .ok (apply_trans dx dy dz st)

/-- Branch `atrans` of the keyword loop, after `atof` (lines 159-168). -/
def command_atrans {α : Type} [Add α] [Sub α] [Zero α] [DecidableEq α]
    (ax ay az : α) (st : ReadSurf α) : Outcome (ReadSurf α) :=
  if st.dimension = 2 ∧ az ≠ 0 then .fatal msgGeometry st
  else .ok (apply_atrans ax ay az st)

/-- Branch `ftrans` of the keyword loop, after `atof` (lines 175-189). -/
def command_ftrans {α : Type} [Add α] [Sub α] [Mul α] [Zero α] [OfScientific α]
    [DecidableEq α] (dom : Domain α) (fx fy fz : α) (st : ReadSurf α) :
    Outcome (ReadSurf α) :=
  if st.dimension = 2 ∧ fz ≠ 0.5 then .fatal msgGeometry st
  else .ok (apply_ftrans dom fx fy fz st)

/-- Branch `scale` of the keyword loop, after `atof` (lines 196-199). -/
def command_scale {α : Type} [Add α] [Sub α] [Mul α] [One α] [DecidableEq α]
    (sx sy sz : α) (st : ReadSurf α) : Outcome (ReadSurf α) :=
  if st.dimension = 2 ∧ sz ≠ 1 then .fatal msgGeometry st
  else .ok (scale sx sy sz st)

/-- Branch `rotate` of the keyword loop, after `atof` (lines 207-213). -/
def command_rotate {α : Type} [Add α] [Sub α] [Mul α] [Div α] [Zero α] [One α]
    [OfScientific α] [DecidableEq α] (L : Libm α) (theta rx ry rz : α)
    (st : ReadSurf α) : Outcome (ReadSurf α) :=
  if st.dimension = 2 ∧ (rx ≠ 0 ∨ ry ≠ 0 ∨ rz ≠ 1) then .fatal msgGeometry st
  else if rx = 0 ∧ ry = 0 ∧ rz = 0 then .fatal msgGeometry st
  else .ok (rotate L theta rx ry rz st)

/-- Branch `invert` of the keyword loop (line 216). -/
def command_invert {α : Type} (st : ReadSurf α) : Outcome (ReadSurf α) :=
  .ok (invert st)

/-- One pass through the body of the loop `while (iarg < narg)` of `command`
(lines 129-218), up to the update of `iarg`: `kw` is `arg[iarg]` and `rest` is
`arg[iarg+1..narg-1]`.  `iarg+4 > narg` says that fewer than three arguments
follow the keyword, `iarg+5 > narg` that fewer than four do. -/
def command_step {α : Type} [Add α] [Sub α] [Mul α] [Div α] [Zero α]
    [One α] [OfScientific α] [DecidableEq α] (L : Libm α) (dom : Domain α)
    (kw : String) (rest : List String) (st : ReadSurf α) : Outcome (ReadSurf α) :=
  if kw = "origin" then
    match rest with
    | a1 :: a2 :: a3 :: _ => command_origin (L.atof a1) (L.atof a2) (L.atof a3) st
    | _ => .fatal msgCommand st
  else if kw = "trans" then
    match rest with
    | a1 :: a2 :: a3 :: _ => command_trans (L.atof a1) (L.atof a2) (L.atof a3) st
    | _ => .fatal msgCommand st
  else if kw = "atrans" then
    match rest with
    | a1 :: a2 :: a3 :: _ => command_atrans (L.atof a1) (L.atof a2) (L.atof a3) st
    | _ => .fatal msgCommand st
  else if kw = "ftrans" then
    match rest with
    | a1 :: a2 :: a3 :: _ => command_ftrans dom (L.atof a1) (L.atof a2) (L.atof a3) st
    | _ => .fatal msgCommand st
  else if kw = "scale" then
    match rest with
    | a1 :: a2 :: a3 :: _ => command_scale (L.atof a1) (L.atof a2) (L.atof a3) st
    | _ => .fatal msgCommand st
  else if kw = "rotate" then
    match rest with
    | a1 :: a2 :: a3 :: a4 :: _ =>
      command_rotate L (L.atof a1) (L.atof a2) (L.atof a3) (L.atof a4) st
    | _ => .fatal msgCommand st
  else if kw = "invert" then command_invert st
  else .fatal msgCommand st

/-- Number of arguments the branch of keyword `kw` steps over after the
keyword itself: `iarg += 4` for the three-argument operators, `iarg += 5` for
`rotate`, `iarg += 1` for `invert`. -/
def command_advance (kw : String) : Nat :=
  if kw = "rotate" then 4 else if kw = "invert" then 0 else 3

/-- The loop `while (iarg < narg)` of `command` (lines 128-219) on the
arguments `arg[iarg..narg-1]`. -/
def command_transforms {α : Type} [Add α] [Sub α] [Mul α] [Div α] [Zero α]
    [One α] [OfScientific α] [DecidableEq α] (L : Libm α) (dom : Domain α) :
    List String → ReadSurf α → Outcome (ReadSurf α)
  | [], st => .ok st
  | kw :: rest, st =>
    match command_step L dom kw rest st with
    | .ok st1 => command_transforms L dom (rest.drop (command_advance kw)) st1
    | .fatal msg st1 => .fatal msg st1
termination_by args => args.length
decreasing_by
  simp only [List.length_drop, List.length_cons]
  omega

/-- Lines 125-219 of `command`: `origin` is set to zero, then the keyword loop
runs over the arguments after the surface id and the file name. -/
def transform_pipeline {α : Type} [Add α] [Sub α] [Mul α] [Div α] [Zero α]
    [One α] [OfScientific α] [DecidableEq α] (L : Libm α) (dom : Domain α)
    (args : List String) (st : ReadSurf α) : Outcome (ReadSurf α) :=
  command_transforms L dom args { st with origin0 := 0, origin1 := 0, origin2 := 0 }

/-- The functions of `L` are those of exact real arithmetic, as far as
`rotate` depends on them: `sqrt` is a square root on nonnegative values, `sin`
is odd, `cos` is even, and `sin² + cos² = 1`. -/
structure Libm.Exact {α : Type} [LinearOrderedField α] (L : Libm α) : Prop where
  sqrt_mul_self : ∀ x, 0 ≤ x → L.sqrt x * L.sqrt x = x
  sin_neg : ∀ x, L.sin (-x) = -L.sin x
  cos_neg : ∀ x, L.cos (-x) = L.cos x
  sin_sq_add_cos_sq : ∀ x, L.sin x * L.sin x + L.cos x * L.cos x = 1

/-! ## Operator sequences

The words of the specification about argument lists: an operator with its
argument tokens, an operator the loop accepts, the state reached by applying
operators in order, and an argument list that starts with an invalid item. -/

/-- A transform operator as it stands in the argument list: its keyword
followed by its argument tokens. -/
inductive Op where
  | origin (x y z : String)
  | trans (x y z : String)
  | atrans (x y z : String)
  | ftrans (x y z : String)
  | scale (x y z : String)
  | rotate (t x y z : String)
  | invert

/-- The tokens of one operator. -/
def Op.tokens : Op → List String
  | .origin x y z => ["origin", x, y, z]
  | .trans x y z => ["trans", x, y, z]
  | .atrans x y z => ["atrans", x, y, z]
  | .ftrans x y z => ["ftrans", x, y, z]
  | .scale x y z => ["scale", x, y, z]
  | .rotate t x y z => ["rotate", t, x, y, z]
  | .invert => ["invert"]

/-- The tokens of a sequence of operators, in order. -/
def opsTokens : List Op → List String
  | [] => []
  | op :: ops => op.tokens ++ opsTokens ops

/-- The operator is valid in dimension `dim`: its 2-D constraint holds and a
rotation axis is not zero. -/
def Op.valid {α : Type} [Zero α] [One α] [OfScientific α] (L : Libm α) (dim : Int) :
    Op → Prop
  | .origin _ _ z => dim = 2 → L.atof z = 0
  | .trans _ _ z => dim = 2 → L.atof z = 0
  | .atrans _ _ z => dim = 2 → L.atof z = 0
  | .ftrans _ _ z => dim = 2 → L.atof z = 0.5
  | .scale _ _ z => dim = 2 → L.atof z = 1
  | .rotate _ x y z =>
    (dim = 2 → L.atof x = 0 ∧ L.atof y = 0 ∧ L.atof z = 1) ∧
      ¬ (L.atof x = 0 ∧ L.atof y = 0 ∧ L.atof z = 0)
  | .invert => True

/-- The geometric effect of one operator on the state. -/
def Op.apply {α : Type} [Add α] [Sub α] [Mul α] [Div α] [Zero α] [OfScientific α]
    (L : Libm α) (dom : Domain α) : Op → ReadSurf α → ReadSurf α
  | .origin x y z, st => apply_origin (L.atof x) (L.atof y) (L.atof z) st
  | .trans x y z, st => apply_trans (L.atof x) (L.atof y) (L.atof z) st
  | .atrans x y z, st => apply_atrans (L.atof x) (L.atof y) (L.atof z) st
  | .ftrans x y z, st => apply_ftrans dom (L.atof x) (L.atof y) (L.atof z) st
  | .scale x y z, st => Sparta.scale (L.atof x) (L.atof y) (L.atof z) st
  | .rotate t x y z, st => Sparta.rotate L (L.atof t) (L.atof x) (L.atof y) (L.atof z) st
  | .invert, st => Sparta.invert st

/-- The state after applying a sequence of operators in order. -/
def applyOps {α : Type} [Add α] [Sub α] [Mul α] [Div α] [Zero α] [OfScientific α]
    (L : Libm α) (dom : Domain α) : List Op → ReadSurf α → ReadSurf α
  | [], st => st
  | op :: ops, st => applyOps L dom ops (op.apply L dom st)

/-- The argument list starts with an invalid item: an unrecognized keyword, a
truncated argument list, a violated 2-D constraint, or a zero rotation axis. -/
inductive InvalidHead {α : Type} [Zero α] [One α] [OfScientific α] (L : Libm α)
    (dim : Int) : List String → Prop where
  | unrecognized (kw : String) (rest : List String) :
      kw ∉ ["origin", "trans", "atrans", "ftrans", "scale", "rotate", "invert"] →
      InvalidHead L dim (kw :: rest)
  | truncated3 (kw : String) (rest : List String) :
      kw ∈ ["origin", "trans", "atrans", "ftrans", "scale"] → rest.length < 3 →
      InvalidHead L dim (kw :: rest)
  | truncated4 (rest : List String) :
      rest.length < 4 → InvalidHead L dim ("rotate" :: rest)
  | origin2d (x y z : String) (rest : List String) :
      dim = 2 → L.atof z ≠ 0 → InvalidHead L dim ("origin" :: x :: y :: z :: rest)
  | trans2d (x y z : String) (rest : List String) :
      dim = 2 → L.atof z ≠ 0 → InvalidHead L dim ("trans" :: x :: y :: z :: rest)
  | atrans2d (x y z : String) (rest : List String) :
      dim = 2 → L.atof z ≠ 0 → InvalidHead L dim ("atrans" :: x :: y :: z :: rest)
  | ftrans2d (x y z : String) (rest : List String) :
      dim = 2 → L.atof z ≠ 0.5 → InvalidHead L dim ("ftrans" :: x :: y :: z :: rest)
  | scale2d (x y z : String) (rest : List String) :
      dim = 2 → L.atof z ≠ 1 → InvalidHead L dim ("scale" :: x :: y :: z :: rest)
  | rotate2d (t x y z : String) (rest : List String) :
      dim = 2 → (L.atof x ≠ 0 ∨ L.atof y ≠ 0 ∨ L.atof z ≠ 1) →
      InvalidHead L dim ("rotate" :: t :: x :: y :: z :: rest)
  | rotateZero (t x y z : String) (rest : List String) :
      L.atof x = 0 → L.atof y = 0 → L.atof z = 0 →
      InvalidHead L dim ("rotate" :: t :: x :: y :: z :: rest)

/-! ## IEEE-754 addition

The `double` values that are integers, with the addition of IEEE-754 binary64
in its default rounding mode (round to nearest, ties to even).  The sum of two
integer-valued doubles is again integer valued, so the values are closed under
`+`; sums of magnitude `2^1024` and above (overflow) are outside the model. -/

/-- Number of low bits that do not fit a 53-bit significand: the least `k`
with `a / 2^k < 2^53`, searched upwards from `k` with `fuel` steps. -/
def dropBits (a : Nat) : Nat → Nat → Nat
  | 0, k => k
  | fuel + 1, k => if a / 2 ^ k < 2 ^ 53 then k else dropBits a fuel (k + 1)

/-- Round an integer to the nearest integer with a 53-bit significand, ties to
the even significand. -/
def rne53 (s : Int) : Int :=
  let a := s.natAbs
  let k := dropBits a 1024 0
  let q := a / 2 ^ k
  let r := a % 2 ^ k
  let q1 := if 2 * r < 2 ^ k then q else if 2 ^ k < 2 * r then q + 1
    else if q % 2 = 0 then q else q + 1
  s.sign * ((q1 * 2 ^ k : Nat) : Int)

/-- An integer-valued `double`. -/
structure Dbl where
  val : Int
deriving DecidableEq, Repr

instance : Zero Dbl := ⟨⟨0⟩⟩

instance : Neg Dbl := ⟨fun a => ⟨-a.val⟩⟩

instance : Add Dbl := ⟨fun a b => ⟨rne53 (a.val + b.val)⟩⟩

/-! ## Sample batches -/

/-- A 2-D batch of three points and the two lines `(1,2)`, `(2,3)` appended to
an empty store by the call with surface id 1. -/
def lineBatch : ReadSurf ℚ where
  dimension := 2
  id := 1
  npoint_old := 0
  nline_old := 0
  ntri_old := 0
  npoint_new := 3
  nline_new := 2
  ntri_new := 0
  pts := fun i => if i = 0 then ⟨0, 0, 0⟩ else if i = 1 then ⟨1, 0, 0⟩ else ⟨0, 1, 0⟩
  lines := fun i => if i = 0 then ⟨1, 1, 2⟩ else ⟨1, 2, 3⟩
  tris := fun _ => ⟨0, 0, 0, 0⟩
  origin0 := 0
  origin1 := 0
  origin2 := 0

/-- A 3-D batch of three points and the triangle `(1,2,3)` appended to an
empty store by the call with surface id 1; `nline_new` is 0, as `header`
leaves it in 3-D. -/
def triBatch : ReadSurf ℚ where
  dimension := 3
  id := 1
  npoint_old := 0
  nline_old := 0
  ntri_old := 0
  npoint_new := 3
  nline_new := 0
  ntri_new := 1
  pts := fun i => if i = 0 then ⟨0, 0, 0⟩ else if i = 1 then ⟨1, 0, 0⟩ else ⟨0, 1, 0⟩
  lines := fun _ => ⟨0, 0, 0⟩
  tris := fun _ => ⟨1, 1, 2, 3⟩
  origin0 := 0
  origin1 := 0
  origin2 := 0

/-- A 3-D batch over `Dbl` with the single new point `(1, 0, 0)`. -/
def dblBatch : ReadSurf Dbl where
  dimension := 3
  id := 1
  npoint_old := 0
  nline_old := 0
  ntri_old := 0
  npoint_new := 1
  nline_new := 0
  ntri_new := 1
  pts := fun _ => ⟨⟨1⟩, ⟨0⟩, ⟨0⟩⟩
  lines := fun _ => ⟨0, 0, 0⟩
  tris := fun _ => ⟨1, 1, 1, 1⟩
  origin0 := ⟨0⟩
  origin1 := ⟨0⟩
  origin2 := ⟨0⟩

/-- A 3-D batch over `Dbl` whose origin and single new point are at
`(2^60, 0, 0)`. -/
def dblFarBatch : ReadSurf Dbl where
  dimension := 3
  id := 1
  npoint_old := 0
  nline_old := 0
  ntri_old := 0
  npoint_new := 1
  nline_new := 0
  ntri_new := 1
  pts := fun _ => ⟨⟨1152921504606846976⟩, ⟨0⟩, ⟨0⟩⟩
  lines := fun _ => ⟨0, 0, 0⟩
  tris := fun _ => ⟨1, 1, 1, 1⟩
  origin0 := ⟨1152921504606846976⟩
  origin1 := ⟨0⟩
  origin2 := ⟨0⟩

/-- The simulation box with lower corner `(0,0,0)` and extents `(10,10,10)`. -/
def box10 : Domain ℚ := ⟨0, 0, 0, 10, 10, 10⟩

/-- A batch of one new point `p` appended to an empty store in dimension
`dim`, with the origin at `(o0, o1, o2)`. -/
def pointBatch {α : Type} (dim : Int) (p : Point α) (o0 o1 o2 : α) : ReadSurf α where
  dimension := dim
  id := 1
  npoint_old := 0
  nline_old := 0
  ntri_old := 0
  npoint_new := 1
  nline_new := 0
  ntri_new := 0
  pts := fun _ => p
  lines := fun _ => ⟨0, 0, 0⟩
  tris := fun _ => ⟨0, 0, 0, 0⟩
  origin0 := o0
  origin1 := o1
  origin2 := o2

/-- Library functions for the sample argument lists: `atof` on the tokens
`"1"` and `"2"` (every other token used there reads as 0, as `atof` gives for
`"0"`); `sqrt`, `sin` and `cos` are not reached by those lists. -/
def sampleLibm : Libm ℚ where
  atof := fun s => if s = "1" then 1 else if s = "2" then 2 else 0
  sqrt := fun x => x
  sin := fun _ => 0
  cos := fun _ => 1

/-- The state an outcome carries: the final state, or the state at the fatal
error. -/
def Outcome.state {σ : Type} : Outcome σ → σ
  | .ok s => s
  | .fatal _ s => s

/-- The 2-D constraint of an operator, in the words of the specification:
`origin` needs `z = 0`, `trans` needs `dz = 0`, `atrans` needs `az = 0`,
`ftrans` needs `fz = 0.5`, `scale` needs `sz = 1`, `rotate` needs the axis
`(0, 0, 1)`; `invert` has none. -/
def Op.constraint2d {α : Type} [Zero α] [One α] [OfScientific α] (L : Libm α) :
    Op → Prop
  | .origin _ _ z => L.atof z = 0
  | .trans _ _ z => L.atof z = 0
  | .atrans _ _ z => L.atof z = 0
  | .ftrans _ _ z => L.atof z = 0.5
  | .scale _ _ z => L.atof z = 1
  | .rotate _ x y z => L.atof x = 0 ∧ L.atof y = 0 ∧ L.atof z = 1
  | .invert => True

/-- The keyword of an operator. -/
def Op.keyword : Op → String
  | .origin _ _ _ => "origin"
  | .trans _ _ _ => "trans"
  | .atrans _ _ _ => "atrans"
  | .ftrans _ _ _ => "ftrans"
  | .scale _ _ _ => "scale"
  | .rotate _ _ _ _ => "rotate"
  | .invert => "invert"

/-- The argument tokens of an operator, in order. -/
def Op.args : Op → List String
  | .origin x y z => [x, y, z]
  | .trans x y z => [x, y, z]
  | .atrans x y z => [x, y, z]
  | .ftrans x y z => [x, y, z]
  | .scale x y z => [x, y, z]
  | .rotate t x y z => [t, x, y, z]
  | .invert => []

/-! ## C strings and the C library

A C string is embedded as the `List Char` of its characters; a `char` array
that holds several strings (a buffer cut by `strtok`) is a `List Char` with NUL
characters in it.  A pointer into an array is embedded as the part of the array
from the pointer on, and a null pointer as `none`. -/

/-- The NUL character that ends a C string. -/
def NUL : Char := Char.ofNat 0

/-- The string held by a `char` array: the characters before the first NUL. -/
def cstr (l : List Char) : List Char := l.takeWhile (fun c => c != NUL)

/-- Membership in the delimiter set `" \t\n\r\f"` that the code passes to
`strtok`. -/
def isDelim (c : Char) : Bool :=
  c == ' ' || c == '\t' || c == '\n' || c == '\r' || c == Char.ofNat 12

/-- Membership in the set `" \t\n\r"` that the code passes to `strspn`. -/
def isBlank (c : Char) : Bool :=
  c == ' ' || c == '\t' || c == '\n' || c == '\r'

/-- The C library `isspace` in the C locale. -/
def isSpace (c : Char) : Bool :=
  c == ' ' || c == '\t' || c == '\n' || c == Char.ofNat 11 || c == Char.ofNat 12 ||
    c == '\r'

/-- The test `strspn(line," \t\n\r") == strlen(line)`: the string is blank. -/
def blank (line : List Char) : Bool := line.all isBlank

/-- The test `strstr(hay,needle) != NULL`: `needle` occurs in `hay`. -/
def strstr : List Char → List Char → Bool
  | [], needle => needle.isEmpty
  | c :: cs, needle => needle.isPrefixOf (c :: cs) || strstr cs needle

/-- The C library `strchr(s,c)` for a character `c` other than NUL: the offset of
the first `c` in the string at `s`, `none` for a null result. -/
def strchr : List Char → Char → Option Nat
  | [], _ => none
  | x :: xs, c =>
    if x = NUL then none
    else if x = c then some 0
    else (strchr xs c).map (fun k => k + 1)

/-- The statement `if (ptr = strchr(line,'#')) *ptr = '\0'`: the string is cut
at its first `#`. -/
def strip_comment (line : List Char) : List Char :=
  match strchr line '#' with
  | some k => line.take k
  | none => cstr line

/-- Value of the leading decimal digits of `s`, continuing from `acc`. -/
def digitsValue : List Char → Nat → Nat
  | [], acc => acc
  | c :: cs, acc =>
    if c.isDigit then digitsValue cs (10 * acc + (c.toNat - 48)) else acc

/-- The decimal conversion shared by `atoi` and by `%d` of `sscanf`: white space
is skipped, then an optional sign and decimal digits are read; `none` when no
digit stands there.  Values outside the range of `int` are not modelled. -/
def scanInt (s : List Char) : Option Int :=
  match s.dropWhile isSpace with
  | [] => none
  | c :: cs =>
    if c = '-' then
      match cs with
      | [] => none
      | d :: _ => if d.isDigit then some (-(digitsValue cs 0 : Int)) else none
    else if c = '+' then
      match cs with
      | [] => none
      | d :: _ => if d.isDigit then some (digitsValue cs 0 : Int) else none
    else if c.isDigit then some (digitsValue (c :: cs) 0 : Int)
    else none

/-- The C library `atoi`: 0 when no number stands at the head of the string. -/
def atoi (s : List Char) : Int := (scanInt s).getD 0

/-- The call `sscanf(line,"%d",&v)`: the new value of `v`, which is left as it
was when the conversion fails. -/
def sscanf_d (line : List Char) (v : Int) : Int := (scanInt line).getD v

/-- The C library `strtok` with the delimiters `" \t\n\r\f"`.  `done` is the
buffer before the pointer at which the scan starts and `rest` the buffer from
there on (`done = []` and `rest = buf` for `strtok(buf, ...)`, the saved state
for `strtok(NULL, ...)`).  The result is the token (`none` for a null result)
and the buffer after the call, split at the pointer `strtok` saves: a NUL has
replaced the delimiter that ended the token. -/
def strtok (done rest : List Char) : Option (List Char) × List Char × List Char :=
  match rest.dropWhile isDelim with
  | [] => (none, done ++ rest.takeWhile isDelim, [])
  | c :: s1 =>
    if c = NUL then (none, done ++ rest.takeWhile isDelim, c :: s1)
    else
      match (c :: s1).dropWhile (fun x => !isDelim x && x != NUL) with
      | [] =>
        (some ((c :: s1).takeWhile (fun x => !isDelim x && x != NUL)),
          done ++ rest.takeWhile isDelim ++
            (c :: s1).takeWhile (fun x => !isDelim x && x != NUL), [])
      | d :: s3 =>
        if d = NUL then
          (some ((c :: s1).takeWhile (fun x => !isDelim x && x != NUL)),
            done ++ rest.takeWhile isDelim ++
              (c :: s1).takeWhile (fun x => !isDelim x && x != NUL), d :: s3)
        else
          (some ((c :: s1).takeWhile (fun x => !isDelim x && x != NUL)),
            done ++ rest.takeWhile isDelim ++
              (c :: s1).takeWhile (fun x => !isDelim x && x != NUL) ++ [NUL], s3)

/-! ## The input stream

All reads are `fgets(.,MAXLINE,fp)`.  The open stream `fp` is embedded as the
list of the character arrays that the successive calls deliver; a call at the end
of the stream returns a null pointer.  Only process 0 reads and every value it
reads is broadcast unchanged, so the embedding follows one process. -/

/-- The call `fgets(s,MAXLINE,fp)`: the string read and the stream after it, or
`none` at the end of the stream. -/
def fgets : List (List Char) → Option (List Char × List (List Char))
  | [] => none
  | l :: fp => some (cstr l, fp)

/-- The state of the reader: the `ReadSurf` object with the arrays, the stream
and the members `line` and `keyword`. -/
structure Reader (α : Type) where
  rs : ReadSurf α
  fp : List (List Char)
  line : List Char
  keyword : List Char

/-! ## Header and keyword scanner -/

/-- The loop `while (strtok(NULL," \t\n\r\f")) n++` of `count_words`, together
with the first call: the number of tokens `strtok` delivers before it returns
null.  Each token takes at least one character, so `fuel` above the length of
the string is never used up. -/
def count_tokens : Nat → List Char → List Char → Nat
  | 0, _, _ => 0
  | fuel + 1, done, rest =>
    match strtok done rest with
    | (none, _, _) => 0
    | (some _, done1, rest1) => 1 + count_tokens fuel done1 rest1

/-- `ReadSurf::count_words` (lines 688-706): the number of words of a line, on a
copy that is cut at its first `#`. -/
def count_words (line : List Char) : Nat :=
  count_tokens ((strip_comment line).length + 1) [] (strip_comment line)

/-- The checks at the end of `ReadSurf::header` (lines 307-311). -/
def header_checks {α : Type} (r : Reader α) : Outcome (Reader α) :=
  if r.rs.npoint_new = 0 then .fatal "Surf files does not contain points" r
  else if r.rs.dimension = 2 ∧ r.rs.nline_new = 0 then
    .fatal "Surf files does not contain lines" r
  else if r.rs.dimension = 3 ∧ r.rs.ntri_new = 0 then
    .fatal "Surf files does not contain triangles" r
  else .ok r

/-- The loop `while (1)` of `ReadSurf::header` (lines 265-305) with what follows
it; the stream `fp` is the first argument.  At the end of the stream the function
returns at once with an empty `line`; a line with none of the three keywords
ends the loop and the checks of lines 307-311 are made. -/
def header_loop {α : Type} : List (List Char) → Reader α → Outcome (Reader α)
  | [], r => .ok { r with fp := [], line := [] }
  | l :: fp, r =>
    if blank (strip_comment (cstr l)) then
      header_loop fp { r with fp := fp, line := strip_comment (cstr l) }
    else if strstr (strip_comment (cstr l)) "points".toList then
      header_loop fp
        { r with
          rs := { r.rs with npoint_new := sscanf_d (strip_comment (cstr l)) r.rs.npoint_new }
          fp := fp
          line := strip_comment (cstr l) }
    else if strstr (strip_comment (cstr l)) "lines".toList then
      if r.rs.dimension = 3 then
        .fatal "Surf file cannot contain lines for 3d simulation"
          { r with fp := fp, line := strip_comment (cstr l) }
      else
        header_loop fp
          { r with
            rs := { r.rs with nline_new := sscanf_d (strip_comment (cstr l)) r.rs.nline_new }
            fp := fp
            line := strip_comment (cstr l) }
    else if strstr (strip_comment (cstr l)) "tris".toList then
      if r.rs.dimension = 2 then
        .fatal "Surf file cannot contain triangles for 2d simulation"
          { r with fp := fp, line := strip_comment (cstr l) }
      else
        header_loop fp
          { r with
            rs := { r.rs with ntri_new := sscanf_d (strip_comment (cstr l)) r.rs.ntri_new }
            fp := fp
            line := strip_comment (cstr l) }
    else header_checks { r with fp := fp, line := strip_comment (cstr l) }

/-- `ReadSurf::header` (lines 251-312): the title line is read and dropped, the
three counts are set to 0, and the header lines are scanned. -/
def header {α : Type} (r : Reader α) : Outcome (Reader α) :=
  match fgets r.fp with
  | none => .fatal "Unexpected end of data file" r
  | some (title, fp1) =>
    header_loop fp1
      { r with
        rs := { r.rs with npoint_new := 0, nline_new := 0, ntri_new := 0 }
        fp := fp1
        line := title }

/-- The loop `while (eof == 0 && strspn(line," \t\n\r") == strlen(line))` of
`parse_keyword` (lines 651-653): the result is `eof`, `line` and the stream. -/
def skip_blank_lines : List Char → List (List Char) → Bool × List Char × List (List Char)
  | line, [] => (blank line, line, [])
  | line, l :: fp =>
    if blank line then skip_blank_lines (cstr l) fp else (false, line, l :: fp)

/-- The string `keyword` that `parse_keyword` copies out of `line` (lines
674-679): `line` without its leading and trailing blanks. -/
def trim (line : List Char) : List Char :=
  ((line.reverse.dropWhile isBlank).reverse).dropWhile isBlank

/-- `ReadSurf::parse_keyword` (lines 640-680).  With `first` the scan starts at
the `line` that ended the header, otherwise at the next line of the stream;
blank lines are skipped, one more line is read after the keyword line, and
`keyword` is empty when a read met the end of the stream. -/
def parse_keyword {α : Type} (first : Bool) (r : Reader α) : Reader α :=
  let start : Bool × List Char × List (List Char) :=
    if first then (false, r.line, r.fp)
    else
      match fgets r.fp with
      | none => (true, r.line, r.fp)
      | some (l, fp1) => (false, l, fp1)
  let found : Bool × List Char × List (List Char) :=
    if start.1 then start else skip_blank_lines start.2.1 start.2.2
  match fgets found.2.2 with
  | none => { r with fp := found.2.2, line := found.2.1, keyword := [] }
  | some (_, fp2) =>
    if found.1 then { r with fp := fp2, line := found.2.1, keyword := [] }
    else
      { r with fp := fp2, line := (found.2.1.reverse.dropWhile isBlank).reverse,
               keyword := trim found.2.1 }

/-! ## Section streamer -/

/-- The constant `CHUNK`. -/
def CHUNK : Int := 1024

/-- The loop `for (i = 0; i < nchunk; i++)` that fills `buffer` (lines 334-338
and its two copies): `nchunk` strings are read and laid end to end; `none` when
a read meets the end of the stream. -/
def read_chunk : Nat → List (List Char) → Option (List Char × List (List Char))
  | 0, fp => some ([], fp)
  | i + 1, fp =>
    match fgets fp with
    | none => none
    | some (l, fp1) =>
      match read_chunk i fp1 with
      | none => none
      | some (b, fp2) => some (l ++ b, fp2)

/-- The loop `while (nread < n_new)` shared by `read_points` (lines 325-367),
`read_lines` (lines 386-429) and `read_tris` (lines 449-495).  `total` is the
count `n_new` of the section, `n` the store index of the next record, and
`chunk rs n nchunk buffer` is what the function does with one buffer of `nchunk`
records.  The result is `none` when the C code has no defined behaviour (a null
pointer is used). -/
def read_section {α : Type}
    (chunk : ReadSurf α → Int → Nat → List Char → Option (Outcome (ReadSurf α)))
    (total nread n : Int) (r : Reader α) : Option (Outcome (Reader α)) :=
  if nread < total then
    match read_chunk (if total - nread > CHUNK then CHUNK else total - nread).toNat r.fp with
    | none => some (.fatal "Unexpected end of surf file" r)
    | some (buffer, fp1) =>
      match chunk r.rs n (if total - nread > CHUNK then CHUNK else total - nread).toNat
          buffer with
      | none => none
      | some (.fatal msg rs1) => some (.fatal msg { r with rs := rs1, fp := fp1 })
      | some (.ok rs1) =>
        read_section chunk total
          (nread + (if total - nread > CHUNK then CHUNK else total - nread))
          (n + (if total - nread > CHUNK then CHUNK else total - nread))
          { r with rs := rs1, fp := fp1 }
  else some (.ok r)
termination_by (total - nread).toNat
decreasing_by
  simp only [CHUNK]
  split <;> omega

/-- The body of the record loop of `read_points` (lines 356-363) at the pointer
`buf`, embedded as the buffer `s` from `buf` on: the point read and the pointer
`next + 1`.  The first token is dropped and the following ones go through
`atof`.  The result is `none` when `strtok` returns a null pointer that is
passed to `atof`. -/
def read_points_record {α : Type} [Zero α] (L : Libm α) (dimension : Int)
    (s : List Char) : Option (Point α × Option (List Char)) :=
  match (strtok (strtok [] s).2.1 (strtok [] s).2.2) with
  | (none, _, _) => none
  | (some t1, done1, rest1) =>
    match strtok done1 rest1 with
    | (none, _, _) => none
    | (some t2, done2, rest2) =>
      if dimension = 3 then
        match strtok done2 rest2 with
        | (none, _, _) => none
        | (some t3, done3, rest3) =>
          some (⟨L.atof (String.mk t1), L.atof (String.mk t2), L.atof (String.mk t3)⟩,
            (strchr s '\n').map (fun k => (done3 ++ rest3).drop (k + 1)))
      else
        some (⟨L.atof (String.mk t1), L.atof (String.mk t2), 0⟩,
          (strchr s '\n').map (fun k => (done2 ++ rest2).drop (k + 1)))

/-- The record loop `for (int i = 0; i < nchunk; i++)` of `read_points` (lines
355-364): `n` is the store index and `buf` the pointer, `none` once it is
`NULL + 1`. -/
def read_points_records {α : Type} [Zero α] (L : Libm α) (dimension : Int) :
    Nat → Int → Option (List Char) → (Int → Point α) → Option (Int → Point α)
  | 0, _, _, pts => some pts
  | _ + 1, _, none, _ => none
  | i + 1, n, some s, pts =>
    match read_points_record L dimension s with
    | none => none
    | some (p, buf) => read_points_records L dimension i (n + 1) buf (Function.update pts n p)

/-- What `read_points` does with one buffer (lines 344-364): the word count of
the first line is checked, then the records are read.  The result is `none` when
the buffer holds no newline, which `*next = '\0'` needs. -/
def read_points_chunk {α : Type} [Zero α] (L : Libm α) (rs : ReadSurf α) (n : Int)
    (nchunk : Nat) (buffer : List Char) : Option (Outcome (ReadSurf α)) :=
  match strchr buffer '\n' with
  | none => none
  | some k =>
    if rs.dimension = 2 ∧ count_words (buffer.take k) ≠ 3 then
      some (.fatal "Incorrect point format in surf file" rs)
    else if rs.dimension = 3 ∧ count_words (buffer.take k) ≠ 4 then
      some (.fatal "Incorrect point format in surf file" rs)
    else
      match read_points_records L rs.dimension nchunk n (some buffer) rs.pts with
      | none => none
      | some pts => some (.ok { rs with pts := pts })

/-- `ReadSurf::read_points` (lines 318-373). -/
def read_points {α : Type} [Zero α] (L : Libm α) (r : Reader α) :
    Option (Outcome (Reader α)) :=
  read_section (read_points_chunk L) r.rs.npoint_new 0 r.rs.npoint_old r

/-- The tokens of one record of `read_lines` (lines 415-418 and 425) at the
pointer `buf`: `p1`, `p2` and the pointer `next + 1`. -/
def read_lines_tokens (s : List Char) : Option (Int × Int × Option (List Char)) :=
  match (strtok (strtok [] s).2.1 (strtok [] s).2.2) with
  | (none, _, _) => none
  | (some t1, done1, rest1) =>
    match strtok done1 rest1 with
    | (none, _, _) => none
    | (some t2, done2, rest2) =>
      some (atoi t1, atoi t2, (strchr s '\n').map (fun k => (done2 ++ rest2).drop (k + 1)))

/-- The record loop of `read_lines` (lines 414-426). -/
def read_lines_records {α : Type} :
    Nat → Int → Option (List Char) → ReadSurf α → Option (Outcome (ReadSurf α))
  | 0, _, _, st => some (.ok st)
  | _ + 1, _, none, _ => none
  | i + 1, n, some s, st =>
    match read_lines_tokens s with
    | none => none
    | some (p1, p2, buf) =>
      match read_lines_record st n p1 p2 with
      | .fatal msg st1 => some (.fatal msg st1)
      | .ok st1 => read_lines_records i (n + 1) buf st1

/-- What `read_lines` does with one buffer (lines 405-426). -/
def read_lines_chunk {α : Type} (rs : ReadSurf α) (n : Int) (nchunk : Nat)
    (buffer : List Char) : Option (Outcome (ReadSurf α)) :=
  match strchr buffer '\n' with
  | none => none
  | some k =>
    if count_words (buffer.take k) ≠ 3 then
      some (.fatal "Incorrect line format in surf file" rs)
    else read_lines_records nchunk n (some buffer) rs

/-- `ReadSurf::read_lines` (lines 379-435). -/
def read_lines {α : Type} (r : Reader α) : Option (Outcome (Reader α)) :=
  read_section read_lines_chunk r.rs.nline_new 0 r.rs.nline_old r

/-- The tokens of one record of `read_tris` (lines 478-482 and 491) at the
pointer `buf`: `p1`, `p2`, `p3` and the pointer `next + 1`. -/
def read_tris_tokens (s : List Char) :
    Option (Int × Int × Int × Option (List Char)) :=
  match (strtok (strtok [] s).2.1 (strtok [] s).2.2) with
  | (none, _, _) => none
  | (some t1, done1, rest1) =>
    match strtok done1 rest1 with
    | (none, _, _) => none
    | (some t2, done2, rest2) =>
      match strtok done2 rest2 with
      | (none, _, _) => none
      | (some t3, done3, rest3) =>
        some (atoi t1, atoi t2, atoi t3,
          (strchr s '\n').map (fun k => (done3 ++ rest3).drop (k + 1)))

/-- The record loop of `read_tris` (lines 477-492). -/
def read_tris_records {α : Type} :
    Nat → Int → Option (List Char) → ReadSurf α → Option (Outcome (ReadSurf α))
  | 0, _, _, st => some (.ok st)
  | _ + 1, _, none, _ => none
  | i + 1, n, some s, st =>
    match read_tris_tokens s with
    | none => none
    | some (p1, p2, p3, buf) =>
      match read_tris_record st n p1 p2 p3 with
      | .fatal msg st1 => some (.fatal msg st1)
      | .ok st1 => read_tris_records i (n + 1) buf st1

/-- What `read_tris` does with one buffer (lines 468-492). -/
def read_tris_chunk {α : Type} (rs : ReadSurf α) (n : Int) (nchunk : Nat)
    (buffer : List Char) : Option (Outcome (ReadSurf α)) :=
  match strchr buffer '\n' with
  | none => none
  | some k =>
    if count_words (buffer.take k) ≠ 4 then
      some (.fatal "Incorrect triangle format in surf file" rs)
    else read_tris_records nchunk n (some buffer) rs

/-- `ReadSurf::read_tris` (lines 442-501). -/
def read_tris {α : Type} (r : Reader α) : Option (Outcome (Reader α)) :=
  read_section read_tris_chunk r.rs.ntri_new 0 r.rs.ntri_old r

/-! ## Coordinator -/

/-- Modelled from the spec: the members of `Surf` (declared in `surf.h`) that
`ReadSurf::command` reads and writes, the Geometry Store: the three counts and
the three arrays. -/
structure Surf (α : Type) where
  npoint : Int
  nline : Int
  ntri : Int
  pts : Int → Point α
  lines : Int → Line
  tris : Int → Tri

/-- The state of the reader when `command` starts on the store `surf`: the old
counts are those of the store (lines 84-86) and the arrays are the arrays of the
store, grown for the new records (lines 88-96).  `origin` is not read before
line 125 sets it. -/
def Reader.start {α : Type} [Zero α] (dimension id : Int) (surf : Surf α)
    (fp : List (List Char)) : Reader α where
  rs :=
    { dimension := dimension
      id := id
      npoint_old := surf.npoint
      nline_old := surf.nline
      ntri_old := surf.ntri
      npoint_new := 0
      nline_new := 0
      ntri_new := 0
      pts := surf.pts
      lines := surf.lines
      tris := surf.tris
      origin0 := 0
      origin1 := 0
      origin2 := 0 }
  fp := fp
  line := []
  keyword := []

/-- Lines 100-114 of `command`: the keyword `Points` and the Points section,
then the keyword and the section of the elements, lines in 2-D and triangles
otherwise. -/
def read_sections {α : Type} [Zero α] (L : Libm α) (r : Reader α) :
    Option (Outcome (Reader α)) :=
  if (parse_keyword true r).keyword ≠ "Points".toList then
    some (.fatal "Surf file cannot parse Points section" (parse_keyword true r))
  else
    match read_points L (parse_keyword true r) with
    | none => none
    | some (.fatal msg r1) => some (.fatal msg r1)
    | some (.ok r1) =>
      if r1.rs.dimension = 2 then
        if (parse_keyword false r1).keyword ≠ "Lines".toList then
          some (.fatal "Surf file cannot parse Lines section" (parse_keyword false r1))
        else read_lines (parse_keyword false r1)
      else
        if (parse_keyword false r1).keyword ≠ "Triangles".toList then
          some (.fatal "Surf file cannot parse Triangles section" (parse_keyword false r1))
        else read_tris (parse_keyword false r1)

/-- Lines 71-114 of `command`: the file is opened (`file` is its stream, `none`
when it cannot be opened), the header is read and then the two sections. -/
def command_read {α : Type} [Zero α] (L : Libm α) (dimension id : Int)
    (surf : Surf α) (name : String) (file : Option (List (List Char))) :
    Option (Outcome (Reader α)) :=
  match file with
  | none => some (.fatal ("Cannot open file " ++ name) (Reader.start dimension id surf []))
  | some fp =>
    match header (Reader.start dimension id surf fp) with
    | .fatal msg r => some (.fatal msg r)
    | .ok r => read_sections L r

/-- Lines 229-235 of `command`: the arrays and the new counts are written back
to the store. -/
def commit {α : Type} (st : ReadSurf α) : Surf α where
  npoint := st.npoint_old + st.npoint_new
  nline := st.nline_old + st.nline_new
  ntri := st.ntri_old + st.ntri_new
  pts := st.pts
  lines := st.lines
  tris := st.tris

/-- The state that the operators of the keyword loop work on.  `translate`,
`scale`, `rotate` and `invert` each read `surf->pts`, `surf->lines` or
`surf->tris` anew (lines 510, 528, 554, 579, 591).  `command` has grown the
arrays into its own pointers (lines 80-96) and hands these to `surf` only after
the loop (lines 229-231), so during the loop the pointers of `surf` are those of
the blocks before the growth: the arrays of the store `surf`, not the arrays
that the sections were read into.  The growth is taken to move each array to a
new block, as it does for an empty store; an entry of the block of the store
past its end is whatever the array of the store holds there.  That the block may
have been released by the growth, or be null, is not modelled. -/
def store_arrays {α : Type} (surf : Surf α) (st : ReadSurf α) : ReadSurf α :=
  { st with pts := surf.pts, lines := surf.lines, tris := surf.tris }

/-- The state `st` with the arrays of `rs`, the grown arrays that the sections
were read into: the pointers `pts`, `lines` and `tris` of `command`, which
lines 229-231 hand to the store. -/
def grown_arrays {α : Type} (rs st : ReadSurf α) : ReadSurf α :=
  { st with pts := rs.pts, lines := rs.lines, tris := rs.tris }

/-- `ReadSurf::command` (lines 54-241), up to the write back to the store, which
is `commit` of the final state: `grid_exist` is the flag of the grid, `dimension`
is `domain->dimension`, `id` the surface id that `surf->add_id(arg[0])` returns,
`arg` the arguments and `file` the stream of the file `arg[1]`.  The keyword loop
runs on the arrays that `surf` points at (`store_arrays`); the state returned
holds the grown arrays, which go to the store. -/
def command {α : Type} [Add α] [Sub α] [Mul α] [Div α] [Zero α] [One α]
    [OfScientific α] [DecidableEq α] (L : Libm α) (dom : Domain α)
    (grid_exist : Bool) (dimension id : Int) (surf : Surf α) (arg : List String)
    (file : Option (List (List Char))) : Option (Outcome (ReadSurf α)) :=
  if grid_exist = false then
    some (.fatal "Cannot read_surf before grid is defined"
      (Reader.start dimension id surf []).rs)
  else if arg.length < 2 then
    some (.fatal "Illegal read_surf command" (Reader.start dimension id surf []).rs)
  else
    match command_read L dimension id surf (arg.getD 1 "") file with
    | none => none
    | some (.fatal msg r) => some (.fatal msg r.rs)
    | some (.ok r) =>
      match transform_pipeline L dom (arg.drop 2) (store_arrays surf r.rs) with
      | .fatal msg st => some (.fatal msg (grown_arrays r.rs st))
      | .ok st => some (.ok (grown_arrays r.rs st))

/-! ## Words of the specification about files -/

/-- A line that keeps the header going: blank once its comment is cut off, or
holding one of the three header keywords. -/
def HeaderLine (l : List Char) : Prop :=
  blank (strip_comment (cstr l)) = true ∨
    strstr (strip_comment (cstr l)) "points".toList = true ∨
    strstr (strip_comment (cstr l)) "lines".toList = true ∨
    strstr (strip_comment (cstr l)) "tris".toList = true

/-- Number of maximal runs of non-delimiter characters in `s`; `inWord` says
that the character before `s` belongs to a run. -/
def wordRuns : Bool → List Char → Nat
  | _, [] => 0
  | inWord, c :: cs =>
    if isDelim c then wordRuns false cs
    else (if inWord then 0 else 1) + wordRuns true cs

/-- A store without points, lines and triangles. -/
def emptyStore : Surf ℚ := ⟨0, 0, 0, fun _ => ⟨0, 0, 0⟩, fun _ => ⟨0, 0, 0⟩, fun _ => ⟨0, 0, 0, 0⟩⟩

/-- A store that holds five points and five lines from earlier calls. -/
def fiveStore : Surf ℚ := ⟨5, 5, 0, fun _ => ⟨1, 1, 0⟩, fun _ => ⟨1, 1, 2⟩, fun _ => ⟨0, 0, 0, 0⟩⟩

/-- The sizes `nchunk` of the batches that the loop `while (nread < n_new)`
forms for the count `total`, starting with `nread` records read: the loop of
`read_section` without the reads. -/
def batch_sizes (total nread : Int) : List Int :=
  if nread < total then
    (if total - nread > CHUNK then CHUNK else total - nread) ::
      batch_sizes total (nread + (if total - nread > CHUNK then CHUNK else total - nread))
  else []
termination_by (total - nread).toNat
decreasing_by
  simp only [CHUNK]
  split <;> omega

/-- Batches of the given sizes read and handled one after the other, the batch
of size `c` at store index `n` being followed by the next at `n + c`. -/
def run_batches {α : Type}
    (chunk : ReadSurf α → Int → Nat → List Char → Option (Outcome (ReadSurf α))) :
    List Int → Int → Reader α → Option (Outcome (Reader α))
  | [], _, r => some (.ok r)
  | c :: cs, n, r =>
    match read_chunk c.toNat r.fp with
    | none => some (.fatal "Unexpected end of surf file" r)
    | some (buffer, fp1) =>
      match chunk r.rs n c.toNat buffer with
      | none => none
      | some (.fatal msg rs1) => some (.fatal msg { r with rs := rs1, fp := fp1 })
      | some (.ok rs1) => run_batches chunk cs (n + c) { r with rs := rs1, fp := fp1 }

/-- A run of blanks inside a data line: delimiters other than the newline. -/
def Blanks (ws : List Char) : Prop :=
  ∀ c ∈ ws, c = ' ' ∨ c = '\t' ∨ c = '\r' ∨ c = Char.ofNat 12

/-- A field of a data line: a nonempty run of characters that are neither
delimiters nor NUL nor `#`. -/
def Word (t : List Char) : Prop :=
  t ≠ [] ∧ ∀ c ∈ t, isDelim c = false ∧ c ≠ NUL ∧ c ≠ '#'

/-- A data line with three fields, the leading record index `f0` and two values
`f1`, `f2`, with the blanks around them. -/
structure Record3 where
  lead : List Char
  f0 : List Char
  sep1 : List Char
  f1 : List Char
  sep2 : List Char
  f2 : List Char
  trail : List Char
deriving DecidableEq

/-- The characters of a data line before its newline. -/
def Record3.body (r : Record3) : List Char :=
  r.lead ++ (r.f0 ++ (r.sep1 ++ (r.f1 ++ (r.sep2 ++ (r.f2 ++ r.trail)))))

/-- The text of a data line. -/
def Record3.text (r : Record3) : List Char := r.body ++ ['\n']

/-- The data line is well formed: three fields separated by blanks. -/
def Record3.WellFormed (r : Record3) : Prop :=
  Blanks r.lead ∧ Word r.f0 ∧ Blanks r.sep1 ∧ r.sep1 ≠ [] ∧ Word r.f1 ∧
    Blanks r.sep2 ∧ r.sep2 ≠ [] ∧ Word r.f2 ∧ Blanks r.trail

/-- The array after the values `vals` are stored at the indices `n`, `n + 1`,
and so on. -/
def storeAt {β : Type} : List β → Int → (Int → β) → (Int → β)
  | [], _, a => a
  | v :: vs, n, a => storeAt vs (n + 1) (Function.update a n v)

/-- The texts of data lines laid end to end, as a buffer holds them. -/
def joinTexts : List (List Char) → List Char
  | [] => []
  | l :: ls => l ++ joinTexts ls

/-- The point that a data line stands for in a 2-D file: the second and third
fields through `atof`, and a zero. -/
def Record3.point {α : Type} [Zero α] (L : Libm α) (r : Record3) : Point α :=
  ⟨L.atof (String.mk r.f1), L.atof (String.mk r.f2), 0⟩

/-- The line element that a data line stands for: the owning surface and the
second and third fields through `atoi`. -/
def Record3.line (id : Int) (r : Record3) : Line := ⟨id, atoi r.f1, atoi r.f2⟩

/-- The two point indices of the data line are distinct and lie in `1..N`. -/
def Record3.ValidLine (N : Int) (r : Record3) : Prop :=
  1 ≤ atoi r.f1 ∧ atoi r.f1 ≤ N ∧ 1 ≤ atoi r.f2 ∧ atoi r.f2 ≤ N ∧ atoi r.f1 ≠ atoi r.f2

/-- A data line with four fields, the leading record index `f0` and three values
`f1`, `f2`, `f3`, with the blanks around them. -/
structure Record4 where
  lead : List Char
  f0 : List Char
  sep1 : List Char
  f1 : List Char
  sep2 : List Char
  f2 : List Char
  sep3 : List Char
  f3 : List Char
  trail : List Char

/-- The characters of a data line of four fields before its newline. -/
def Record4.body (r : Record4) : List Char :=
  r.lead ++ (r.f0 ++ (r.sep1 ++ (r.f1 ++ (r.sep2 ++ (r.f2 ++ (r.sep3 ++ (r.f3 ++ r.trail)))))))

/-- The text of a data line of four fields. -/
def Record4.text (r : Record4) : List Char := r.body ++ ['\n']

/-- The data line is well formed: four fields separated by blanks. -/
def Record4.WellFormed (r : Record4) : Prop :=
  Blanks r.lead ∧ Word r.f0 ∧ Blanks r.sep1 ∧ r.sep1 ≠ [] ∧ Word r.f1 ∧
    Blanks r.sep2 ∧ r.sep2 ≠ [] ∧ Word r.f2 ∧ Blanks r.sep3 ∧ r.sep3 ≠ [] ∧ Word r.f3 ∧
    Blanks r.trail

/-- The point that a data line stands for in a 3-D file: the second, third and
fourth fields through `atof`. -/
def Record4.point {α : Type} (L : Libm α) (r : Record4) : Point α :=
  ⟨L.atof (String.mk r.f1), L.atof (String.mk r.f2), L.atof (String.mk r.f3)⟩

/-- The triangle that a data line stands for: the owning surface and the second,
third and fourth fields through `atoi`. -/
def Record4.tri (id : Int) (r : Record4) : Tri := ⟨id, atoi r.f1, atoi r.f2, atoi r.f3⟩

/-- The three point indices of the data line lie in `1..N`, and the second
differs from the first and from the third. -/
def Record4.ValidTri (N : Int) (r : Record4) : Prop :=
  1 ≤ atoi r.f1 ∧ atoi r.f1 ≤ N ∧ 1 ≤ atoi r.f2 ∧ atoi r.f2 ≤ N ∧
    1 ≤ atoi r.f3 ∧ atoi r.f3 ≤ N ∧ atoi r.f1 ≠ atoi r.f2 ∧ atoi r.f2 ≠ atoi r.f3

instance Record3.decidableWellFormed : DecidablePred Record3.WellFormed := fun r => by
  unfold Record3.WellFormed Blanks Word
  infer_instance

instance Record3.decidableValidLine (N : Int) : DecidablePred (Record3.ValidLine N) := fun r => by
  unfold Record3.ValidLine
  infer_instance

/-- The data line `f0 f1 f2`. -/
def Record3.ofFields (f0 f1 f2 : String) : Record3 :=
  ⟨[], f0.toList, [' '], f1.toList, [' '], f2.toList, []⟩

/-- The Lines data `1 1 2` and `2 2 3`. -/
def sampleLineRecs : List Record3 := [.ofFields "1" "1" "2", .ofFields "2" "2" "3"]

/-- The Points data `1 1 1`, `2 2 1` and `3 2 2`. -/
def samplePointRecs : List Record3 :=
  [.ofFields "1" "1" "1", .ofFields "2" "2" "1", .ofFields "3" "2" "2"]

/-- A reader in two dimensions at the start of its Lines section: surface 7, the
store holds five lines, three points were read and two lines are declared. -/
def sampleLinesReader : Reader ℚ :=
  { Reader.start 2 7 fiveStore (sampleLineRecs.map Record3.text) with
    rs :=
      { (Reader.start 2 7 fiveStore []).rs with
        npoint_new := 3
        nline_new := 2 } }

/-- A header line that declares `n` points: not blank once its comment is cut
off, holding `points`, with the leading integer `n`. -/
def PointsDecl (n : Int) (l : List Char) : Prop :=
  blank (strip_comment (cstr l)) = false ∧
    strstr (strip_comment (cstr l)) "points".toList = true ∧
    scanInt (strip_comment (cstr l)) = some n

/-- A header line that declares `m` lines: not blank once its comment is cut
off, holding `lines` and not `points`, with the leading integer `m`. -/
def LinesDecl (m : Int) (l : List Char) : Prop :=
  blank (strip_comment (cstr l)) = false ∧
    strstr (strip_comment (cstr l)) "points".toList = false ∧
    strstr (strip_comment (cstr l)) "lines".toList = true ∧
    scanInt (strip_comment (cstr l)) = some m

/-- The constant `MAXLINE`. -/
def MAXLINE : Nat := 256

/-- The characters that one call `fgets(s,n+1,fp)` takes from the text `t` that
the file still holds: those up to and including the first newline, and at most
`n` of them. -/
def fgets_take : Nat → List Char → List Char
  | 0, _ => []
  | _ + 1, [] => []
  | n + 1, c :: t => if c = '\n' then [c] else c :: fgets_take n t

/-- The strings that the successive calls `fgets(.,MAXLINE,fp)` deliver from a
file with the text `t`, up to the end of the file: a line of more than
`MAXLINE - 1` characters arrives in pieces. -/
def fgets_all (t : List Char) : List (List Char) :=
  match t with
  | [] => []
  | c :: t1 =>
    fgets_take (MAXLINE - 1) (c :: t1) ::
      fgets_all ((c :: t1).drop (fgets_take (MAXLINE - 1) (c :: t1)).length)
termination_by t.length
decreasing_by
  simp only [MAXLINE, fgets_take, List.length_drop, List.length_cons]
  split
  · simp
  · simp
    omega

/-- A line of a file that one call of `fgets` delivers whole: it ends with its
newline, holds no other newline, and has at most `MAXLINE - 1` characters, the
newline included. -/
def FileLine (l : List Char) : Prop :=
  l.length ≤ MAXLINE - 1 ∧ l.getLast? = some '\n' ∧ '\n' ∉ l.dropLast

/-- A 2-D surface file, line by line: the title, the header lines, the keyword
line `Points` with the line behind it, the Points data lines, the lines up to
the keyword line `Lines` with the line behind it, the Lines data lines, and the
text that follows them. -/
structure File2D where
  title : List Char
  header : List (List Char)
  sepP : List Char
  points : List Record3
  gap : List (List Char)
  sepL : List Char
  lines : List Record3
  rest : List Char

/-- The text of the file: its lines one after the other. -/
def File2D.text (f : File2D) : List Char :=
  f.title ++ (joinTexts f.header ++ ("Points\n".toList ++ (f.sepP ++
    (joinTexts (f.points.map Record3.text) ++ (joinTexts f.gap ++ ("Lines\n".toList ++
      (f.sepL ++ (joinTexts (f.lines.map Record3.text) ++ f.rest))))))))

/-- The strings that the successive reads of the file deliver. -/
def File2D.stream (f : File2D) : List (List Char) := fgets_all f.text

/-- The lines of the file, followed by the strings that the reads deliver from
the text behind the Lines data lines. -/
def File2D.strings (f : File2D) : List (List Char) :=
  f.title :: (f.header ++ ("Points\n".toList :: f.sepP :: (f.points.map Record3.text ++
    (f.gap ++ ("Lines\n".toList :: f.sepL :: (f.lines.map Record3.text ++
      fgets_all f.rest))))))

/-- The sections of the 2-D file are well formed: every header line is blank or
a comment, or declares the number of Points data lines, or declares the number
of Lines data lines, and both are declared; there is at least one data line in
each section; the data lines have three fields; the lines between the sections
are blank; and the point indices of every Lines data line are distinct and lie
in `1..n`. -/
def File2D.Sections (f : File2D) : Prop :=
  (∀ l ∈ f.header, blank (strip_comment (cstr l)) = true ∨
    PointsDecl f.points.length l ∨ LinesDecl f.lines.length l) ∧
  (∃ l ∈ f.header, PointsDecl f.points.length l) ∧
  (∃ l ∈ f.header, LinesDecl f.lines.length l) ∧
  f.points ≠ [] ∧ f.lines ≠ [] ∧
  (∀ p ∈ f.points, p.WellFormed) ∧
  (∀ g ∈ f.gap, blank (cstr g) = true) ∧
  (∀ l ∈ f.lines, l.WellFormed) ∧
  (∀ l ∈ f.lines, l.ValidLine f.points.length)

/-- Every line of the 2-D file up to its last Lines data line is delivered whole
by one call of `fgets`: it ends with its newline and has at most `MAXLINE - 1`
characters. -/
def File2D.FitsLines (f : File2D) : Prop :=
  FileLine f.title ∧ (∀ l ∈ f.header, FileLine l) ∧ FileLine f.sepP ∧
  (∀ p ∈ f.points, p.text.length ≤ MAXLINE - 1) ∧ (∀ g ∈ f.gap, FileLine g) ∧
  FileLine f.sepL ∧ (∀ l ∈ f.lines, l.text.length ≤ MAXLINE - 1)

/-- The 2-D file is well formed: its sections are, and each of its lines fits
one read. -/
def File2D.WellFormed (f : File2D) : Prop := f.Sections ∧ f.FitsLines

/-- The state of the reader that the specification describes after the 2-D file
`f` is read on top of the store `surf` for the surface `id`: the data lines are
appended to the points and to the lines of the store. -/
def File2D.result {α : Type} [Zero α] (L : Libm α) (id : Int) (surf : Surf α)
    (f : File2D) : ReadSurf α where
  dimension := 2
  id := id
  npoint_old := surf.npoint
  nline_old := surf.nline
  ntri_old := surf.ntri
  npoint_new := f.points.length
  nline_new := f.lines.length
  ntri_new := 0
  pts := storeAt (f.points.map (Record3.point L)) surf.npoint surf.pts
  lines := storeAt (f.lines.map (Record3.line id)) surf.nline surf.lines
  tris := surf.tris
  origin0 := 0
  origin1 := 0
  origin2 := 0

instance PointsDecl.decidable (n : Int) : DecidablePred (PointsDecl n) := fun l => by
  unfold PointsDecl
  infer_instance

instance LinesDecl.decidable (m : Int) : DecidablePred (LinesDecl m) := fun l => by
  unfold LinesDecl
  infer_instance

instance FileLine.decidable : DecidablePred FileLine := fun l => by
  unfold FileLine
  infer_instance

instance File2D.decidableWellFormed : DecidablePred File2D.WellFormed := fun f => by
  unfold File2D.WellFormed File2D.Sections File2D.FitsLines
  infer_instance

/-- A 2-D file of three points and two lines: a title, a header with blank lines
that declares `3 points` and `2 lines`, the Points data `1 1 1`, `2 2 1`,
`3 2 2`, a blank line, and the Lines data `1 1 2`, `2 2 3`. -/
def sampleFile2D : File2D where
  title := "three points\n".toList
  header := ["\n".toList, "3 points\n".toList, "2 lines\n".toList, "\n".toList]
  sepP := "\n".toList
  points := samplePointRecs
  gap := ["\n".toList]
  sepL := "\n".toList
  lines := sampleLineRecs
  rest := []

/-- A reader in two dimensions whose header ended at the keyword line `Points`,
on a file with three Points data lines that goes on with a section
`Triangles`. -/
def sampleTrianglesReader : Reader ℚ :=
  { Reader.start 2 7 emptyStore ("\n".toList :: (samplePointRecs.map Record3.text ++
      ["\n".toList, "Triangles\n".toList, "\n".toList])) with
    rs :=
      { (Reader.start 2 7 emptyStore []).rs with
        npoint_new := 3
        nline_new := 2 }
    line := "Points\n".toList }

/-- A 2-D file whose header declares `-1 points` and `-1 lines` and whose two
sections hold no data line. -/
def negativeCountFile : List (List Char) :=
  ["title\n".toList, "-1 points\n".toList, "-1 lines\n".toList, "Points\n".toList,
    "\n".toList, "Lines\n".toList, "\n".toList]

/-- The 2-D planarity of a state: the third component of the origin is zero, and
so is the third coordinate of every new point, those at the indices from
`npoint_old` up to `npoint_old + npoint_new`. -/
def Planar {α : Type} [Zero α] (st : ReadSurf α) : Prop :=
  st.origin2 = 0 ∧
    ∀ j, st.npoint_old ≤ j → j < st.npoint_old + st.npoint_new → (st.pts j).x2 = 0

/-! ## IEEE-754 binary64

The `double` values with the arithmetic of IEEE-754 binary64 in its default
rounding mode: each operation returns the exact result rounded to the nearest
value, ties to the even significand, with gradual underflow and with overflow to
an infinity.  A finite value is given by the rational number it stands for; the
operations take values of the format to values of the format.  The sign of a
zero is not modelled, and all NaNs are one value.  The comparisons `x == c` and
`x != c` of the code with a constant `c` are the equality of this type. -/

/-- Round a rational number to the nearest integer, ties to the even one. -/
def roundHalfEven (x : ℚ) : Int :=
  if x - ⌊x⌋ < 1 / 2 then ⌊x⌋
  else if 1 / 2 < x - ⌊x⌋ then ⌊x⌋ + 1
  else if ⌊x⌋ % 2 = 0 then ⌊x⌋ else ⌊x⌋ + 1

/-- A `double`: a finite value, an infinity with its sign, or a NaN. -/
inductive Binary64 where
  | fin (q : ℚ)
  | inf (neg : Bool)
  | nan
deriving DecidableEq

/-- The spacing of the `double` values around `q`: `2 ^ (e - 52)` where `2 ^ e`
is the power of two at or below `|q|`, and `e = -1022` for the subnormal
values. -/
def Binary64.quantum (q : ℚ) : ℚ := 2 ^ (max (Int.log 2 |q|) (-1022) - 52)

/-- The `double` nearest to the rational number `q`, ties to even; an infinity
from `2^1024 - 2^970` on, the midpoint between the largest finite value and
`2^1024`. -/
def Binary64.round (q : ℚ) : Binary64 :=
  if q = 0 then .fin 0
  else if (2 : ℚ) ^ 1024 - 2 ^ 970 ≤ |q| then .inf (decide (q < 0))
  else .fin (roundHalfEven (q / Binary64.quantum q) * Binary64.quantum q)

/-- The negation of a `double`. -/
def Binary64.neg : Binary64 → Binary64
  | .fin q => .fin (-q)
  | .inf s => .inf (!s)
  | .nan => .nan

/-- The sum of two `double` values. -/
def Binary64.add : Binary64 → Binary64 → Binary64
  | .fin x, .fin y => Binary64.round (x + y)
  | .fin _, .inf b => .inf b
  | .inf a, .fin _ => .inf a
  | .inf a, .inf b => if a = b then .inf a else .nan
  | _, _ => .nan

/-- The product of two `double` values. -/
def Binary64.mul : Binary64 → Binary64 → Binary64
  | .fin x, .fin y => Binary64.round (x * y)
  | .fin x, .inf b => if x = 0 then .nan else .inf (xor (decide (x < 0)) b)
  | .inf a, .fin y => if y = 0 then .nan else .inf (xor a (decide (y < 0)))
  | .inf a, .inf b => .inf (xor a b)
  | _, _ => .nan

/-- The quotient of two `double` values; a nonzero value divided by zero is an
infinity. -/
def Binary64.div : Binary64 → Binary64 → Binary64
  | .fin x, .fin y =>
    if y = 0 then (if x = 0 then .nan else .inf (decide (x < 0)))
    else Binary64.round (x / y)
  | .fin _, .inf _ => .fin 0
  | .inf a, .fin y => .inf (xor a (decide (y < 0)))
  | _, _ => .nan

/-- The C library `sqrt` on `double` values, correctly rounded: with `u` the
spacing of the values around the root and `n` the integer part of `√q / u`, the
root is `n * u` or `(n + 1) * u`, whichever is nearer. -/
def Binary64.sqrt : Binary64 → Binary64
  | .fin q =>
    if q < 0 then .nan
    else if q = 0 then .fin 0
    else
      let u : ℚ := 2 ^ (Int.log 2 q / 2 - 52)
      let x : ℚ := q / (u * u)
      let n : Nat := Nat.sqrt ⌊x⌋₊
      let m : ℚ := (n + 1 / 2) * (n + 1 / 2)
      let n1 : Nat := if x < m then n else if m < x then n + 1
        else if n % 2 = 0 then n else n + 1
      .fin (n1 * u)
  | .inf false => .inf false
  | _ => .nan

instance : Zero Binary64 := ⟨.fin 0⟩

instance : One Binary64 := ⟨.fin 1⟩

instance : Neg Binary64 := ⟨Binary64.neg⟩

instance : Add Binary64 := ⟨Binary64.add⟩

instance : Sub Binary64 := ⟨fun a b => Binary64.add a (Binary64.neg b)⟩

instance : Mul Binary64 := ⟨Binary64.mul⟩

instance : Div Binary64 := ⟨Binary64.div⟩

instance : OfScientific Binary64 :=
  ⟨fun m s e => Binary64.round (OfScientific.ofScientific m s e)⟩

/-- The `double` `2^-600`, which the C library reads from the token
`0x1p-600`. -/
def tinyAxis : Binary64 := .fin (2 ^ (-600 : Int))

/-- Library functions over `Binary64` for the arguments `rotate 0 0x1p-600 0 0`:
`atof` on the tokens `0x1p-600` and `0`, the correctly rounded `sqrt`, and `sin`
and `cos` at the argument 0, the only one that the angle 0 reaches. -/
def underflowLibm : Libm Binary64 where
  atof := fun s => if s = "0x1p-600" then tinyAxis else 0
  sqrt := Binary64.sqrt
  sin := fun _ => 0
  cos := fun _ => 1

/-- The simulation box with lower corner `(0,0,0)` and extents `(10,10,10)`,
over `Binary64`. -/
def binary64Box : Domain Binary64 := ⟨0, 0, 0, .fin 10, .fin 10, .fin 10⟩

/-- A 3-D batch over `Binary64` with the single new point `(1, 0, 0)`. -/
def binary64Batch : ReadSurf Binary64 where
  dimension := 3
  id := 1
  npoint_old := 0
  nline_old := 0
  ntri_old := 0
  npoint_new := 1
  nline_new := 0
  ntri_new := 1
  pts := fun _ => ⟨1, 0, 0⟩
  lines := fun _ => ⟨0, 0, 0⟩
  tris := fun _ => ⟨1, 1, 1, 1⟩
  origin0 := 0
  origin1 := 0
  origin2 := 0

/-- Library functions for the sample arguments with a fraction: `atof` on the
tokens `"0.5"`, `"1"`, `"2"` and `"5"` (every other token used there reads as 0);
`sqrt`, `sin` and `cos` are not reached by those arguments. -/
def fracLibm : Libm ℚ where
  atof := fun s => if s = "0.5" then 0.5 else if s = "1" then 1 else if s = "2" then 2
    else if s = "5" then 5 else 0
  sqrt := fun x => x
  sin := fun _ => 0
  cos := fun _ => 1

/-- In the words of the specification: `core` is the line `s` without its
leading and trailing whitespace.  The line is `core` between two runs of the
whitespace characters blank, tab, newline and carriage return, and `core` is not
empty and neither begins nor ends with one of these. -/
def Trimmed (s core : List Char) : Prop :=
  ∃ lead trail, s = lead ++ (core ++ trail) ∧ (∀ c ∈ lead, isBlank c = true) ∧
    (∀ c ∈ trail, isBlank c = true) ∧ core ≠ [] ∧
    (∀ a, core.head? = some a → isBlank a = false) ∧
    (∀ a, core.getLast? = some a → isBlank a = false)

/-- In the words of the specification: the keyword scan meets the end of the
stream.  Either nothing is left to read; or the scan reads on from a blank line
(always so in a later call, which starts with a read) and the stream holds blank
lines only, or blank lines and one last line, so that no line is left to read
after that one. -/
def ScanEnds (first : Bool) (line : List Char) (fp : List (List Char)) : Prop :=
  fp = [] ∨ ((first = false ∨ blank line = true) ∧
    ∃ gap last, fp = gap ++ last ∧ (∀ g ∈ gap, blank (cstr g) = true) ∧ last.length ≤ 1)

/-! ## Theorems -/

/-- C1: for a line record with parsed indices `p1`, `p2` and batch point count
`N = npoint_new`, `read_lines` raises a fatal error exactly when
`p1 < 1 ∨ p1 > N ∨ p2 < 1 ∨ p2 > N ∨ p1 = p2`; otherwise it stores `(p1, p2)`
unchanged (with the surface id) at the record's slot and touches no other
slot.  In particular index 0, an index above `N` and equal indices are
rejected. -/
theorem read_lines_record_spec {α : Type} (st : ReadSurf α) (n p1 p2 : Int) :
    ((∃ msg s, read_lines_record st n p1 p2 = .fatal msg s) ↔
        (p1 < 1 ∨ p1 > st.npoint_new ∨ p2 < 1 ∨ p2 > st.npoint_new ∨ p1 = p2)) ∧
    ((∃ s, read_lines_record st n p1 p2 = .ok s ∧ s.lines n = ⟨st.id, p1, p2⟩ ∧
          (∀ j, j ≠ n → s.lines j = st.lines j) ∧ s.pts = st.pts ∧ s.tris = st.tris) ↔
        ¬ (p1 < 1 ∨ p1 > st.npoint_new ∨ p2 < 1 ∨ p2 > st.npoint_new ∨ p1 = p2)) ∧
    ((p1 = 0 ∨ p2 = 0 ∨ p1 > st.npoint_new ∨ p2 > st.npoint_new ∨ p1 = p2) →
        read_lines_record st n p1 p2 = .fatal "Invalid point index in line" st) := by
  unfold read_lines_record
  refine ⟨?_, ?_, ?_⟩
  · constructor
    · rintro ⟨msg, s, h⟩
      by_contra hc
      rw [if_neg hc] at h
      cases h
    · intro h
      exact ⟨_, _, if_pos h⟩
  · constructor
    · rintro ⟨s, h, -⟩ hc
      rw [if_pos hc] at h
      cases h
    · intro h
      refine ⟨_, if_neg h, ?_, ?_, rfl, rfl⟩
      · simp
      · intro j hj
        simp [Function.update, hj]
  · intro h
    apply if_pos
    omega

/-- C2: for a triangle record with parsed indices `p1`, `p2`, `p3` and batch
point count `N = npoint_new`, `read_tris` accepts the record exactly when all
three indices lie in `[1, N]`, `p1 ≠ p2` and `p2 ≠ p3`.  `p1 = p3` is not
checked: for `N ≥ 2` a triangle with `p1 = p3`, `p2 ≠ p1` and indices in range
is accepted and stored as given. -/
theorem read_tris_record_spec {α : Type} (st : ReadSurf α) (n p1 p2 p3 : Int) :
    ((∃ s, read_tris_record st n p1 p2 p3 = .ok s ∧ s.tris n = ⟨st.id, p1, p2, p3⟩ ∧
          (∀ j, j ≠ n → s.tris j = st.tris j) ∧ s.pts = st.pts ∧ s.lines = st.lines) ↔
        ((1 ≤ p1 ∧ p1 ≤ st.npoint_new) ∧ (1 ≤ p2 ∧ p2 ≤ st.npoint_new) ∧
          (1 ≤ p3 ∧ p3 ≤ st.npoint_new) ∧ p1 ≠ p2 ∧ p2 ≠ p3)) ∧
    ((∃ msg s, read_tris_record st n p1 p2 p3 = .fatal msg s) ↔
        ¬ ((1 ≤ p1 ∧ p1 ≤ st.npoint_new) ∧ (1 ≤ p2 ∧ p2 ≤ st.npoint_new) ∧
          (1 ≤ p3 ∧ p3 ≤ st.npoint_new) ∧ p1 ≠ p2 ∧ p2 ≠ p3)) ∧
    (2 ≤ st.npoint_new → 1 ≤ p1 → p1 ≤ st.npoint_new → 1 ≤ p2 → p2 ≤ st.npoint_new →
        p2 ≠ p1 →
        ∃ s, read_tris_record st n p1 p2 p1 = .ok s ∧ s.tris n = ⟨st.id, p1, p2, p1⟩) := by
  have key : ∀ q1 q2 q3 : Int,
      (q1 < 1 ∨ q1 > st.npoint_new ∨ q2 < 1 ∨ q2 > st.npoint_new ∨
        q3 < 1 ∨ q3 > st.npoint_new ∨ q1 = q2 ∨ q2 = q3) ↔
      ¬ ((1 ≤ q1 ∧ q1 ≤ st.npoint_new) ∧ (1 ≤ q2 ∧ q2 ≤ st.npoint_new) ∧
          (1 ≤ q3 ∧ q3 ≤ st.npoint_new) ∧ q1 ≠ q2 ∧ q2 ≠ q3) := by
    intro q1 q2 q3
    omega
  unfold read_tris_record
  refine ⟨?_, ?_, ?_⟩
  · constructor
    · rintro ⟨s, h, -⟩
      by_contra hc
      rw [if_pos ((key p1 p2 p3).2 hc)] at h
      cases h
    · intro h
      have hn := fun hb => (key p1 p2 p3).1 hb h
      refine ⟨_, if_neg hn, ?_, ?_, rfl, rfl⟩
      · simp
      · intro j hj
        simp [Function.update, hj]
  · constructor
    · rintro ⟨msg, s, h⟩ hc
      have hn := fun hb => (key p1 p2 p3).1 hb hc
      rw [if_neg hn] at h
      cases h
    · intro h
      exact ⟨_, _, if_pos ((key p1 p2 p3).2 h)⟩
  · intro _ h1 h2 h3 h4 h5
    have hn : ¬ (p1 < 1 ∨ p1 > st.npoint_new ∨ p2 < 1 ∨ p2 > st.npoint_new ∨
        p1 < 1 ∨ p1 > st.npoint_new ∨ p1 = p2 ∨ p2 = p1) := by omega
    exact ⟨_, if_neg hn, by simp⟩

/-- The witness of C1: with three points in the batch the record `(1, 2)` is
stored as given, and the records `(0, 2)`, `(1, 4)` and `(2, 2)` are fatal. -/
theorem read_lines_record_spec_witness :
    (∃ s, read_lines_record lineBatch 0 1 2 = .ok s ∧ s.lines 0 = ⟨1, 1, 2⟩ ∧
        (∀ j, j ≠ 0 → s.lines j = lineBatch.lines j) ∧ s.pts = lineBatch.pts ∧
        s.tris = lineBatch.tris) ∧
    read_lines_record lineBatch 0 0 2 = .fatal "Invalid point index in line" lineBatch ∧
    read_lines_record lineBatch 0 1 4 = .fatal "Invalid point index in line" lineBatch ∧
    read_lines_record lineBatch 0 2 2 = .fatal "Invalid point index in line" lineBatch :=
  ⟨(read_lines_record_spec lineBatch 0 1 2).2.1.2 (by decide),
   (read_lines_record_spec lineBatch 0 0 2).2.2 (by decide),
   (read_lines_record_spec lineBatch 0 1 4).2.2 (by decide),
   (read_lines_record_spec lineBatch 0 2 2).2.2 (by decide)⟩

/-- The witness of C2: with three points in the batch the triangle `(1, 2, 1)`,
whose first and third index are equal, is accepted and stored as given. -/
theorem read_tris_record_spec_witness :
    ∃ s, read_tris_record triBatch 0 1 2 1 = .ok s ∧ s.tris 0 = ⟨1, 1, 2, 1⟩ :=
  (read_tris_record_spec triBatch 0 1 2 1).2.2 (by decide) (by decide) (by decide)
    (by decide) (by decide) (by decide)

/-! ### The update loops -/

/-- A loop that rewrites slot `m` by `g` for `m = start, start+1, ...` rewrites
exactly the slots of the block and leaves every other slot alone. -/
theorem forLoop_update_apply {β : Type} (g : β → β) (n : Nat) (m : Int)
    (a : Int → β) (j : Int) :
    forLoop (fun k b => Function.update b k (g (b k))) n m a j =
      if m ≤ j ∧ j < m + n then g (a j) else a j := by
  induction n generalizing m a with
  | zero =>
    have h : ¬ (m ≤ j ∧ j < m + ((0 : Nat) : Int)) := by omega
    simp only [forLoop, if_neg h]
  | succ n ih =>
    simp only [forLoop]
    rw [ih]
    by_cases hj : j = m
    · subst hj
      have h1 : ¬ (j + 1 ≤ j ∧ j < j + 1 + (n : Int)) := by omega
      have h2 : j ≤ j ∧ j < j + ((n + 1 : Nat) : Int) := by
        constructor
        · exact le_refl j
        · push_cast
          omega
      rw [if_neg h1, if_pos h2, Function.update_same]
    · rw [Function.update_noteq hj]
      by_cases h1 : m + 1 ≤ j ∧ j < m + 1 + (n : Int)
      · have h2 : m ≤ j ∧ j < m + ((n + 1 : Nat) : Int) := by
          push_cast
          omega
        rw [if_pos h1, if_pos h2]
      · have h2 : ¬ (m ≤ j ∧ j < m + ((n + 1 : Nat) : Int)) := by
          push_cast
          omega
        rw [if_neg h1, if_neg h2]

/-- The block of a loop running `c.toNat` times from `m` is `m ≤ j < m + c`. -/
theorem forLoop_update_block {β : Type} (g : β → β) (c m : Int) (a : Int → β)
    (j : Int) :
    forLoop (fun k b => Function.update b k (g (b k))) c.toNat m a j =
      if m ≤ j ∧ j < m + c then g (a j) else a j := by
  rw [forLoop_update_apply]
  by_cases h : m ≤ j ∧ j < m + c
  · have h2 : m ≤ j ∧ j < m + (c.toNat : Int) := by omega
    rw [if_pos h, if_pos h2]
  · have h2 : ¬ (m ≤ j ∧ j < m + (c.toNat : Int)) := by omega
    rw [if_neg h, if_neg h2]

/-- Running an update loop with an involution twice restores the array. -/
theorem forLoop_update_involutive {β : Type} (g : β → β) (hg : ∀ x, g (g x) = x)
    (c m : Int) (a : Int → β) :
    forLoop (fun k b => Function.update b k (g (b k))) c.toNat m
      (forLoop (fun k b => Function.update b k (g (b k))) c.toNat m a) = a := by
  funext j
  rw [forLoop_update_block, forLoop_update_block]
  by_cases h : m ≤ j ∧ j < m + c
  · rw [if_pos h, if_pos h, hg]
  · rw [if_neg h, if_neg h]

theorem invert_lines_apply {α : Type} (st : ReadSurf α) (j : Int) :
    (invert_lines st).lines j =
      if st.nline_old ≤ j ∧ j < st.nline_old + st.nline_new then
        ⟨(st.lines j).id, (st.lines j).p2, (st.lines j).p1⟩
      else st.lines j := by
  unfold invert_lines
  exact forLoop_update_block (fun l : Line => { l with p1 := l.p2, p2 := l.p1 }) _ _ _ _

theorem invert_tris_apply {α : Type} (st : ReadSurf α) (j : Int) :
    (invert_tris st).tris j =
      if st.ntri_old ≤ j ∧ j < st.ntri_old + st.nline_new then
        ⟨(st.tris j).id, (st.tris j).p1, (st.tris j).p3, (st.tris j).p2⟩
      else st.tris j := by
  unfold invert_tris
  exact forLoop_update_block (fun t : Tri => { t with p2 := t.p3, p3 := t.p2 }) _ _ _ _

theorem invert_lines_invert_lines {α : Type} (st : ReadSurf α) :
    invert_lines (invert_lines st) = st := by
  have h := forLoop_update_involutive (fun l : Line => { l with p1 := l.p2, p2 := l.p1 })
    (fun _ => rfl) st.nline_new st.nline_old st.lines
  unfold invert_lines
  simp only [h]

theorem invert_tris_invert_tris {α : Type} (st : ReadSurf α) :
    invert_tris (invert_tris st) = st := by
  have h := forLoop_update_involutive (fun t : Tri => { t with p2 := t.p3, p3 := t.p2 })
    (fun _ => rfl) st.nline_new st.ntri_old st.tris
  unfold invert_tris
  simp only [h]

theorem invert_of_two {α : Type} (st : ReadSurf α) (h : st.dimension = 2) :
    invert st = invert_lines st := by
  have h3 : ¬ (invert_lines st).dimension = 3 := by
    show ¬ st.dimension = 3
    omega
  simp only [invert, if_pos h, if_neg h3]

theorem invert_of_three {α : Type} (st : ReadSurf α) (h : st.dimension = 3) :
    invert st = invert_tris st := by
  have h2 : ¬ st.dimension = 2 := by omega
  simp only [invert, if_neg h2, if_pos h]

theorem invert_of_other {α : Type} (st : ReadSurf α) (h2 : st.dimension ≠ 2)
    (h3 : st.dimension ≠ 3) : invert st = st := by
  simp only [invert, if_neg h2, if_neg h3]

/-! ### invert -/

/-- C3 (the code departs from the claim): in 3-D the swap loop of `invert`
runs `nline_new` times, and `nline_new` is 0 in every 3-D call, so `invert`
changes no triangle: a state with `dimension = 3` and `nline_new = 0` is returned
as it is, and the new triangle `(1,2,3)` of `triBatch` stays `(1,2,3)` instead of
becoming `(1,3,2)`. -/
theorem invert_3d_leaves_triangles {α : Type} (st : ReadSurf α) :
    invert { st with dimension := 3, nline_new := 0 } =
        { st with dimension := 3, nline_new := 0 } ∧
      (invert triBatch).tris 0 = ⟨1, 1, 2, 3⟩ ∧
      (invert triBatch).tris 0 ≠ ⟨1, 1, 3, 2⟩ := by
  refine ⟨?_, by decide, by decide⟩
  rw [invert_of_three _ rfl]
  rfl

/-- In 2-D `invert` exchanges `p1` and `p2` of the entries
`nline_old .. nline_old + nline_new - 1` of the array that `surf->lines` points
at, keeps their surface id, and leaves every other entry and every point as it
was.  Within `command` that array is the one of the store before the growth
(`store_arrays`), not the one that holds the lines just read. -/
theorem invert_2d_swaps_new_lines {α : Type} (st : ReadSurf α)
    (h : st.dimension = 2) :
    (∀ j, st.nline_old ≤ j → j < st.nline_old + st.nline_new →
        (invert st).lines j = ⟨(st.lines j).id, (st.lines j).p2, (st.lines j).p1⟩) ∧
    (∀ j, ¬ (st.nline_old ≤ j ∧ j < st.nline_old + st.nline_new) →
        (invert st).lines j = st.lines j) ∧
    (invert st).pts = st.pts := by
  rw [invert_of_two st h]
  refine ⟨?_, ?_, rfl⟩
  · intro j h1 h2
    rw [invert_lines_apply, if_pos ⟨h1, h2⟩]
  · intro j hj
    rw [invert_lines_apply, if_neg hj]

/-- On the batch `lineBatch`, whose array of lines holds `(1,2)` and `(2,3)` at
the entries 0 and 1, `invert` leaves `(2,1)` and `(3,2)` there. -/
theorem invert_2d_swaps_new_lines_witness :
    (invert lineBatch).lines 0 = ⟨1, 2, 1⟩ ∧ (invert lineBatch).lines 1 = ⟨1, 3, 2⟩ ∧
      (invert lineBatch).pts = lineBatch.pts :=
  ⟨(invert_2d_swaps_new_lines lineBatch rfl).1 0 (by decide) (by decide),
   (invert_2d_swaps_new_lines lineBatch rfl).1 1 (by decide) (by decide),
   (invert_2d_swaps_new_lines lineBatch rfl).2.2⟩

/-- C5: two consecutive `invert` operators restore the state, in every
dimension: each line and each triangle has the vertex indices it had before,
both for the function `invert` and for the argument list `invert invert`. -/
theorem invert_twice_restores {α : Type} [Add α] [Sub α] [Mul α] [Div α] [Zero α]
    [One α] [OfScientific α] [DecidableEq α] (L : Libm α) (dom : Domain α)
    (st : ReadSurf α) :
    invert (invert st) = st ∧
      (∀ j, (invert (invert st)).lines j = st.lines j) ∧
      (∀ j, (invert (invert st)).tris j = st.tris j) ∧
      command_transforms L dom ["invert", "invert"] st = .ok st := by
  have key : invert (invert st) = st := by
    by_cases h2 : st.dimension = 2
    · rw [invert_of_two st h2, invert_of_two _ (show (invert_lines st).dimension = 2 from h2),
        invert_lines_invert_lines]
    · by_cases h3 : st.dimension = 3
      · rw [invert_of_three st h3,
          invert_of_three _ (show (invert_tris st).dimension = 3 from h3),
          invert_tris_invert_tris]
      · rw [invert_of_other st h2 h3, invert_of_other st h2 h3]
  refine ⟨key, fun j => by rw [key], fun j => by rw [key], ?_⟩
  simp [command_transforms, command_step, command_advance, command_invert, key]

/-! ### Coordinate operators -/

/-- Two update loops over the same block, the second undoing the first on every
record, restore the array. -/
theorem forLoop_update_inverse {β : Type} (g h : β → β) (hg : ∀ x, h (g x) = x)
    (c m : Int) (a : Int → β) :
    forLoop (fun k b => Function.update b k (h (b k))) c.toNat m
      (forLoop (fun k b => Function.update b k (g (b k))) c.toNat m a) = a := by
  funext j
  rw [forLoop_update_block, forLoop_update_block]
  by_cases hj : m ≤ j ∧ j < m + c
  · rw [if_pos hj, if_pos hj, hg]
  · rw [if_neg hj, if_neg hj]

/-- Two states with the same fields are equal. -/
theorem ReadSurf.eq_of_fields {α : Type} (s t : ReadSurf α)
    (h1 : s.dimension = t.dimension) (h2 : s.id = t.id)
    (h3 : s.npoint_old = t.npoint_old) (h4 : s.nline_old = t.nline_old)
    (h5 : s.ntri_old = t.ntri_old) (h6 : s.npoint_new = t.npoint_new)
    (h7 : s.nline_new = t.nline_new) (h8 : s.ntri_new = t.ntri_new)
    (h9 : s.pts = t.pts) (h10 : s.lines = t.lines) (h11 : s.tris = t.tris)
    (h12 : s.origin0 = t.origin0) (h13 : s.origin1 = t.origin1)
    (h14 : s.origin2 = t.origin2) : s = t := by
  cases s
  cases t
  simp_all

theorem translate_pts_apply {α : Type} [Add α] (dx dy dz : α) (st : ReadSurf α)
    (j : Int) :
    (translate dx dy dz st).pts j =
      if st.npoint_old ≤ j ∧ j < st.npoint_old + st.npoint_new then
        ⟨(st.pts j).x0 + dx, (st.pts j).x1 + dy, (st.pts j).x2 + dz⟩
      else st.pts j := by
  unfold translate
  exact forLoop_update_block (fun p : Point α => ⟨p.x0 + dx, p.x1 + dy, p.x2 + dz⟩) _ _ _ _

theorem apply_trans_neg_cancel {α : Type} [AddCommGroup α] (dx dy dz : α)
    (st : ReadSurf α) :
    apply_trans (-dx) (-dy) (-dz) (apply_trans dx dy dz st) = st := by
  apply ReadSurf.eq_of_fields <;> try rfl
  · exact forLoop_update_inverse
      (fun p : Point α => ⟨p.x0 + dx, p.x1 + dy, p.x2 + dz⟩)
      (fun p : Point α => ⟨p.x0 + -dx, p.x1 + -dy, p.x2 + -dz⟩)
      (fun p => by simp) st.npoint_new st.npoint_old st.pts
  · exact add_neg_cancel_right st.origin0 dx
  · exact add_neg_cancel_right st.origin1 dy
  · exact add_neg_cancel_right st.origin2 dz

/-- In exact arithmetic, for every displacement `d` (with `dz = 0` in 2-D),
`trans d` is accepted and `trans (-d)` after it is accepted and gives back the
state before the two operators. -/
theorem trans_roundtrip_exact {α : Type} [AddCommGroup α] [DecidableEq α]
    (dx dy dz : α) (st : ReadSurf α) (h2 : st.dimension = 2 → dz = 0) :
    ∃ st1, command_trans dx dy dz st = .ok st1 ∧
      command_trans (-dx) (-dy) (-dz) st1 = .ok st := by
  have hg : ¬ (st.dimension = 2 ∧ dz ≠ 0) := fun h => h.2 (h2 h.1)
  have hg2 : ¬ ((apply_trans dx dy dz st).dimension = 2 ∧ -dz ≠ 0) := by
    intro h
    apply h.2
    rw [h2 h.1, neg_zero]
  refine ⟨apply_trans dx dy dz st, ?_, ?_⟩
  · unfold command_trans
    rw [if_neg hg]
  · unfold command_trans
    rw [if_neg hg2, apply_trans_neg_cancel]

/-- In 2-D, over the rationals, `trans 3 4 0` then `trans -3 -4 0` restores
`lineBatch`. -/
theorem trans_roundtrip_exact_witness :
    ∃ st1, command_trans (3 : ℚ) 4 0 lineBatch = .ok st1 ∧
      command_trans (-3 : ℚ) (-4) (-0) st1 = .ok lineBatch :=
  trans_roundtrip_exact (3 : ℚ) 4 0 lineBatch (fun _ => rfl)

/-- The state after `trans d` and `trans (-d)`: each point of the block holds
`(x + d) + -d` in each coordinate, every other point is as before. -/
theorem apply_trans_twice_pts {α : Type} [Add α] [Neg α] (dx dy dz : α)
    (st : ReadSurf α) (j : Int) :
    (apply_trans (-dx) (-dy) (-dz) (apply_trans dx dy dz st)).pts j =
      if st.npoint_old ≤ j ∧ j < st.npoint_old + st.npoint_new then
        ⟨(st.pts j).x0 + dx + -dx, (st.pts j).x1 + dy + -dy, (st.pts j).x2 + dz + -dz⟩
      else st.pts j := by
  unfold apply_trans
  rw [translate_pts_apply]
  show (if st.npoint_old ≤ j ∧ j < st.npoint_old + st.npoint_new then _ else _) = _
  by_cases hj : st.npoint_old ≤ j ∧ j < st.npoint_old + st.npoint_new
  · rw [if_pos hj, if_pos hj]
    show (⟨((translate dx dy dz _).pts j).x0 + -dx, ((translate dx dy dz _).pts j).x1 + -dy,
      ((translate dx dy dz _).pts j).x2 + -dz⟩ : Point α) = _
    rw [translate_pts_apply, if_pos hj]
  · rw [if_neg hj, if_neg hj]
    show (translate dx dy dz _).pts j = _
    rw [translate_pts_apply, if_neg hj]

/-- C6 as amended: for every displacement `d` (with `dz = 0` in 2-D), in an
arithmetic where `-0` is `0` (as in exact and in IEEE arithmetic), `trans d`
and `trans (-d)` after it are both accepted; they leave each component `o` of
the origin at `(o + d) + -d` and each coordinate `x` of a point of the block
that `translate` shifts at `(x + d) + -d`, and nothing else changes.  So the
state is restored exactly if and only if `(x + d) + -d = x` holds in the
arithmetic of the run for each of these components and coordinates.  In exact
arithmetic (an additive group) it holds for every state and every `d`, and the
round trip restores the state. -/
theorem trans_roundtrip {α : Type} [Add α] [Neg α] [Zero α] [DecidableEq α]
    {β : Type} [AddCommGroup β] [DecidableEq β]
    (dx dy dz : α) (st : ReadSurf α) (h2 : st.dimension = 2 → dz = 0)
    (hneg : -(0 : α) = 0)
    (ex ey ez : β) (su : ReadSurf β) (h3 : su.dimension = 2 → ez = 0) :
    (∃ st1 st2, command_trans dx dy dz st = .ok st1 ∧
        command_trans (-dx) (-dy) (-dz) st1 = .ok st2 ∧
        st2.origin0 = st.origin0 + dx + -dx ∧
        st2.origin1 = st.origin1 + dy + -dy ∧
        st2.origin2 = st.origin2 + dz + -dz ∧
        (∀ j, st.npoint_old ≤ j → j < st.npoint_old + st.npoint_new →
          st2.pts j = ⟨(st.pts j).x0 + dx + -dx, (st.pts j).x1 + dy + -dy,
            (st.pts j).x2 + dz + -dz⟩) ∧
        (∀ j, ¬ (st.npoint_old ≤ j ∧ j < st.npoint_old + st.npoint_new) →
          st2.pts j = st.pts j) ∧
        st2.lines = st.lines ∧ st2.tris = st.tris ∧
        (st2.dimension = st.dimension ∧ st2.id = st.id ∧
          st2.npoint_old = st.npoint_old ∧ st2.nline_old = st.nline_old ∧
          st2.ntri_old = st.ntri_old ∧ st2.npoint_new = st.npoint_new ∧
          st2.nline_new = st.nline_new ∧ st2.ntri_new = st.ntri_new) ∧
        (st2 = st ↔
          st.origin0 + dx + -dx = st.origin0 ∧ st.origin1 + dy + -dy = st.origin1 ∧
          st.origin2 + dz + -dz = st.origin2 ∧
          ∀ j, st.npoint_old ≤ j → j < st.npoint_old + st.npoint_new →
            (st.pts j).x0 + dx + -dx = (st.pts j).x0 ∧
            (st.pts j).x1 + dy + -dy = (st.pts j).x1 ∧
            (st.pts j).x2 + dz + -dz = (st.pts j).x2)) ∧
    (∃ su1, command_trans ex ey ez su = .ok su1 ∧
        command_trans (-ex) (-ey) (-ez) su1 = .ok su) := by
  have hg : ¬ (st.dimension = 2 ∧ dz ≠ 0) := fun h => h.2 (h2 h.1)
  have hg2 : ¬ ((apply_trans dx dy dz st).dimension = 2 ∧ -dz ≠ 0) := by
    intro h
    apply h.2
    rw [h2 h.1, hneg]
  have ku : ¬ (su.dimension = 2 ∧ ez ≠ 0) := fun h => h.2 (h3 h.1)
  have ku2 : ¬ ((apply_trans ex ey ez su).dimension = 2 ∧ -ez ≠ 0) := by
    intro h
    apply h.2
    rw [h3 h.1, neg_zero]
  refine ⟨⟨apply_trans dx dy dz st,
    apply_trans (-dx) (-dy) (-dz) (apply_trans dx dy dz st), ?_, ?_, rfl, rfl, rfl,
    ?_, ?_, rfl, rfl, ⟨rfl, rfl, rfl, rfl, rfl, rfl, rfl, rfl⟩, ?_⟩,
    ⟨apply_trans ex ey ez su, ?_, ?_⟩⟩
  · unfold command_trans
    rw [if_neg hg]
  · unfold command_trans
    rw [if_neg hg2]
  · intro j h1 h4
    rw [apply_trans_twice_pts, if_pos ⟨h1, h4⟩]
  · intro j hj
    rw [apply_trans_twice_pts, if_neg hj]
  · constructor
    · intro h
      have ho0 := congrArg ReadSurf.origin0 h
      have ho1 := congrArg ReadSurf.origin1 h
      have ho2 := congrArg ReadSurf.origin2 h
      refine ⟨ho0, ho1, ho2, ?_⟩
      intro j h1 h4
      have hp := congrFun (congrArg ReadSurf.pts h) j
      rw [apply_trans_twice_pts, if_pos ⟨h1, h4⟩] at hp
      exact ⟨congrArg Point.x0 hp, congrArg Point.x1 hp, congrArg Point.x2 hp⟩
    · rintro ⟨ho0, ho1, ho2, hp⟩
      apply ReadSurf.eq_of_fields <;> try rfl
      · funext j
        rw [apply_trans_twice_pts]
        by_cases hj : st.npoint_old ≤ j ∧ j < st.npoint_old + st.npoint_new
        · obtain ⟨p0, p1, p2⟩ := hp j hj.1 hj.2
          rw [if_pos hj, p0, p1, p2]
        · rw [if_neg hj]
      · exact ho0
      · exact ho1
      · exact ho2
  · unfold command_trans
    rw [if_neg ku]
  · unfold command_trans
    rw [if_neg ku2, apply_trans_neg_cancel]

/-- The witness of C6 as amended.  With IEEE-754 binary64 addition the batch
`dblFarBatch`, whose origin and point are at `2^60` on the first axis, is
restored exactly by `trans 1 0 0` and `trans -1 0 0`, although both additions
round: `2^60 + 1` and `2^60 - 1` both round to `2^60`.  In exact arithmetic, in
2-D, `trans 3 4 0` then `trans -3 -4 0` restores `lineBatch`. -/
theorem trans_roundtrip_witness :
    (∃ st1 st2 : ReadSurf Dbl, command_trans (⟨1⟩ : Dbl) 0 0 dblFarBatch = .ok st1 ∧
        command_trans (-(⟨1⟩ : Dbl)) (-0) (-0) st1 = .ok st2 ∧ st2 = dblFarBatch) ∧
    (∃ su1, command_trans (3 : ℚ) 4 0 lineBatch = .ok su1 ∧
        command_trans (-3 : ℚ) (-4) (-0) su1 = .ok lineBatch) := by
  obtain ⟨⟨st1, st2, h1, h2, -, -, -, -, -, -, -, -, h3⟩, hq⟩ :=
    trans_roundtrip (⟨1⟩ : Dbl) 0 0 dblFarBatch (fun h => absurd h (by decide)) rfl
      (3 : ℚ) 4 0 lineBatch (fun _ => rfl)
  refine ⟨⟨st1, st2, h1, h2, h3.2 ⟨by decide, by decide, by decide, ?_⟩⟩, hq⟩
  intro j h4 h5
  exact ⟨show ((⟨1152921504606846976⟩ : Dbl) + ⟨1⟩ + -⟨1⟩) = ⟨1152921504606846976⟩ by decide,
    show ((⟨0⟩ : Dbl) + 0 + -0) = ⟨0⟩ by decide,
    show ((⟨0⟩ : Dbl) + 0 + -0) = ⟨0⟩ by decide⟩

/-- The counterexample to C6: with IEEE-754 binary64 addition, after
`origin 1 0 0` the operators `trans 9007199254740992 0 0` and
`trans -9007199254740992 0 0` are accepted and leave the origin at `(0, 0, 0)`,
not at its prior value `(1, 0, 0)`, and the point `(1, 0, 0)` of the block that
`translate` shifts at `(0, 0, 0)`: `1 + 2^53` rounds to `2^53`. -/
theorem trans_roundtrip_binary64_counterexample :
    ∃ st0 st1 st2 : ReadSurf Dbl,
      command_origin (⟨1⟩ : Dbl) 0 0 dblBatch = .ok st0 ∧
      command_trans (⟨9007199254740992⟩ : Dbl) 0 0 st0 = .ok st1 ∧
      command_trans (-(⟨9007199254740992⟩ : Dbl)) (-0) (-0) st1 = .ok st2 ∧
      st0.origin0 = ⟨1⟩ ∧ st2.origin0 = ⟨0⟩ ∧ st2.origin0 ≠ st0.origin0 ∧
      st0.pts 0 = ⟨⟨1⟩, ⟨0⟩, ⟨0⟩⟩ ∧ st2.pts 0 = ⟨⟨0⟩, ⟨0⟩, ⟨0⟩⟩ ∧
      st2.pts 0 ≠ st0.pts 0 :=
  ⟨apply_origin ⟨1⟩ 0 0 dblBatch,
   apply_trans ⟨9007199254740992⟩ 0 0 (apply_origin ⟨1⟩ 0 0 dblBatch),
   apply_trans (-(⟨9007199254740992⟩ : Dbl)) (-0) (-0)
     (apply_trans ⟨9007199254740992⟩ 0 0 (apply_origin ⟨1⟩ 0 0 dblBatch)),
   rfl, rfl, rfl, rfl, by decide, by decide, rfl, by decide, by decide⟩

theorem scale_pts_apply {α : Type} [Add α] [Sub α] [Mul α] (sx sy sz : α)
    (st : ReadSurf α) (j : Int) :
    (scale sx sy sz st).pts j =
      if st.npoint_old ≤ j ∧ j < st.npoint_old + st.npoint_new then
        ⟨sx * ((st.pts j).x0 - st.origin0) + st.origin0,
         sy * ((st.pts j).x1 - st.origin1) + st.origin1,
         if st.dimension = 3 then sz * ((st.pts j).x2 - st.origin2) + st.origin2
         else (st.pts j).x2⟩
      else st.pts j := by
  unfold scale
  exact forLoop_update_block (fun p : Point α =>
    ⟨sx * (p.x0 - st.origin0) + st.origin0, sy * (p.x1 - st.origin1) + st.origin1,
     if st.dimension = 3 then sz * (p.x2 - st.origin2) + st.origin2 else p.x2⟩) _ _ _ _

theorem scale_inv_cancel {α : Type} [Field α] (sx sy sz : α) (st : ReadSurf α)
    (hx : sx ≠ 0) (hy : sy ≠ 0) (hz : sz ≠ 0) :
    scale (1 / sx) (1 / sy) (1 / sz) (scale sx sy sz st) = st := by
  apply ReadSurf.eq_of_fields <;> try rfl
  refine forLoop_update_inverse
    (fun p : Point α =>
      ⟨sx * (p.x0 - st.origin0) + st.origin0, sy * (p.x1 - st.origin1) + st.origin1,
       if st.dimension = 3 then sz * (p.x2 - st.origin2) + st.origin2 else p.x2⟩)
    (fun p : Point α =>
      ⟨1 / sx * (p.x0 - st.origin0) + st.origin0,
       1 / sy * (p.x1 - st.origin1) + st.origin1,
       if st.dimension = 3 then 1 / sz * (p.x2 - st.origin2) + st.origin2 else p.x2⟩)
    ?_ st.npoint_new st.npoint_old st.pts
  intro p
  cases p with
  | mk a b c =>
    by_cases h3 : st.dimension = 3
    · simp only [if_pos h3, Point.mk.injEq]
      refine ⟨?_, ?_, ?_⟩ <;> field_simp
    · simp only [if_neg h3, Point.mk.injEq]
      refine ⟨?_, ?_, trivial⟩ <;> field_simp

/-- C7: in exact arithmetic, for every scale vector `s` with nonzero components
(`sz = 1` in 2-D) and every origin, `scale s` is accepted and leaves the origin
as it is, and `scale (1/sx, 1/sy, 1/sz)` after it is accepted and gives back the
state before the two operators: the coordinates of every point, and the same
origin. -/
theorem scale_roundtrip_exact {α : Type} [Field α] [DecidableEq α]
    (sx sy sz : α) (st : ReadSurf α) (hx : sx ≠ 0) (hy : sy ≠ 0) (hz : sz ≠ 0)
    (h2 : st.dimension = 2 → sz = 1) :
    ∃ st1, command_scale sx sy sz st = .ok st1 ∧
      (st1.origin0 = st.origin0 ∧ st1.origin1 = st.origin1 ∧
        st1.origin2 = st.origin2) ∧
      command_scale (1 / sx) (1 / sy) (1 / sz) st1 = .ok st := by
  have hg : ¬ (st.dimension = 2 ∧ sz ≠ 1) := fun h => h.2 (h2 h.1)
  have hg2 : ¬ ((scale sx sy sz st).dimension = 2 ∧ 1 / sz ≠ 1) := by
    intro h
    apply h.2
    rw [h2 h.1, div_one]
  refine ⟨scale sx sy sz st, ?_, ⟨rfl, rfl, rfl⟩, ?_⟩
  · unfold command_scale
    rw [if_neg hg]
  · unfold command_scale
    rw [if_neg hg2, scale_inv_cancel sx sy sz st hx hy hz]

/-- The witness of C7: in 2-D, `scale 2 4 1` then `scale 1/2 1/4 1/1` about the
origin of `lineBatch` restores `lineBatch`. -/
theorem scale_roundtrip_exact_witness :
    ∃ st1, command_scale (2 : ℚ) 4 1 lineBatch = .ok st1 ∧
      (st1.origin0 = lineBatch.origin0 ∧ st1.origin1 = lineBatch.origin1 ∧
        st1.origin2 = lineBatch.origin2) ∧
      command_scale (1 / 2 : ℚ) (1 / 4) (1 / 1) st1 = .ok lineBatch :=
  scale_roundtrip_exact (2 : ℚ) 4 1 lineBatch (by norm_num) (by norm_num) (by norm_num)
    (fun _ => rfl)

/-- In 3-D the pass of `rotate` for the conjugate of a unit quaternion undoes
the pass for the quaternion. -/
theorem rotate_point_cancel_3d {α : Type} [Field α] (w i j k : α)
    (hN : w * w + i * i + j * j + k * k = 1) (o0 o1 o2 : α) (dim : Int)
    (hd : dim = 3) (p : Point α) :
    rotate_point (quat_to_mat ⟨w, -i, -j, -k⟩) o0 o1 o2 dim
      (rotate_point (quat_to_mat ⟨w, i, j, k⟩) o0 o1 o2 dim p) = p := by
  cases p with
  | mk a b c =>
    have h2 : (2.0 : α) = 2 := by norm_num
    simp only [rotate_point, matvec, quat_to_mat, h2, if_pos hd, Point.mk.injEq]
    refine ⟨?_, ?_, ?_⟩
    · linear_combination ((w * w + i * i + j * j + k * k + 1) * (a - o0)) * hN
    · linear_combination ((w * w + i * i + j * j + k * k + 1) * (b - o1)) * hN
    · linear_combination ((w * w + i * i + j * j + k * k + 1) * (c - o2)) * hN

/-- With an axis along `z` (`i = j = 0`) the pass of `rotate` that leaves `x[2]`
alone is undone by the pass for the conjugate quaternion. -/
theorem rotate_point_cancel_planar {α : Type} [Field α] (w k : α)
    (hN : w * w + k * k = 1) (o0 o1 o2 : α) (dim : Int) (hd : dim ≠ 3)
    (p : Point α) :
    rotate_point (quat_to_mat ⟨w, -0, -0, -k⟩) o0 o1 o2 dim
      (rotate_point (quat_to_mat ⟨w, 0, 0, k⟩) o0 o1 o2 dim p) = p := by
  cases p with
  | mk a b c =>
    have h2 : (2.0 : α) = 2 := by norm_num
    simp only [rotate_point, matvec, quat_to_mat, h2, if_neg hd, Point.mk.injEq]
    refine ⟨?_, ?_, trivial⟩
    · linear_combination ((w * w + k * k + 1) * (a - o0)) * hN
    · linear_combination ((w * w + k * k + 1) * (b - o1)) * hN

/-- The quaternion built by `rotate` from a nonzero axis has unit length. -/
theorem rotate_quat_unit {α : Type} [LinearOrderedField α] (L : Libm α)
    (hL : L.Exact) (theta rx ry rz : α) (haxis : ¬ (rx = 0 ∧ ry = 0 ∧ rz = 0)) :
    L.cos (0.5 * theta) * L.cos (0.5 * theta) +
      rx * (1.0 / L.sqrt (rx * rx + ry * ry + rz * rz)) * L.sin (0.5 * theta) *
        (rx * (1.0 / L.sqrt (rx * rx + ry * ry + rz * rz)) * L.sin (0.5 * theta)) +
      ry * (1.0 / L.sqrt (rx * rx + ry * ry + rz * rz)) * L.sin (0.5 * theta) *
        (ry * (1.0 / L.sqrt (rx * rx + ry * ry + rz * rz)) * L.sin (0.5 * theta)) +
      rz * (1.0 / L.sqrt (rx * rx + ry * ry + rz * rz)) * L.sin (0.5 * theta) *
        (rz * (1.0 / L.sqrt (rx * rx + ry * ry + rz * rz)) * L.sin (0.5 * theta)) = 1 := by
  have hS : 0 < rx * rx + ry * ry + rz * rz := by
    have hx := mul_self_nonneg rx
    have hy := mul_self_nonneg ry
    have hz := mul_self_nonneg rz
    by_contra hc
    have h0 : rx * rx + ry * ry + rz * rz = 0 := by linarith
    apply haxis
    refine ⟨?_, ?_, ?_⟩
    · exact mul_self_eq_zero.mp (by linarith)
    · exact mul_self_eq_zero.mp (by linarith)
    · exact mul_self_eq_zero.mp (by linarith)
  have hsq := hL.sqrt_mul_self _ (le_of_lt hS)
  have hp := hL.sin_sq_add_cos_sq (0.5 * theta)
  generalize L.sqrt (rx * rx + ry * ry + rz * rz) = sq at hsq
  generalize L.sin (0.5 * theta) = s at hp
  generalize L.cos (0.5 * theta) = c at hp
  have hsq0 : sq ≠ 0 := by
    rintro rfl
    rw [mul_zero] at hsq
    exact absurd hsq (ne_of_lt hS)
  have h1 : (1.0 : α) = 1 := by norm_num
  have hn : (rx * rx + ry * ry + rz * rz) * ((1 / sq) * (1 / sq)) = 1 := by
    rw [← hsq]
    field_simp
  rw [h1]
  linear_combination hp + s * s * hn

theorem rotate_neg_cancel {α : Type} [LinearOrderedField α] (L : Libm α)
    (hL : L.Exact) (theta rx ry rz : α) (st : ReadSurf α)
    (haxis : ¬ (rx = 0 ∧ ry = 0 ∧ rz = 0))
    (hdim : st.dimension = 2 ∨ st.dimension = 3)
    (h2 : st.dimension = 2 → rx = 0 ∧ ry = 0 ∧ rz = 1) :
    rotate L (-theta) rx ry rz (rotate L theta rx ry rz st) = st := by
  have hN := rotate_quat_unit L hL theta rx ry rz haxis
  have hM : rotate_matrix L (-theta) rx ry rz =
      quat_to_mat ⟨L.cos (0.5 * theta),
        -(rx * (1.0 / L.sqrt (rx * rx + ry * ry + rz * rz)) * L.sin (0.5 * theta)),
        -(ry * (1.0 / L.sqrt (rx * rx + ry * ry + rz * rz)) * L.sin (0.5 * theta)),
        -(rz * (1.0 / L.sqrt (rx * rx + ry * ry + rz * rz)) * L.sin (0.5 * theta))⟩ := by
    simp only [rotate_matrix, axisangle_to_quat, norm3, mul_neg, hL.sin_neg, hL.cos_neg]
  apply ReadSurf.eq_of_fields <;> try rfl
  show forLoop (fun m pts => Function.update pts m
      (rotate_point (rotate_matrix L (-theta) rx ry rz) st.origin0 st.origin1 st.origin2
        st.dimension (pts m))) st.npoint_new.toNat st.npoint_old
      (forLoop (fun m pts => Function.update pts m
        (rotate_point (rotate_matrix L theta rx ry rz) st.origin0 st.origin1 st.origin2
          st.dimension (pts m))) st.npoint_new.toNat st.npoint_old st.pts) = st.pts
  refine forLoop_update_inverse
    (rotate_point (rotate_matrix L theta rx ry rz) st.origin0 st.origin1 st.origin2
      st.dimension)
    (rotate_point (rotate_matrix L (-theta) rx ry rz) st.origin0 st.origin1 st.origin2
      st.dimension) ?_ st.npoint_new st.npoint_old st.pts
  intro p
  rw [hM]
  rcases hdim with hd | hd
  · obtain ⟨hx, hy, -⟩ := h2 hd
    subst hx
    subst hy
    have hd3 : st.dimension ≠ 3 := by omega
    have hN2 : L.cos (0.5 * theta) * L.cos (0.5 * theta) +
        rz * (1.0 / L.sqrt (0 * 0 + 0 * 0 + rz * rz)) * L.sin (0.5 * theta) *
          (rz * (1.0 / L.sqrt (0 * 0 + 0 * 0 + rz * rz)) * L.sin (0.5 * theta)) = 1 := by
      linear_combination hN
    have h := rotate_point_cancel_planar _ _ hN2 st.origin0 st.origin1 st.origin2
      st.dimension hd3 p
    simpa only [rotate_matrix, axisangle_to_quat, norm3, zero_mul] using h
  · exact rotate_point_cancel_3d _ _ _ _ hN st.origin0 st.origin1 st.origin2
      st.dimension hd p

/-- C8: in exact real arithmetic, for every angle `theta` and every nonzero
axis (axis `(0,0,1)` in 2-D), in 2-D and in 3-D, `rotate theta axis` is accepted
and leaves the origin as it is, and `rotate (-theta) axis` after it is accepted
and gives back the state before the two operators: the coordinates of every
point, and the same origin. -/
theorem rotate_roundtrip_exact {α : Type} [LinearOrderedField α] (L : Libm α)
    (hL : L.Exact) (theta rx ry rz : α) (st : ReadSurf α)
    (haxis : ¬ (rx = 0 ∧ ry = 0 ∧ rz = 0))
    (hdim : st.dimension = 2 ∨ st.dimension = 3)
    (h2 : st.dimension = 2 → rx = 0 ∧ ry = 0 ∧ rz = 1) :
    ∃ st1, command_rotate L theta rx ry rz st = .ok st1 ∧
      (st1.origin0 = st.origin0 ∧ st1.origin1 = st.origin1 ∧
        st1.origin2 = st.origin2) ∧
      command_rotate L (-theta) rx ry rz st1 = .ok st := by
  have hg : ¬ (st.dimension = 2 ∧ (rx ≠ 0 ∨ ry ≠ 0 ∨ rz ≠ 1)) := by
    rintro ⟨hd, hc⟩
    obtain ⟨hx, hy, hz⟩ := h2 hd
    rcases hc with hc | hc | hc
    · exact hc hx
    · exact hc hy
    · exact hc hz
  have hg2 : ¬ ((rotate L theta rx ry rz st).dimension = 2 ∧
      (rx ≠ 0 ∨ ry ≠ 0 ∨ rz ≠ 1)) := hg
  refine ⟨rotate L theta rx ry rz st, ?_, ⟨rfl, rfl, rfl⟩, ?_⟩
  · unfold command_rotate
    rw [if_neg hg, if_neg haxis]
  · unfold command_rotate
    rw [if_neg hg2, if_neg haxis, rotate_neg_cancel L hL theta rx ry rz st haxis hdim h2]

/-- The witness of C8: over the real numbers with the real `sqrt`, `sin` and
`cos`, in 2-D, `rotate 1 0 0 1` then `rotate -1 0 0 1` about `(3, 4, 0)` restores
the batch of the point `(1, 2, 0)`. -/
theorem rotate_roundtrip_exact_witness :
    ∃ st1, command_rotate (⟨fun _ => 0, Real.sqrt, Real.sin, Real.cos⟩ : Libm ℝ)
        1 0 0 1 (pointBatch 2 ⟨1, 2, 0⟩ 3 4 0) = .ok st1 ∧
      (st1.origin0 = (pointBatch 2 (⟨1, 2, 0⟩ : Point ℝ) 3 4 0).origin0 ∧
        st1.origin1 = (pointBatch 2 (⟨1, 2, 0⟩ : Point ℝ) 3 4 0).origin1 ∧
        st1.origin2 = (pointBatch 2 (⟨1, 2, 0⟩ : Point ℝ) 3 4 0).origin2) ∧
      command_rotate (⟨fun _ => 0, Real.sqrt, Real.sin, Real.cos⟩ : Libm ℝ)
        (-1) 0 0 1 st1 = .ok (pointBatch 2 ⟨1, 2, 0⟩ 3 4 0) :=
  rotate_roundtrip_exact (⟨fun _ => 0, Real.sqrt, Real.sin, Real.cos⟩ : Libm ℝ)
    ⟨fun _ hx => Real.mul_self_sqrt hx, Real.sin_neg, Real.cos_neg,
     fun x => by
      have h := Real.sin_sq_add_cos_sq x
      rw [sq, sq] at h
      exact h⟩
    1 0 0 1 (pointBatch 2 ⟨1, 2, 0⟩ 3 4 0) (by norm_num) (Or.inl rfl)
    (fun _ => ⟨rfl, rfl, rfl⟩)

/-! ### ftrans -/

/-- For every fraction vector `f` that `ftrans` accepts (every `f` in 3-D;
`fz = 0.5` in 2-D), `ftrans f` gives what `atrans a` gives on the state it is
run on, where `a = boxlo + f * extent` per axis in 3-D and `a_z = 0` otherwise:
the origin becomes `a`; of the array that `surf->pts` points at, every entry of
the block `npoint_old .. npoint_old + npoint_new - 1` is shifted by
`a - previous origin` and every other entry stays. -/
theorem ftrans_eq_atrans {α : Type} [Add α] [Sub α] [Mul α] [Zero α]
    [OfScientific α] [DecidableEq α] (dom : Domain α) (fx fy fz : α)
    (st : ReadSurf α) (h2 : st.dimension = 2 → fz = 0.5) :
    (st.dimension = 3 → ftrans_target dom st.dimension fx fy fz =
        ⟨dom.boxlo0 + fx * dom.xprd, dom.boxlo1 + fy * dom.yprd,
         dom.boxlo2 + fz * dom.zprd⟩) ∧
    (st.dimension = 2 → ftrans_target dom st.dimension fx fy fz =
        ⟨dom.boxlo0 + fx * dom.xprd, dom.boxlo1 + fy * dom.yprd, 0⟩) ∧
    command_ftrans dom fx fy fz st =
      command_atrans (ftrans_target dom st.dimension fx fy fz).v0
        (ftrans_target dom st.dimension fx fy fz).v1
        (ftrans_target dom st.dimension fx fy fz).v2 st ∧
    ∃ st1, command_ftrans dom fx fy fz st = .ok st1 ∧
      st1.origin0 = (ftrans_target dom st.dimension fx fy fz).v0 ∧
      st1.origin1 = (ftrans_target dom st.dimension fx fy fz).v1 ∧
      st1.origin2 = (ftrans_target dom st.dimension fx fy fz).v2 ∧
      (∀ j, st.npoint_old ≤ j → j < st.npoint_old + st.npoint_new →
        st1.pts j =
          ⟨(st.pts j).x0 + ((ftrans_target dom st.dimension fx fy fz).v0 - st.origin0),
           (st.pts j).x1 + ((ftrans_target dom st.dimension fx fy fz).v1 - st.origin1),
           (st.pts j).x2 + ((ftrans_target dom st.dimension fx fy fz).v2 - st.origin2)⟩) ∧
      (∀ j, ¬ (st.npoint_old ≤ j ∧ j < st.npoint_old + st.npoint_new) →
        st1.pts j = st.pts j) ∧
      st1.pts = (apply_trans ((ftrans_target dom st.dimension fx fy fz).v0 - st.origin0)
        ((ftrans_target dom st.dimension fx fy fz).v1 - st.origin1)
        ((ftrans_target dom st.dimension fx fy fz).v2 - st.origin2) st).pts := by
  have hg : ¬ (st.dimension = 2 ∧ fz ≠ 0.5) := fun h => h.2 (h2 h.1)
  have hg2 : ¬ (st.dimension = 2 ∧ (ftrans_target dom st.dimension fx fy fz).v2 ≠ 0) := by
    rintro ⟨hd, hz⟩
    apply hz
    have h3 : ¬ st.dimension = 3 := by omega
    simp only [ftrans_target, if_neg h3]
  have hf : command_ftrans dom fx fy fz st = .ok (apply_ftrans dom fx fy fz st) := by
    unfold command_ftrans
    rw [if_neg hg]
  refine ⟨?_, ?_, ?_, apply_ftrans dom fx fy fz st, hf, rfl, rfl, rfl, ?_, ?_, rfl⟩
  · intro h3
    simp only [ftrans_target, if_pos h3]
  · intro hd
    have h3 : ¬ st.dimension = 3 := by omega
    simp only [ftrans_target, if_neg h3]
  · rw [hf]
    unfold command_atrans
    rw [if_neg hg2]
    rfl
  · intro j h1 hj
    show (translate _ _ _ _).pts j = _
    rw [translate_pts_apply, if_pos ⟨h1, hj⟩]
  · intro j hj
    show (translate _ _ _ _).pts j = _
    rw [translate_pts_apply, if_neg hj]

/-- On the 3-D batch `triBatch`, with the box `(0,0,0)`-`(10,10,10)` and the
origin at `(0,0,0)`, `ftrans 0.5 0.5 0.5` sets the origin to `(5,5,5)` and adds
`(5,5,5)` to each of the three entries of the block of the array of the
batch. -/
theorem ftrans_eq_atrans_witness :
    ∃ st1, command_ftrans box10 0.5 0.5 0.5 triBatch = .ok st1 ∧
      st1.origin0 = 5 ∧ st1.origin1 = 5 ∧ st1.origin2 = 5 ∧
      ∀ j, 0 ≤ j → j < 3 →
        st1.pts j = ⟨(triBatch.pts j).x0 + 5, (triBatch.pts j).x1 + 5,
          (triBatch.pts j).x2 + 5⟩ := by
  obtain ⟨-, -, -, st1, h1, h2, h3, h4, h5, -, -⟩ :=
    ftrans_eq_atrans box10 0.5 0.5 0.5 triBatch (fun h => absurd h (by decide))
  have ha : ftrans_target box10 triBatch.dimension 0.5 0.5 0.5 = ⟨5, 5, 5⟩ := by
    norm_num [ftrans_target, box10, triBatch]
  rw [ha] at h2 h3 h4 h5
  refine ⟨st1, h1, h2, h3, h4, ?_⟩
  intro j hj0 hj3
  have h := h5 j hj0 hj3
  simpa [triBatch] using h

/-- C9 as amended: for every fraction vector `f` that `ftrans` accepts (every
`f` in 3-D; `fz = 0.5` in 2-D), the operator `ftrans f` has the effect of the
operator `atrans a`, where `a = boxlo + f * extent` per axis in 3-D and
`a_z = 0` otherwise: both are accepted and lead to the same state, in which the
origin is `a` and the points are those that `trans (a - previous origin)`
leaves; and the keyword loop gives the same outcome on an argument list that
starts with `ftrans f` as on the list with `atrans a` in its place. -/
theorem ftrans_same_as_atrans {α : Type} [Add α] [Sub α] [Mul α] [Div α] [Zero α]
    [One α] [OfScientific α] [DecidableEq α] (L : Libm α) (dom : Domain α)
    (x y z ax ay az : String) (rest : List String) (st : ReadSurf α)
    (h2 : st.dimension = 2 → L.atof z = 0.5)
    (hx : L.atof ax = dom.boxlo0 + L.atof x * dom.xprd)
    (hy : L.atof ay = dom.boxlo1 + L.atof y * dom.yprd)
    (hz : L.atof az =
      if st.dimension = 3 then dom.boxlo2 + L.atof z * dom.zprd else 0) :
    (∃ st1, command_step L dom "ftrans" (x :: y :: z :: rest) st = .ok st1 ∧
      command_step L dom "atrans" (ax :: ay :: az :: rest) st = .ok st1 ∧
      st1.origin0 = dom.boxlo0 + L.atof x * dom.xprd ∧
      st1.origin1 = dom.boxlo1 + L.atof y * dom.yprd ∧
      st1.origin2 = (if st.dimension = 3 then dom.boxlo2 + L.atof z * dom.zprd else 0) ∧
      st1.pts = (apply_trans (L.atof ax - st.origin0) (L.atof ay - st.origin1)
        (L.atof az - st.origin2) st).pts ∧
      st1.lines = st.lines ∧ st1.tris = st.tris) ∧
    command_transforms L dom ("ftrans" :: x :: y :: z :: rest) st =
      command_transforms L dom ("atrans" :: ax :: ay :: az :: rest) st := by
  have hg : ¬ (st.dimension = 2 ∧ L.atof z ≠ 0.5) := fun h => h.2 (h2 h.1)
  have hg2 : ¬ (st.dimension = 2 ∧ L.atof az ≠ 0) := by
    rintro ⟨hd, h0⟩
    apply h0
    rw [hz, if_neg (by omega)]
  have ht : ftrans_target dom st.dimension (L.atof x) (L.atof y) (L.atof z) =
      ⟨L.atof ax, L.atof ay, L.atof az⟩ := by
    rw [hx, hy, hz]
    rfl
  have hf : command_step L dom "ftrans" (x :: y :: z :: rest) st =
      .ok (apply_atrans (L.atof ax) (L.atof ay) (L.atof az) st) := by
    simp only [command_step, String.reduceEq, if_false, if_true, command_ftrans, if_neg hg]
    unfold apply_ftrans
    rw [ht]
    rfl
  have ha : command_step L dom "atrans" (ax :: ay :: az :: rest) st =
      .ok (apply_atrans (L.atof ax) (L.atof ay) (L.atof az) st) := by
    simp only [command_step, String.reduceEq, if_false, if_true, command_atrans, if_neg hg2]
  refine ⟨⟨_, hf, ha, hx, hy, hz, rfl, rfl, rfl⟩, ?_⟩
  rw [command_transforms, command_transforms, hf, ha]
  rfl

/-- The witness of C9 as amended: in 3-D with the box `(0,0,0)`-`(10,10,10)`
and the origin at `(0,0,0)`, `ftrans 0.5 0.5 0.5` and `atrans 5 5 5` lead to the
same state, in which the origin is `(5,5,5)`. -/
theorem ftrans_same_as_atrans_witness :
    (∃ st1, command_step fracLibm box10 "ftrans" ["0.5", "0.5", "0.5"] triBatch = .ok st1 ∧
      command_step fracLibm box10 "atrans" ["5", "5", "5"] triBatch = .ok st1 ∧
      st1.origin0 = 5 ∧ st1.origin1 = 5 ∧ st1.origin2 = 5) ∧
    command_transforms fracLibm box10 ["ftrans", "0.5", "0.5", "0.5"] triBatch =
      command_transforms fracLibm box10 ["atrans", "5", "5", "5"] triBatch := by
  have h := ftrans_same_as_atrans fracLibm box10 "0.5" "0.5" "0.5" "5" "5" "5" [] triBatch
    (fun h => absurd h (by decide))
    (show (5 : ℚ) = 0 + 0.5 * 10 by norm_num)
    (show (5 : ℚ) = 0 + 0.5 * 10 by norm_num)
    (show (5 : ℚ) = 0 + 0.5 * 10 by norm_num)
  obtain ⟨⟨st1, h1, h2, h3, h4, h5, -, -, -⟩, h6⟩ := h
  refine ⟨⟨st1, h1, h2, ?_, ?_, ?_⟩, h6⟩
  · rw [h3]
    norm_num [box10, fracLibm]
  · rw [h4]
    norm_num [box10, fracLibm]
  · rw [h5]
    norm_num [box10, fracLibm, triBatch]

/-- The counterexample to C9: in 2-D, `ftrans 0.5 0.5 0` is fatal and leaves the
batch as it was, while `atrans a` with `a = boxlo + f * extent` and `a_z = 0` is
accepted and moves the origin to `(5, 5, 0)`. -/
theorem ftrans_2d_counterexample :
    command_ftrans box10 0.5 0.5 0 lineBatch = .fatal msgGeometry lineBatch ∧
      ftrans_target box10 lineBatch.dimension 0.5 0.5 0 = ⟨5, 5, 0⟩ ∧
      command_atrans 5 5 0 lineBatch = .ok (apply_atrans 5 5 0 lineBatch) ∧
      (apply_atrans 5 5 0 lineBatch).origin0 = 5 := by
  refine ⟨?_, ?_, ?_, rfl⟩
  · unfold command_ftrans
    rw [if_pos]
    exact ⟨rfl, by norm_num⟩
  · norm_num [ftrans_target, box10, lineBatch]
  · unfold command_atrans
    rw [if_neg]
    rintro ⟨-, h⟩
    exact h rfl

/-! ### The keyword loop -/

theorem invert_dimension {α : Type} (st : ReadSurf α) :
    (invert st).dimension = st.dimension := by
  by_cases h2 : st.dimension = 2
  · rw [invert_of_two st h2]
    rfl
  · by_cases h3 : st.dimension = 3
    · rw [invert_of_three st h3]
      rfl
    · rw [invert_of_other st h2 h3]

theorem Op.apply_dimension {α : Type} [Add α] [Sub α] [Mul α] [Div α] [Zero α]
    [OfScientific α] (L : Libm α) (dom : Domain α) (op : Op) (st : ReadSurf α) :
    (op.apply L dom st).dimension = st.dimension := by
  cases op with
  | invert => exact invert_dimension st
  | _ => rfl

/-- A valid operator at the head of the argument list is applied and the loop
goes on with the arguments after it. -/
theorem command_transforms_op {α : Type} [Add α] [Sub α] [Mul α] [Div α] [Zero α]
    [One α] [OfScientific α] [DecidableEq α] (L : Libm α) (dom : Domain α)
    (op : Op) (more : List String) (st : ReadSurf α)
    (hv : op.valid L st.dimension) :
    command_transforms L dom (op.tokens ++ more) st =
      command_transforms L dom more (op.apply L dom st) := by
  cases op with
  | origin x y z =>
    have hg : ¬ (st.dimension = 2 ∧ L.atof z ≠ 0) := fun h => h.2 (hv h.1)
    simp [Op.tokens, Op.apply, command_transforms, command_step, command_advance,
      command_origin, hg]
  | trans x y z =>
    have hg : ¬ (st.dimension = 2 ∧ L.atof z ≠ 0) := fun h => h.2 (hv h.1)
    simp [Op.tokens, Op.apply, command_transforms, command_step, command_advance,
      command_trans, hg]
  | atrans x y z =>
    have hg : ¬ (st.dimension = 2 ∧ L.atof z ≠ 0) := fun h => h.2 (hv h.1)
    simp [Op.tokens, Op.apply, command_transforms, command_step, command_advance,
      command_atrans, hg]
  | ftrans x y z =>
    have hg : ¬ (st.dimension = 2 ∧ L.atof z ≠ 0.5) := fun h => h.2 (hv h.1)
    simp [Op.tokens, Op.apply, command_transforms, command_step, command_advance,
      command_ftrans, hg]
  | scale x y z =>
    have hg : ¬ (st.dimension = 2 ∧ L.atof z ≠ 1) := fun h => h.2 (hv h.1)
    simp [Op.tokens, Op.apply, command_transforms, command_step, command_advance,
      command_scale, hg]
  | rotate t x y z =>
    have hg : ¬ (st.dimension = 2 ∧ (L.atof x ≠ 0 ∨ L.atof y ≠ 0 ∨ L.atof z ≠ 1)) := by
      rintro ⟨hd, hc⟩
      obtain ⟨hx, hy, hz⟩ := hv.1 hd
      rcases hc with hc | hc | hc
      · exact hc hx
      · exact hc hy
      · exact hc hz
    have hz : ¬ (L.atof x = 0 ∧ L.atof y = 0 ∧ L.atof z = 0) := hv.2
    simp [Op.tokens, Op.apply, command_transforms, command_step, command_advance,
      command_rotate, hg, hz]
  | invert =>
    simp [Op.tokens, Op.apply, command_transforms, command_step, command_advance,
      command_invert]

/-- An argument list that starts with an invalid item is fatal at once, in the
state the loop has reached. -/
theorem command_transforms_invalid {α : Type} [Add α] [Sub α] [Mul α] [Div α]
    [Zero α] [One α] [OfScientific α] [DecidableEq α] (L : Libm α) (dom : Domain α)
    (bad : List String) (st : ReadSurf α) (hbad : InvalidHead L st.dimension bad) :
    ∃ msg, command_transforms L dom bad st = .fatal msg st := by
  cases hbad with
  | unrecognized kw rest hkw =>
    simp only [List.mem_cons, List.mem_singleton, not_or, List.not_mem_nil,
      or_false] at hkw
    obtain ⟨h1, h2, h3, h4, h5, h6, h7⟩ := hkw
    refine ⟨msgCommand, ?_⟩
    simp [command_transforms, command_step, h1, h2, h3, h4, h5, h6, h7]
  | truncated3 kw rest hkw hlen =>
    refine ⟨msgCommand, ?_⟩
    simp only [List.mem_cons, List.mem_singleton, List.not_mem_nil, or_false] at hkw
    match rest, hlen with
    | [], _ =>
      rcases hkw with h | h | h | h | h <;> subst h <;>
        simp [command_transforms, command_step]
    | [_], _ =>
      rcases hkw with h | h | h | h | h <;> subst h <;>
        simp [command_transforms, command_step]
    | [_, _], _ =>
      rcases hkw with h | h | h | h | h <;> subst h <;>
        simp [command_transforms, command_step]
    | _ :: _ :: _ :: _, hl =>
      simp only [List.length_cons] at hl
      omega
  | truncated4 rest hlen =>
    refine ⟨msgCommand, ?_⟩
    match rest, hlen with
    | [], _ => simp [command_transforms, command_step]
    | [_], _ => simp [command_transforms, command_step]
    | [_, _], _ => simp [command_transforms, command_step]
    | [_, _, _], _ => simp [command_transforms, command_step]
    | _ :: _ :: _ :: _ :: _, hl =>
      simp only [List.length_cons] at hl
      omega
  | origin2d x y z rest hd hz =>
    exact ⟨msgGeometry, by simp [command_transforms, command_step, command_origin, hd, hz]⟩
  | trans2d x y z rest hd hz =>
    exact ⟨msgGeometry, by simp [command_transforms, command_step, command_trans, hd, hz]⟩
  | atrans2d x y z rest hd hz =>
    exact ⟨msgGeometry, by simp [command_transforms, command_step, command_atrans, hd, hz]⟩
  | ftrans2d x y z rest hd hz =>
    exact ⟨msgGeometry, by simp [command_transforms, command_step, command_ftrans, hd, hz]⟩
  | scale2d x y z rest hd hz =>
    exact ⟨msgGeometry, by simp [command_transforms, command_step, command_scale, hd, hz]⟩
  | rotate2d t x y z rest hd hc =>
    refine ⟨msgGeometry, ?_⟩
    have hg : st.dimension = 2 ∧ (L.atof x ≠ 0 ∨ L.atof y ≠ 0 ∨ L.atof z ≠ 1) := ⟨hd, hc⟩
    simp only [command_transforms, command_step, command_rotate, if_pos hg]
    simp
  | rotateZero t x y z rest hx hy hz =>
    refine ⟨msgGeometry, ?_⟩
    simp [command_transforms, command_step, command_rotate, hx, hy, hz]

/-- C10: the operators of an argument list are applied from left to right as
their keywords are reached, and nothing is rolled back.  For every list of
valid operators `ops` (the first `k - 1` operators): the loop over their tokens
finishes in the state `applyOps ops st`; and when the tokens are followed by an
argument list `bad` that starts with an invalid item (an unrecognized keyword,
a truncated argument list, a violated 2-D constraint, a zero rotation axis), the
call is fatal there, in the state `applyOps ops st` reached by applying the
operators before it in order. -/
theorem transforms_stop_at_first_invalid {α : Type} [Add α] [Sub α] [Mul α]
    [Div α] [Zero α] [One α] [OfScientific α] [DecidableEq α] (L : Libm α)
    (dom : Domain α) (ops : List Op) (bad : List String) (st : ReadSurf α)
    (hvalid : ∀ op ∈ ops, op.valid L st.dimension) :
    command_transforms L dom (opsTokens ops) st = .ok (applyOps L dom ops st) ∧
    (InvalidHead L st.dimension bad →
      ∃ msg, command_transforms L dom (opsTokens ops ++ bad) st =
        .fatal msg (applyOps L dom ops st)) := by
  induction ops generalizing st with
  | nil =>
    refine ⟨?_, ?_⟩
    · simp [opsTokens, applyOps, command_transforms]
    · intro hbad
      exact command_transforms_invalid L dom bad st hbad
  | cons op ops ih =>
    have hv : op.valid L st.dimension := hvalid op (List.mem_cons_self _ _)
    have hrest : ∀ o ∈ ops, o.valid L (op.apply L dom st).dimension := by
      intro o ho
      rw [Op.apply_dimension]
      exact hvalid o (List.mem_cons_of_mem _ ho)
    obtain ⟨ih1, ih2⟩ := ih (op.apply L dom st) hrest
    refine ⟨?_, ?_⟩
    · show command_transforms L dom (op.tokens ++ opsTokens ops) st = _
      rw [command_transforms_op L dom op _ st hv]
      exact ih1
    · intro hbad
      rw [← Op.apply_dimension L dom op st] at hbad
      obtain ⟨msg, h⟩ := ih2 hbad
      refine ⟨msg, ?_⟩
      show command_transforms L dom (op.tokens ++ opsTokens ops ++ bad) st = _
      rw [List.append_assoc, command_transforms_op L dom op _ st hv]
      exact h

/-- The witness of C10: in 2-D the arguments
`trans 1 2 0 invert scale 2 2 2 invert` are fatal at `scale` (third operator,
`sz ≠ 1`), in the state left by `trans 1 2 0` and `invert`: the lines are
inverted and the origin is `(1, 2, 0)`. -/
theorem transforms_stop_at_first_invalid_witness :
    (∃ msg, command_transforms sampleLibm box10
        (opsTokens [Op.trans "1" "2" "0", Op.invert] ++
          ["scale", "2", "2", "2", "invert"]) lineBatch =
        .fatal msg (applyOps sampleLibm box10 [Op.trans "1" "2" "0", Op.invert]
          lineBatch)) ∧
    (applyOps sampleLibm box10 [Op.trans "1" "2" "0", Op.invert] lineBatch).lines 0 =
      ⟨1, 2, 1⟩ ∧
    (applyOps sampleLibm box10 [Op.trans "1" "2" "0", Op.invert] lineBatch).origin0 =
      1 :=
  ⟨(transforms_stop_at_first_invalid sampleLibm box10 [Op.trans "1" "2" "0", Op.invert]
      ["scale", "2", "2", "2", "invert"] lineBatch
      (by
        intro op hop
        simp only [List.mem_cons, List.mem_singleton, List.not_mem_nil, or_false] at hop
        rcases hop with h | h
        · subst h
          intro _
          rfl
        · subst h
          trivial)).2
      (InvalidHead.scale2d "2" "2" "2" ["invert"] rfl
        (by
          rw [show sampleLibm.atof "2" = 2 from rfl]
          norm_num)),
   by decide,
   by norm_num [applyOps, Op.apply, apply_trans, translate, invert, invert_lines,
     invert_tris, lineBatch, sampleLibm]⟩

/-! ### Steps of the keyword loop -/

/-- A pass of the loop body that does not end in a fatal error has applied one
valid operator, whose tokens stand at the head of the argument list. -/
theorem command_step_ok {α : Type} [Add α] [Sub α] [Mul α] [Div α] [Zero α]
    [One α] [OfScientific α] [DecidableEq α] (L : Libm α) (dom : Domain α)
    (kw : String) (rest : List String) (st st1 : ReadSurf α)
    (h : command_step L dom kw rest st = .ok st1) :
    ∃ op : Op, op.valid L st.dimension ∧ st1 = op.apply L dom st ∧
      kw :: rest = op.tokens ++ rest.drop (command_advance kw) := by
  unfold command_step at h
  split_ifs at h with h1 h2 h3 h4 h5 h6 h7
  · subst h1
    rcases rest with _ | ⟨a1, _ | ⟨a2, _ | ⟨a3, more⟩⟩⟩ <;> simp only [] at h <;>
      try (exact absurd h (by simp))
    unfold command_origin at h
    split_ifs at h with hg
    refine ⟨.origin a1 a2 a3, ?_, ?_, ?_⟩
    · intro hd
      by_contra hz
      exact hg ⟨hd, hz⟩
    · exact (Outcome.ok.inj h).symm
    · simp [Op.tokens, command_advance]
  · subst h2
    rcases rest with _ | ⟨a1, _ | ⟨a2, _ | ⟨a3, more⟩⟩⟩ <;> simp only [] at h <;>
      try (exact absurd h (by simp))
    unfold command_trans at h
    split_ifs at h with hg
    refine ⟨.trans a1 a2 a3, ?_, ?_, ?_⟩
    · intro hd
      by_contra hz
      exact hg ⟨hd, hz⟩
    · exact (Outcome.ok.inj h).symm
    · simp [Op.tokens, command_advance]
  · subst h3
    rcases rest with _ | ⟨a1, _ | ⟨a2, _ | ⟨a3, more⟩⟩⟩ <;> simp only [] at h <;>
      try (exact absurd h (by simp))
    unfold command_atrans at h
    split_ifs at h with hg
    refine ⟨.atrans a1 a2 a3, ?_, ?_, ?_⟩
    · intro hd
      by_contra hz
      exact hg ⟨hd, hz⟩
    · exact (Outcome.ok.inj h).symm
    · simp [Op.tokens, command_advance]
  · subst h4
    rcases rest with _ | ⟨a1, _ | ⟨a2, _ | ⟨a3, more⟩⟩⟩ <;> simp only [] at h <;>
      try (exact absurd h (by simp))
    unfold command_ftrans at h
    split_ifs at h with hg
    refine ⟨.ftrans a1 a2 a3, ?_, ?_, ?_⟩
    · intro hd
      by_contra hz
      exact hg ⟨hd, hz⟩
    · exact (Outcome.ok.inj h).symm
    · simp [Op.tokens, command_advance]
  · subst h5
    rcases rest with _ | ⟨a1, _ | ⟨a2, _ | ⟨a3, more⟩⟩⟩ <;> simp only [] at h <;>
      try (exact absurd h (by simp))
    unfold command_scale at h
    split_ifs at h with hg
    refine ⟨.scale a1 a2 a3, ?_, ?_, ?_⟩
    · intro hd
      by_contra hz
      exact hg ⟨hd, hz⟩
    · exact (Outcome.ok.inj h).symm
    · simp [Op.tokens, command_advance]
  · subst h6
    rcases rest with _ | ⟨a1, _ | ⟨a2, _ | ⟨a3, _ | ⟨a4, more⟩⟩⟩⟩ <;>
      simp only [] at h <;> try (exact absurd h (by simp))
    unfold command_rotate at h
    split_ifs at h with hg hz
    refine ⟨.rotate a1 a2 a3 a4, ⟨?_, hz⟩, ?_, ?_⟩
    · intro hd
      by_contra hc
      apply hg
      refine ⟨hd, ?_⟩
      by_contra hn
      apply hc
      simp only [not_or, not_not] at hn
      exact hn
    · exact (Outcome.ok.inj h).symm
    · simp [Op.tokens, command_advance]
  · subst h7
    refine ⟨.invert, trivial, ?_, ?_⟩
    · exact (Outcome.ok.inj h).symm
    · simp [Op.tokens, command_advance]

/-- A fatal error in the loop body leaves the state as it was. -/
theorem command_step_fatal {α : Type} [Add α] [Sub α] [Mul α] [Div α] [Zero α]
    [One α] [OfScientific α] [DecidableEq α] (L : Libm α) (dom : Domain α)
    (kw : String) (rest : List String) (st st1 : ReadSurf α) (msg : String)
    (h : command_step L dom kw rest st = .fatal msg st1) : st1 = st := by
  unfold command_step at h
  split_ifs at h with h1 h2 h3 h4 h5 h6 h7
  · rcases rest with _ | ⟨a1, _ | ⟨a2, _ | ⟨a3, more⟩⟩⟩ <;> simp only [] at h <;>
      try (exact (Outcome.fatal.inj h).2.symm)
    unfold command_origin at h
    split_ifs at h
    exact (Outcome.fatal.inj h).2.symm
  · rcases rest with _ | ⟨a1, _ | ⟨a2, _ | ⟨a3, more⟩⟩⟩ <;> simp only [] at h <;>
      try (exact (Outcome.fatal.inj h).2.symm)
    unfold command_trans at h
    split_ifs at h
    exact (Outcome.fatal.inj h).2.symm
  · rcases rest with _ | ⟨a1, _ | ⟨a2, _ | ⟨a3, more⟩⟩⟩ <;> simp only [] at h <;>
      try (exact (Outcome.fatal.inj h).2.symm)
    unfold command_atrans at h
    split_ifs at h
    exact (Outcome.fatal.inj h).2.symm
  · rcases rest with _ | ⟨a1, _ | ⟨a2, _ | ⟨a3, more⟩⟩⟩ <;> simp only [] at h <;>
      try (exact (Outcome.fatal.inj h).2.symm)
    unfold command_ftrans at h
    split_ifs at h
    exact (Outcome.fatal.inj h).2.symm
  · rcases rest with _ | ⟨a1, _ | ⟨a2, _ | ⟨a3, more⟩⟩⟩ <;> simp only [] at h <;>
      try (exact (Outcome.fatal.inj h).2.symm)
    unfold command_scale at h
    split_ifs at h
    exact (Outcome.fatal.inj h).2.symm
  · rcases rest with _ | ⟨a1, _ | ⟨a2, _ | ⟨a3, _ | ⟨a4, more⟩⟩⟩⟩ <;>
      simp only [] at h <;> try (exact (Outcome.fatal.inj h).2.symm)
    unfold command_rotate at h
    split_ifs at h <;> exact (Outcome.fatal.inj h).2.symm
  · unfold command_invert at h
    cases h
  · exact (Outcome.fatal.inj h).2.symm

/-- Induction over the keyword loop: a property of the state that every valid
operator preserves holds of the state the loop ends in, be it the final state or
the state at a fatal error. -/
theorem command_transforms_preserves {α : Type} [Add α] [Sub α] [Mul α] [Div α]
    [Zero α] [One α] [OfScientific α] [DecidableEq α] (L : Libm α) (dom : Domain α)
    (P : ReadSurf α → Prop)
    (hP : ∀ (op : Op) (st : ReadSurf α), P st → op.valid L st.dimension →
      P (op.apply L dom st))
    (args : List String) (st : ReadSurf α) (h : P st) :
    P (command_transforms L dom args st).state := by
  obtain ⟨n, hn⟩ : ∃ n, args.length = n := ⟨_, rfl⟩
  induction n using Nat.strong_induction_on generalizing args st with
  | _ n ih =>
    cases args with
    | nil =>
      rw [command_transforms]
      exact h
    | cons kw rest =>
      rw [command_transforms]
      cases hs : command_step L dom kw rest st with
      | ok st1 =>
        obtain ⟨op, hv, hst, -⟩ := command_step_ok L dom kw rest st st1 hs
        simp only []
        refine ih (rest.drop (command_advance kw)).length ?_ _ st1 ?_ rfl
        · rw [← hn]
          simp only [List.length_drop, List.length_cons]
          omega
        · rw [hst]
          exact hP op st h hv
      | fatal msg st1 =>
        have := command_step_fatal L dom kw rest st st1 msg hs
        subst this
        exact h

theorem rotate_pts_apply {α : Type} [Add α] [Sub α] [Mul α] [Div α] [OfScientific α]
    (L : Libm α) (theta rx ry rz : α) (st : ReadSurf α) (j : Int) :
    (rotate L theta rx ry rz st).pts j =
      if st.npoint_old ≤ j ∧ j < st.npoint_old + st.npoint_new then
        rotate_point (rotate_matrix L theta rx ry rz) st.origin0 st.origin1 st.origin2
          st.dimension (st.pts j)
      else st.pts j := by
  unfold rotate
  exact forLoop_update_block (rotate_point (rotate_matrix L theta rx ry rz) st.origin0
    st.origin1 st.origin2 st.dimension) _ _ _ _

/-- An operator changes no point outside the block of new points. -/
theorem Op.apply_pts_outside {α : Type} [Add α] [Sub α] [Mul α] [Div α] [Zero α]
    [OfScientific α] (L : Libm α) (dom : Domain α) (op : Op) (st : ReadSurf α)
    (j : Int) (hj : ¬ (st.npoint_old ≤ j ∧ j < st.npoint_old + st.npoint_new)) :
    (op.apply L dom st).pts j = st.pts j := by
  cases op with
  | origin x y z => rfl
  | trans x y z =>
    show (translate _ _ _ _).pts j = _
    rw [translate_pts_apply, if_neg hj]
  | atrans x y z =>
    show (translate _ _ _ _).pts j = _
    rw [translate_pts_apply, if_neg hj]
  | ftrans x y z =>
    show (translate _ _ _ _).pts j = _
    rw [translate_pts_apply, if_neg hj]
  | scale x y z =>
    show (Sparta.scale _ _ _ _).pts j = _
    rw [scale_pts_apply, if_neg hj]
  | rotate t x y z =>
    show (Sparta.rotate _ _ _ _ _ _).pts j = _
    rw [rotate_pts_apply, if_neg hj]
  | invert =>
    show (Sparta.invert st).pts j = _
    by_cases h2 : st.dimension = 2
    · rw [invert_of_two st h2]
      rfl
    · by_cases h3 : st.dimension = 3
      · rw [invert_of_three st h3]
        rfl
      · rw [invert_of_other st h2 h3]

/-- An operator changes no line below `nline_old` and no triangle below
`ntri_old`; the operators other than `invert` change no line and no triangle at
all. -/
theorem Op.apply_elements {α : Type} [Add α] [Sub α] [Mul α] [Div α] [Zero α]
    [OfScientific α] (L : Libm α) (dom : Domain α) (op : Op) (st : ReadSurf α) :
    (∀ j, j < st.nline_old → (op.apply L dom st).lines j = st.lines j) ∧
    (∀ j, j < st.ntri_old → (op.apply L dom st).tris j = st.tris j) ∧
    (op ≠ .invert → (op.apply L dom st).lines = st.lines ∧
      (op.apply L dom st).tris = st.tris) := by
  cases op with
  | invert =>
    refine ⟨?_, ?_, fun h => absurd rfl h⟩
    · intro j hj
      show (Sparta.invert st).lines j = _
      by_cases h2 : st.dimension = 2
      · rw [invert_of_two st h2, invert_lines_apply, if_neg]
        omega
      · by_cases h3 : st.dimension = 3
        · rw [invert_of_three st h3]
          rfl
        · rw [invert_of_other st h2 h3]
    · intro j hj
      show (Sparta.invert st).tris j = _
      by_cases h2 : st.dimension = 2
      · rw [invert_of_two st h2]
        rfl
      · by_cases h3 : st.dimension = 3
        · rw [invert_of_three st h3, invert_tris_apply, if_neg]
          omega
        · rw [invert_of_other st h2 h3]
  | _ => exact ⟨fun _ _ => rfl, fun _ _ => rfl, fun _ => ⟨rfl, rfl⟩⟩

/-- An operator keeps the counts that delimit the blocks. -/
theorem Op.apply_counts {α : Type} [Add α] [Sub α] [Mul α] [Div α] [Zero α]
    [OfScientific α] (L : Libm α) (dom : Domain α) (op : Op) (st : ReadSurf α) :
    (op.apply L dom st).npoint_old = st.npoint_old ∧
    (op.apply L dom st).nline_old = st.nline_old ∧
    (op.apply L dom st).ntri_old = st.ntri_old ∧
    (op.apply L dom st).npoint_new = st.npoint_new ∧
    (op.apply L dom st).nline_new = st.nline_new ∧
    (op.apply L dom st).ntri_new = st.ntri_new := by
  cases op with
  | invert =>
    show (Sparta.invert st).npoint_old = _ ∧ (Sparta.invert st).nline_old = _ ∧
      (Sparta.invert st).ntri_old = _ ∧ (Sparta.invert st).npoint_new = _ ∧
      (Sparta.invert st).nline_new = _ ∧ (Sparta.invert st).ntri_new = _
    by_cases h2 : st.dimension = 2
    · rw [invert_of_two st h2]
      exact ⟨rfl, rfl, rfl, rfl, rfl, rfl⟩
    · by_cases h3 : st.dimension = 3
      · rw [invert_of_three st h3]
        exact ⟨rfl, rfl, rfl, rfl, rfl, rfl⟩
      · rw [invert_of_other st h2 h3]
        exact ⟨rfl, rfl, rfl, rfl, rfl, rfl⟩
  | _ => exact ⟨rfl, rfl, rfl, rfl, rfl, rfl⟩

/-- C11: in 2-D each operator is accepted exactly when its 2-D constraint
holds (`origin` `z = 0`, `trans` `dz = 0`, `atrans` `az = 0`, `ftrans`
`fz = 0.5`, `scale` `sz = 1`, `rotate` axis `(0,0,1)`) and is rejected with the
geometry error exactly when it is violated; the rejected operator leaves the
state, origin and points included, as it was.  The operator stands with all its
arguments at the head of the argument list. -/
theorem two_d_operator_constraints {α : Type} [Add α] [Sub α] [Mul α] [Div α]
    [Zero α] [One α] [OfScientific α] [DecidableEq α] (L : Libm α) (dom : Domain α)
    (st : ReadSurf α) (hd : st.dimension = 2) (h10 : (1 : α) ≠ 0) (op : Op)
    (rest : List String) :
    (op.constraint2d L ↔
      command_step L dom op.keyword (op.args ++ rest) st = .ok (op.apply L dom st)) ∧
    (¬ op.constraint2d L ↔
      command_step L dom op.keyword (op.args ++ rest) st = .fatal msgGeometry st) := by
  cases op with
  | origin x y z =>
    by_cases hc : L.atof z = 0 <;>
      simp [Op.constraint2d, Op.keyword, Op.args, Op.apply, command_step,
        command_origin, hd, hc]
  | trans x y z =>
    by_cases hc : L.atof z = 0 <;>
      simp [Op.constraint2d, Op.keyword, Op.args, Op.apply, command_step,
        command_trans, hd, hc]
  | atrans x y z =>
    by_cases hc : L.atof z = 0 <;>
      simp [Op.constraint2d, Op.keyword, Op.args, Op.apply, command_step,
        command_atrans, hd, hc]
  | ftrans x y z =>
    by_cases hc : L.atof z = 0.5 <;>
      simp [Op.constraint2d, Op.keyword, Op.args, Op.apply, command_step,
        command_ftrans, hd, hc]
  | scale x y z =>
    by_cases hc : L.atof z = 1 <;>
      simp [Op.constraint2d, Op.keyword, Op.args, Op.apply, command_step,
        command_scale, hd, hc]
  | rotate t x y z =>
    by_cases hc : L.atof x = 0 ∧ L.atof y = 0 ∧ L.atof z = 1
    · obtain ⟨hx, hy, hz⟩ := hc
      simp [Op.constraint2d, Op.keyword, Op.args, Op.apply, command_step,
        command_rotate, hd, hx, hy, hz, h10]
    · have hg : st.dimension = 2 ∧ (L.atof x ≠ 0 ∨ L.atof y ≠ 0 ∨ L.atof z ≠ 1) := by
        refine ⟨hd, ?_⟩
        by_contra hn
        simp only [not_or, not_not] at hn
        exact hc hn
      simp [Op.constraint2d, Op.keyword, Op.args, Op.apply, command_step,
        command_rotate, hc, if_pos hg]
  | invert =>
    simp [Op.constraint2d, Op.keyword, Op.args, Op.apply, command_step,
      command_invert]

/-- The witness of C11: in 2-D `scale 2 2 1` is accepted and `scale 2 2 2` is
rejected, leaving `lineBatch` as it was. -/
theorem two_d_operator_constraints_witness :
    command_step sampleLibm box10 "scale" ["2", "2", "1"] lineBatch =
        .ok (scale 2 2 1 lineBatch) ∧
      command_step sampleLibm box10 "scale" ["2", "2", "2", "invert"] lineBatch =
        .fatal msgGeometry lineBatch :=
  ⟨(two_d_operator_constraints sampleLibm box10 lineBatch rfl (by norm_num)
      (.scale "2" "2" "1") []).1.mp rfl,
   (two_d_operator_constraints sampleLibm box10 lineBatch rfl (by norm_num)
      (.scale "2" "2" "2") ["invert"]).2.mp (by
        show ¬ (sampleLibm.atof "2" = 1)
        rw [show sampleLibm.atof "2" = 2 from rfl]
        norm_num)⟩

/-- C18: a transform sequence changes only the new blocks.  In the state in
which the keyword loop stops (final, or at a fatal error), and likewise for the
pipeline that first resets the origin, every point outside
`[npoint_old, npoint_old + npoint_new)`, every line below `nline_old` and every
triangle below `ntri_old` is as before; and each operator other than `invert`
(origin, trans, atrans, ftrans, scale, rotate) leaves all lines and triangles,
hence all vertex indices, as they were. -/
theorem transforms_frame {α : Type} [Add α] [Sub α] [Mul α] [Div α] [Zero α]
    [One α] [OfScientific α] [DecidableEq α] (L : Libm α) (dom : Domain α)
    (args : List String) (st : ReadSurf α) :
    ((∀ j, ¬ (st.npoint_old ≤ j ∧ j < st.npoint_old + st.npoint_new) →
        (command_transforms L dom args st).state.pts j = st.pts j) ∧
      (∀ j, j < st.nline_old →
        (command_transforms L dom args st).state.lines j = st.lines j) ∧
      (∀ j, j < st.ntri_old →
        (command_transforms L dom args st).state.tris j = st.tris j)) ∧
    ((∀ j, ¬ (st.npoint_old ≤ j ∧ j < st.npoint_old + st.npoint_new) →
        (transform_pipeline L dom args st).state.pts j = st.pts j) ∧
      (∀ j, j < st.nline_old →
        (transform_pipeline L dom args st).state.lines j = st.lines j) ∧
      (∀ j, j < st.ntri_old →
        (transform_pipeline L dom args st).state.tris j = st.tris j)) ∧
    (∀ op : Op, op ≠ .invert →
      (op.apply L dom st).lines = st.lines ∧ (op.apply L dom st).tris = st.tris) := by
  have key : ∀ s0 : ReadSurf α,
      s0.npoint_old = st.npoint_old → s0.nline_old = st.nline_old →
      s0.ntri_old = st.ntri_old → s0.npoint_new = st.npoint_new →
      s0.pts = st.pts → s0.lines = st.lines → s0.tris = st.tris →
      ((∀ j, ¬ (st.npoint_old ≤ j ∧ j < st.npoint_old + st.npoint_new) →
        (command_transforms L dom args s0).state.pts j = st.pts j) ∧
      (∀ j, j < st.nline_old →
        (command_transforms L dom args s0).state.lines j = st.lines j) ∧
      (∀ j, j < st.ntri_old →
        (command_transforms L dom args s0).state.tris j = st.tris j)) := by
    intro s0 e1 e2 e3 e4 e5 e6 e7
    have h := command_transforms_preserves L dom
      (fun s => s.npoint_old = st.npoint_old ∧ s.nline_old = st.nline_old ∧
        s.ntri_old = st.ntri_old ∧ s.npoint_new = st.npoint_new ∧
        (∀ j, ¬ (st.npoint_old ≤ j ∧ j < st.npoint_old + st.npoint_new) →
          s.pts j = st.pts j) ∧
        (∀ j, j < st.nline_old → s.lines j = st.lines j) ∧
        (∀ j, j < st.ntri_old → s.tris j = st.tris j))
      (by
        rintro op s ⟨h1, h2, h3, h4, h5, h6, h7⟩ -
        obtain ⟨c1, c2, c3, c4, -, -⟩ := Op.apply_counts L dom op s
        obtain ⟨l1, l2, -⟩ := Op.apply_elements L dom op s
        refine ⟨c1.trans h1, c2.trans h2, c3.trans h3, c4.trans h4, ?_, ?_, ?_⟩
        · intro j hj
          rw [Op.apply_pts_outside L dom op s j (by rw [h1, h4]; exact hj)]
          exact h5 j hj
        · intro j hj
          rw [l1 j (by rw [h2]; exact hj)]
          exact h6 j hj
        · intro j hj
          rw [l2 j (by rw [h3]; exact hj)]
          exact h7 j hj)
      args s0
      ⟨e1, e2, e3, e4, fun j _ => by rw [e5], fun j _ => by rw [e6],
        fun j _ => by rw [e7]⟩
    exact ⟨h.2.2.2.2.1, h.2.2.2.2.2.1, h.2.2.2.2.2.2⟩
  refine ⟨key st rfl rfl rfl rfl rfl rfl rfl, ?_, ?_⟩
  · exact key { st with origin0 := 0, origin1 := 0, origin2 := 0 } rfl rfl rfl rfl rfl rfl
      rfl
  · intro op hop
    exact (Op.apply_elements L dom op st).2.2 hop

/-! ### Header -/

/-- When the header loop returns without a fatal error, either the stream has
run out, and `line` is empty, or a line without header keyword has ended the
loop, `line` is that line and the checks on the counts have passed. -/
theorem header_loop_ok {α : Type} (fp : List (List Char)) (r r1 : Reader α)
    (h : header_loop fp r = .ok r1) :
    (r1.line = [] ∧ r1.fp = []) ∨
      (r1.line ≠ [] ∧ r1.rs.npoint_new ≠ 0 ∧
        (r1.rs.dimension = 2 → r1.rs.nline_new ≠ 0) ∧
        (r1.rs.dimension = 3 → r1.rs.ntri_new ≠ 0)) := by
  induction fp generalizing r with
  | nil =>
    rw [header_loop] at h
    cases h
    exact Or.inl ⟨rfl, rfl⟩
  | cons l fp ih =>
    rw [header_loop] at h
    split_ifs at h with hb hp hl h3 ht h2
    · exact ih _ h
    · exact ih _ h
    · exact ih _ h
    · exact ih _ h
    · right
      unfold header_checks at h
      split_ifs at h with c1 c2 c3
      cases h
      refine ⟨?_, c1, ?_, ?_⟩
      · intro hnil
        apply hb
        show blank (strip_comment (cstr l)) = true
        have : strip_comment (cstr l) = [] := hnil
        rw [this]
        rfl
      · intro hd hz
        exact c2 ⟨hd, hz⟩
      · intro hd hz
        exact c3 ⟨hd, hz⟩

/-- C14 as amended: when `header` returns without a fatal error and has a
pending line (it stopped at a line without header keyword), a points count was
found (`npoint_new ≠ 0`) and the count that the dimension needs is nonzero
(`nline_new` in 2-D, `ntri_new` in 3-D).  When the stream ends during the header,
`header` returns with an empty pending line and has made no check; the Points
keyword is then empty and the call is fatal there. -/
theorem header_counts_checked {α : Type} [Zero α] (L : Libm α) (r r1 : Reader α)
    (h : header r = .ok r1) :
    (r1.line ≠ [] →
      r1.rs.npoint_new ≠ 0 ∧ (r1.rs.dimension = 2 → r1.rs.nline_new ≠ 0) ∧
        (r1.rs.dimension = 3 → r1.rs.ntri_new ≠ 0)) ∧
    (r1.line = [] →
      r1.fp = [] ∧ (parse_keyword true r1).keyword = [] ∧
        read_sections L r1 =
          some (.fatal "Surf file cannot parse Points section" (parse_keyword true r1))) := by
  unfold header at h
  cases hf : fgets r.fp with
  | none =>
    rw [hf] at h
    cases h
  | some p =>
    obtain ⟨title, fp1⟩ := p
    rw [hf] at h
    simp only [] at h
    rcases header_loop_ok fp1 _ r1 h with ⟨h1, h2⟩ | ⟨h1, h2⟩
    · refine ⟨fun hne => absurd h1 hne, fun _ => ?_⟩
      have hk : (parse_keyword true r1).keyword = [] := by
        simp [parse_keyword, h1, h2, skip_blank_lines, fgets, blank]
      refine ⟨h2, hk, ?_⟩
      unfold read_sections
      rw [if_pos]
      rw [hk]
      decide
    · exact ⟨fun _ => h2, fun he => absurd he h1⟩

/-- The witness of C14 as amended: the header `3 points`, `2 lines` followed by
the line `Points` returns with the pending line `Points` and nonzero counts. -/
theorem header_counts_checked_witness :
    (header (Reader.start 2 1 emptyStore
        ["title\n".toList, "3 points\n".toList, "2 lines\n".toList,
         "Points\n".toList])).state.rs.npoint_new ≠ 0 ∧
      ((header (Reader.start 2 1 emptyStore
        ["title\n".toList, "3 points\n".toList, "2 lines\n".toList,
         "Points\n".toList])).state.rs.dimension = 2 →
       (header (Reader.start 2 1 emptyStore
        ["title\n".toList, "3 points\n".toList, "2 lines\n".toList,
         "Points\n".toList])).state.rs.nline_new ≠ 0) ∧
      ((header (Reader.start 2 1 emptyStore
        ["title\n".toList, "3 points\n".toList, "2 lines\n".toList,
         "Points\n".toList])).state.rs.dimension = 3 →
       (header (Reader.start 2 1 emptyStore
        ["title\n".toList, "3 points\n".toList, "2 lines\n".toList,
         "Points\n".toList])).state.rs.ntri_new ≠ 0) :=
  (header_counts_checked sampleLibm
    (Reader.start 2 1 emptyStore
      ["title\n".toList, "3 points\n".toList, "2 lines\n".toList, "Points\n".toList])
    (header (Reader.start 2 1 emptyStore
      ["title\n".toList, "3 points\n".toList, "2 lines\n".toList,
       "Points\n".toList])).state
    rfl).1 (by decide)

/-- The counterexample to C14: on a file that ends after its title line,
`header` returns without a fatal error and with `npoint_new = 0` and
`nline_new = 0`. -/
theorem header_eof_counterexample :
    ∃ r1, header (Reader.start 2 1 emptyStore ["title\n".toList]) = .ok r1 ∧
      r1.rs.npoint_new = 0 ∧ r1.rs.nline_new = 0 ∧ r1.rs.dimension = 2 :=
  ⟨_, rfl, rfl, rfl, rfl⟩

/-- A header line with a keyword that the dimension forbids, not shadowed by a
keyword tested before it, is fatal once the loop reaches it. -/
theorem header_loop_forbidden {α : Type} (pre : List (List Char)) (l : List Char)
    (post : List (List Char)) (r : Reader α) (hpre : ∀ x ∈ pre, HeaderLine x)
    (hb : blank (strip_comment (cstr l)) = false)
    (hp : strstr (strip_comment (cstr l)) "points".toList = false)
    (hbad : (r.rs.dimension = 3 ∧ strstr (strip_comment (cstr l)) "lines".toList = true) ∨
      (r.rs.dimension = 2 ∧ strstr (strip_comment (cstr l)) "lines".toList = false ∧
        strstr (strip_comment (cstr l)) "tris".toList = true)) :
    ∃ msg s, header_loop (pre ++ l :: post) r = .fatal msg s := by
  induction pre generalizing r with
  | nil =>
    rw [List.nil_append, header_loop]
    rcases hbad with ⟨hd, hl⟩ | ⟨hd, hl, ht⟩
    · simp only [hb, hp, hl, hd]
      exact ⟨_, _, rfl⟩
    · simp only [hb, hp, hl, ht, hd]
      exact ⟨_, _, rfl⟩
  | cons x pre ih =>
    have hx : HeaderLine x := hpre x (List.mem_cons_self _ _)
    have hrest : ∀ y ∈ pre, HeaderLine y := fun y hy => hpre y (List.mem_cons_of_mem _ hy)
    rw [List.cons_append, header_loop]
    split_ifs with c1 c2 c3 c4 c5 c6
    · exact ih _ hrest hbad
    · exact ih _ hrest hbad
    · exact ⟨_, _, rfl⟩
    · exact ih _ hrest hbad
    · exact ⟨_, _, rfl⟩
    · exact ih _ hrest hbad
    · exfalso
      rcases hx with h | h | h | h
      · exact c1 h
      · exact c2 h
      · exact c3 h
      · exact c5 h

/-- C15 as amended: in 3-D every header line that, once its comment is cut
off, is not blank, holds `lines` and does not hold `points` makes `header`
fatal; in 2-D every such line that holds `tris` and holds neither `points` nor
`lines` makes it fatal.  The header lines before it are blank lines, comment
lines or lines with a header keyword. -/
theorem header_forbidden_keyword {α : Type} (r : Reader α) (title : List Char)
    (pre : List (List Char)) (l : List Char) (post : List (List Char))
    (hfp : r.fp = title :: (pre ++ l :: post)) (hpre : ∀ x ∈ pre, HeaderLine x)
    (hb : blank (strip_comment (cstr l)) = false)
    (hp : strstr (strip_comment (cstr l)) "points".toList = false) :
    (r.rs.dimension = 3 → strstr (strip_comment (cstr l)) "lines".toList = true →
      ∃ msg s, header r = .fatal msg s) ∧
    (r.rs.dimension = 2 → strstr (strip_comment (cstr l)) "lines".toList = false →
      strstr (strip_comment (cstr l)) "tris".toList = true →
      ∃ msg s, header r = .fatal msg s) := by
  refine ⟨?_, ?_⟩
  · intro hd hl
    unfold header
    rw [hfp]
    exact header_loop_forbidden pre l post _ hpre hb hp (Or.inl ⟨hd, hl⟩)
  · intro hd hl ht
    unfold header
    rw [hfp]
    exact header_loop_forbidden pre l post _ hpre hb hp (Or.inr ⟨hd, hl, ht⟩)

/-- The witness of C15 as amended: in 3-D the header line `2 lines` after
`3 points` is fatal. -/
theorem header_forbidden_keyword_witness :
    ∃ msg s, header (Reader.start 3 1 emptyStore
      ["title\n".toList, "3 points\n".toList, "2 lines\n".toList,
       "Points\n".toList]) = .fatal msg s :=
  (header_forbidden_keyword
    (Reader.start 3 1 emptyStore
      ["title\n".toList, "3 points\n".toList, "2 lines\n".toList, "Points\n".toList])
    "title\n".toList ["3 points\n".toList] "2 lines\n".toList ["Points\n".toList] rfl
    (by
      intro x hx
      rw [List.mem_singleton] at hx
      subst hx
      exact Or.inr (Or.inl (by decide)))
    (by decide) (by decide)).1 rfl (by decide)

/-- The counterexample to C15: in 3-D the header line `8 points on lines` holds
`lines` and is not fatal: `header` returns with 8 points and 4 triangles. -/
theorem header_lines_3d_counterexample :
    strstr (strip_comment (cstr "8 points on lines\n".toList)) "lines".toList = true ∧
      blank (strip_comment (cstr "8 points on lines\n".toList)) = false ∧
      ∃ r1, header (Reader.start 3 1 emptyStore
          ["title\n".toList, "8 points on lines\n".toList, "4 tris\n".toList,
           "Points\n".toList]) = .ok r1 ∧
        r1.rs.npoint_new = 8 ∧ r1.rs.ntri_new = 4 ∧ r1.rs.dimension = 3 :=
  ⟨by decide, by decide, _, rfl, rfl, rfl, rfl⟩

/-! ### Section keywords -/

/-- At the end of the stream `parse_keyword` gives the empty keyword. -/
theorem parse_keyword_eof {α : Type} (first : Bool) (r : Reader α) (h : r.fp = []) :
    (parse_keyword first r).keyword = [] := by
  unfold parse_keyword
  cases first with
  | true =>
    have hs : (skip_blank_lines r.line r.fp).2.2 = [] := by
      rw [h]
      rfl
    simp only [if_true, Bool.false_eq_true, if_false, hs, fgets]
  | false =>
    simp only [Bool.false_eq_true, if_false, h, fgets, if_true]

/-! ### Words of a line -/

theorem cstr_nil : cstr [] = [] := rfl

theorem cstr_cons (c : Char) (cs : List Char) :
    cstr (c :: cs) = if c = NUL then [] else c :: cstr cs := by
  unfold cstr
  by_cases h : c = NUL
  · simp [h]
  · simp [h]

/-- A delimiter is not the NUL character. -/
theorem isDelim_ne_NUL (c : Char) (h : isDelim c = true) : c ≠ NUL := by
  intro hc
  subst hc
  exact absurd h (by decide)

theorem length_dropWhile_le_self {β : Type} (p : β → Bool) (l : List β) :
    (l.dropWhile p).length ≤ l.length :=
  (List.dropWhile_suffix p).length_le

/-- Cutting at the first `#` keeps the characters of the string before it. -/
theorem strip_comment_eq (l : List Char) :
    strip_comment l = (cstr l).takeWhile (fun c => c != '#') := by
  unfold strip_comment
  induction l with
  | nil => rfl
  | cons x xs ih =>
    rw [strchr, cstr_cons]
    by_cases h0 : x = NUL
    · simp [h0, cstr_cons]
    · rw [if_neg h0, if_neg h0]
      by_cases h1 : x = '#'
      · simp [h1]
      · rw [if_neg h1]
        have hx : (x != '#') = true := by simpa using h1
        rw [List.takeWhile_cons, hx]
        cases hs : strchr xs '#' with
        | none =>
          rw [hs] at ih
          simp only [] at ih
          simp only [Option.map_none', if_true, cstr_cons, if_neg h0]
          exact congrArg _ ih
        | some k =>
          rw [hs] at ih
          simp only [] at ih
          simp only [Option.map_some', List.take_succ_cons, if_true]
          rw [ih]

/-- Leading delimiters do not count. -/
theorem wordRuns_dropWhile_delim (rest : List Char) :
    wordRuns false (cstr (rest.dropWhile isDelim)) = wordRuns false (cstr rest) := by
  induction rest with
  | nil => rfl
  | cons c cs ih =>
    by_cases hc : isDelim c = true
    · rw [List.dropWhile_cons, if_pos hc, ih, cstr_cons, if_neg (isDelim_ne_NUL c hc),
        wordRuns, if_pos hc]
    · rw [List.dropWhile_cons, if_neg hc]

/-- Inside a word, the rest of the word does not count. -/
theorem wordRuns_dropWhile_word (l : List Char) :
    wordRuns true (cstr (l.dropWhile (fun x => !isDelim x && x != NUL))) =
      wordRuns true (cstr l) := by
  induction l with
  | nil => rfl
  | cons c cs ih =>
    by_cases hc : (!isDelim c && c != NUL) = true
    · rw [List.dropWhile_cons, if_pos hc, ih]
      simp only [Bool.and_eq_true, Bool.not_eq_true', bne_iff_ne, ne_eq] at hc
      rw [cstr_cons, if_neg hc.2, wordRuns]
      simp [hc.1]
    · rw [List.dropWhile_cons, if_neg hc]

/-- The tokens that `strtok` delivers are the maximal runs of non-delimiter
characters of the string. -/
theorem count_tokens_eq (fuel : Nat) (done rest : List Char)
    (h : rest.length < fuel) :
    count_tokens fuel done rest = wordRuns false (cstr rest) := by
  induction fuel generalizing done rest with
  | zero => omega
  | succ fuel ih =>
    rw [count_tokens, ← wordRuns_dropWhile_delim rest]
    have hlen := length_dropWhile_le_self isDelim rest
    unfold strtok
    cases hs : rest.dropWhile isDelim with
    | nil => rfl
    | cons c s1 =>
      rw [hs] at hlen
      simp only [List.length_cons] at hlen
      simp only []
      by_cases h0 : c = NUL
      · simp only [if_pos h0]
        rw [cstr_cons, if_pos h0]
        rfl
      · simp only [if_neg h0]
        have hcd : isDelim c = false := by
          have := List.head_dropWhile_not isDelim rest (by rw [hs]; simp)
          simpa [hs] using this
        have hpc : (!isDelim c && c != NUL) = true := by
          simp [hcd, h0]
        have hd : (c :: s1).dropWhile (fun x => !isDelim x && x != NUL) =
            s1.dropWhile (fun x => !isDelim x && x != NUL) := by
          rw [List.dropWhile_cons, if_pos hpc]
        have hw : wordRuns false (cstr (c :: s1)) =
            1 + wordRuns true
              (cstr (s1.dropWhile (fun x => !isDelim x && x != NUL))) := by
          rw [wordRuns_dropWhile_word, cstr_cons, if_neg h0, wordRuns]
          simp [hcd]
        rw [hw, hd]
        have hlen2 := length_dropWhile_le_self (fun x => !isDelim x && x != NUL) s1
        cases hs2 : s1.dropWhile (fun x => !isDelim x && x != NUL) with
        | nil =>
          simp only []
          rw [ih _ _ (by simp only [List.length_nil]; omega)]
          rfl
        | cons d s3 =>
          rw [hs2] at hlen2
          simp only [List.length_cons] at hlen2
          have hdd : isDelim d = true ∨ d = NUL := by
            have := List.head_dropWhile_not (fun x => !isDelim x && x != NUL) s1
              (by rw [hs2]; simp)
            simp only [hs2, List.head_cons] at this
            by_cases hx : d = NUL
            · exact Or.inr hx
            · left
              by_contra hc
              simp [hc, hx] at this
          by_cases hd0 : d = NUL
          · simp only [if_pos hd0]
            rw [ih _ _ (by simp only [List.length_cons]; omega), cstr_cons, if_pos hd0]
            rfl
          · simp only [if_neg hd0]
            rw [ih _ _ (by omega)]
            rcases hdd with hdd | hdd
            · rw [cstr_cons, if_neg hd0, wordRuns, if_pos hdd]
            · exact absurd hdd hd0

/-- A string cut out of a C string holds no NUL. -/
theorem cstr_takeWhile_cstr (q : Char → Bool) (l : List Char) :
    cstr ((cstr l).takeWhile q) = (cstr l).takeWhile q := by
  unfold cstr
  rw [List.takeWhile_eq_self_iff]
  intro c hc
  have h1 : c ∈ l.takeWhile (fun c => c != NUL) :=
    (List.takeWhile_prefix q).sublist.subset hc
  exact @List.mem_takeWhile_imp Char (fun c => c != NUL) l c h1

/-- `count_words` counts the maximal runs of non-delimiter characters in the
part of the string before its first `#`. -/
theorem count_words_eq (s : List Char) :
    count_words s = wordRuns false ((cstr s).takeWhile (fun c => c != '#')) := by
  unfold count_words
  rw [count_tokens_eq _ _ _ (Nat.lt_succ_self _), strip_comment_eq, cstr_takeWhile_cstr]

/-- The record loop of `read_lines` raises no other error than the index
error. -/
theorem read_lines_records_fatal {α : Type} (i : Nat) (n : Int)
    (buf : Option (List Char)) (st st1 : ReadSurf α) (msg : String)
    (h : read_lines_records i n buf st = some (.fatal msg st1)) :
    msg = "Invalid point index in line" := by
  induction i generalizing n buf st with
  | zero =>
    rw [read_lines_records] at h
    cases h
  | succ i ih =>
    cases buf with
    | none =>
      rw [read_lines_records] at h
      cases h
    | some s =>
      rw [read_lines_records] at h
      cases ht : read_lines_tokens s with
      | none =>
        rw [ht] at h
        cases h
      | some p =>
        obtain ⟨p1, p2, b⟩ := p
        rw [ht] at h
        simp only [] at h
        cases hr : read_lines_record st n p1 p2 with
        | fatal m s1 =>
          rw [hr] at h
          simp only [Option.some.injEq, Outcome.fatal.injEq] at h
          unfold read_lines_record at hr
          split_ifs at hr
          simp only [Outcome.fatal.injEq] at hr
          rw [← h.1, ← hr.1]
        | ok s1 =>
          rw [hr] at h
          exact ih _ _ _ h

/-- The record loop of `read_tris` raises no other error than the index
error. -/
theorem read_tris_records_fatal {α : Type} (i : Nat) (n : Int)
    (buf : Option (List Char)) (st st1 : ReadSurf α) (msg : String)
    (h : read_tris_records i n buf st = some (.fatal msg st1)) :
    msg = "Invalid point index in triangle" := by
  induction i generalizing n buf st with
  | zero =>
    rw [read_tris_records] at h
    cases h
  | succ i ih =>
    cases buf with
    | none =>
      rw [read_tris_records] at h
      cases h
    | some s =>
      rw [read_tris_records] at h
      cases ht : read_tris_tokens s with
      | none =>
        rw [ht] at h
        cases h
      | some p =>
        obtain ⟨p1, p2, p3, b⟩ := p
        rw [ht] at h
        simp only [] at h
        cases hr : read_tris_record st n p1 p2 p3 with
        | fatal m s1 =>
          rw [hr] at h
          simp only [Option.some.injEq, Outcome.fatal.injEq] at h
          unfold read_tris_record at hr
          split_ifs at hr
          simp only [Outcome.fatal.injEq] at hr
          rw [← h.1, ← hr.1]
        | ok s1 =>
          rw [hr] at h
          exact ih _ _ _ h

/-- C20: the field count is checked on the first line of a buffer only.  For a
buffer whose first line ends at offset `k`, the buffer is rejected with the
format error of its section exactly when `count_words` of that line differs from
`1 + arity` (3 for 2-D points, 4 for 3-D points, 3 for lines, 4 for triangles);
`count_words s` is the number of maximal runs of non-delimiter characters in the
part of `s` before its first `#`; and two buffers with the same first line are
rejected alike, whatever their other records hold. -/
theorem field_count_first_record {α : Type} [Zero α] (L : Libm α) (rs : ReadSurf α)
    (n : Int) (nchunk : Nat) (buffer : List Char) (k : Nat)
    (hk : strchr buffer '\n' = some k) :
    ((∃ st, read_points_chunk L rs n nchunk buffer =
          some (.fatal "Incorrect point format in surf file" st)) ↔
        ((rs.dimension = 2 ∧ count_words (buffer.take k) ≠ 3) ∨
          (rs.dimension = 3 ∧ count_words (buffer.take k) ≠ 4))) ∧
    ((∃ st, read_lines_chunk rs n nchunk buffer =
          some (.fatal "Incorrect line format in surf file" st)) ↔
        count_words (buffer.take k) ≠ 3) ∧
    ((∃ st, read_tris_chunk rs n nchunk buffer =
          some (.fatal "Incorrect triangle format in surf file" st)) ↔
        count_words (buffer.take k) ≠ 4) ∧
    (∀ s, count_words s = wordRuns false ((cstr s).takeWhile (fun c => c != '#'))) ∧
    (∀ (nchunk2 : Nat) (buffer2 : List Char), strchr buffer2 '\n' = some k →
      buffer2.take k = buffer.take k →
      ((∃ st, read_points_chunk L rs n nchunk2 buffer2 =
            some (.fatal "Incorrect point format in surf file" st)) ↔
          (∃ st, read_points_chunk L rs n nchunk buffer =
            some (.fatal "Incorrect point format in surf file" st))) ∧
      ((∃ st, read_lines_chunk rs n nchunk2 buffer2 =
            some (.fatal "Incorrect line format in surf file" st)) ↔
          (∃ st, read_lines_chunk rs n nchunk buffer =
            some (.fatal "Incorrect line format in surf file" st))) ∧
      ((∃ st, read_tris_chunk rs n nchunk2 buffer2 =
            some (.fatal "Incorrect triangle format in surf file" st)) ↔
          (∃ st, read_tris_chunk rs n nchunk buffer =
            some (.fatal "Incorrect triangle format in surf file" st)))) := by
  have hpoints : ∀ (m : Nat) (b : List Char), strchr b '\n' = some k →
      ((∃ st, read_points_chunk L rs n m b =
          some (.fatal "Incorrect point format in surf file" st)) ↔
        ((rs.dimension = 2 ∧ count_words (b.take k) ≠ 3) ∨
          (rs.dimension = 3 ∧ count_words (b.take k) ≠ 4))) := by
    intro m b hb
    unfold read_points_chunk
    rw [hb]
    simp only []
    constructor
    · rintro ⟨st, h⟩
      split_ifs at h with c1 c2
      · exact Or.inl c1
      · exact Or.inr c2
      · cases hr : read_points_records L rs.dimension m n (some b) rs.pts with
        | none =>
          rw [hr] at h
          cases h
        | some pts =>
          rw [hr] at h
          cases h
    · rintro (c1 | c2)
      · exact ⟨rs, by rw [if_pos c1]⟩
      · by_cases c1 : rs.dimension = 2 ∧ count_words (b.take k) ≠ 3
        · exact ⟨rs, by rw [if_pos c1]⟩
        · exact ⟨rs, by rw [if_neg c1, if_pos c2]⟩
  have hlines : ∀ (m : Nat) (b : List Char), strchr b '\n' = some k →
      ((∃ st, read_lines_chunk rs n m b =
          some (.fatal "Incorrect line format in surf file" st)) ↔
        count_words (b.take k) ≠ 3) := by
    intro m b hb
    unfold read_lines_chunk
    rw [hb]
    simp only []
    constructor
    · rintro ⟨st, h⟩
      by_contra hc
      rw [if_neg (not_not.mpr hc)] at h
      have := read_lines_records_fatal _ _ _ _ _ _ h
      exact absurd this (by decide)
    · intro c1
      exact ⟨rs, by rw [if_pos c1]⟩
  have htris : ∀ (m : Nat) (b : List Char), strchr b '\n' = some k →
      ((∃ st, read_tris_chunk rs n m b =
          some (.fatal "Incorrect triangle format in surf file" st)) ↔
        count_words (b.take k) ≠ 4) := by
    intro m b hb
    unfold read_tris_chunk
    rw [hb]
    simp only []
    constructor
    · rintro ⟨st, h⟩
      by_contra hc
      rw [if_neg (not_not.mpr hc)] at h
      have := read_tris_records_fatal _ _ _ _ _ _ h
      exact absurd this (by decide)
    · intro c1
      exact ⟨rs, by rw [if_pos c1]⟩
  refine ⟨hpoints nchunk buffer hk, hlines nchunk buffer hk, htris nchunk buffer hk,
    count_words_eq, ?_⟩
  intro m b hb he
  refine ⟨?_, ?_, ?_⟩
  · rw [hpoints m b hb, hpoints nchunk buffer hk, he]
  · rw [hlines m b hb, hlines nchunk buffer hk, he]
  · rw [htris m b hb, htris nchunk buffer hk, he]

/-- The witness of C20: in 2-D the buffer of the lines `1 0` and `2 0 0` is
rejected, its first line having two words. -/
theorem field_count_first_record_witness :
    ∃ st, read_points_chunk sampleLibm lineBatch 0 2 "1 0\n2 0 0\n".toList =
      some (.fatal "Incorrect point format in surf file" st) :=
  (field_count_first_record sampleLibm lineBatch 0 2 "1 0\n2 0 0\n".toList 3
    (by decide)).1.mpr (Or.inl ⟨rfl, by decide⟩)

/-! ### The batch loop -/

/-- The loop of a section handles the batches of `batch_sizes` in order. -/
theorem read_section_eq_run_batches {α : Type}
    (chunk : ReadSurf α → Int → Nat → List Char → Option (Outcome (ReadSurf α)))
    (total nread n : Int) (r : Reader α) :
    read_section chunk total nread n r =
      run_batches chunk (batch_sizes total nread) n r := by
  obtain ⟨m, hm⟩ : ∃ m, (total - nread).toNat = m := ⟨_, rfl⟩
  induction m using Nat.strong_induction_on generalizing nread n r with
  | _ m ih =>
    rw [read_section, batch_sizes]
    by_cases h : nread < total
    · rw [if_pos h, if_pos h, run_batches]
      cases hc : read_chunk (if total - nread > CHUNK then CHUNK else total - nread).toNat
          r.fp with
      | none => rfl
      | some p =>
        obtain ⟨buffer, fp1⟩ := p
        simp only []
        cases hk : chunk r.rs n
            (if total - nread > CHUNK then CHUNK else total - nread).toNat buffer with
        | none => rfl
        | some o =>
          cases o with
          | fatal msg rs1 => rfl
          | ok rs1 =>
            simp only []
            refine ih _ ?_ _ _ _ rfl
            rw [← hm]
            simp only [CHUNK]
            split <;> omega
    · rw [if_neg h, if_neg h, run_batches]

/-- The batches of a section: each holds between 1 and 1024 records, each but
the last holds 1024, and together they hold the records still to be read. -/
theorem batch_sizes_spec (total nread : Int) :
    (∀ c ∈ batch_sizes total nread, 1 ≤ c ∧ c ≤ 1024) ∧
    (∀ c ∈ (batch_sizes total nread).dropLast, c = 1024) ∧
    (batch_sizes total nread).sum = max (total - nread) 0 := by
  obtain ⟨m, hm⟩ : ∃ m, (total - nread).toNat = m := ⟨_, rfl⟩
  induction m using Nat.strong_induction_on generalizing nread with
  | _ m ih =>
    rw [batch_sizes]
    by_cases h : nread < total
    · rw [if_pos h]
      by_cases hbig : total - nread > CHUNK
      · rw [if_pos hbig]
        have hlt : (total - (nread + CHUNK)).toNat < m := by
          rw [← hm]
          simp only [CHUNK] at hbig ⊢
          omega
        obtain ⟨h1, h2, h3⟩ := ih _ hlt (nread + CHUNK) rfl
        have hne : batch_sizes total (nread + CHUNK) ≠ [] := by
          rw [batch_sizes, if_pos (by simp only [CHUNK] at hbig ⊢; omega)]
          exact List.cons_ne_nil _ _
        refine ⟨?_, ?_, ?_⟩
        · intro c hc
          rcases List.mem_cons.mp hc with hc | hc
          · subst hc
            simp [CHUNK]
          · exact h1 c hc
        · intro c hc
          rw [List.dropLast_cons_of_ne_nil hne] at hc
          rcases List.mem_cons.mp hc with hc | hc
          · subst hc
            rfl
          · exact h2 c hc
        · rw [List.sum_cons, h3]
          simp only [CHUNK] at hbig ⊢
          omega
      · rw [if_neg hbig]
        have hend : batch_sizes total (nread + (total - nread)) = [] := by
          rw [batch_sizes, if_neg (by omega)]
        rw [hend]
        refine ⟨?_, ?_, ?_⟩
        · intro c hc
          rw [List.mem_singleton] at hc
          subst hc
          simp only [CHUNK] at hbig
          omega
        · intro c hc
          simp at hc
        · simp only [List.sum_cons, List.sum_nil]
          omega
    · rw [if_neg h]
      refine ⟨?_, ?_, ?_⟩
      · intro c hc
        simp at hc
      · intro c hc
        simp at hc
      · simp only [List.sum_nil]
        omega

/-! ### Well-formed data lines -/

theorem Blanks.isDelim {ws : List Char} (h : Blanks ws) :
    ∀ c ∈ ws, isDelim c = true := by
  intro c hc
  rcases h c hc with h | h | h | h <;> subst h <;> decide

theorem Blanks.plain {ws : List Char} (h : Blanks ws) :
    ∀ c ∈ ws, c ≠ NUL ∧ c ≠ '\n' ∧ c ≠ '#' := by
  intro c hc
  rcases h c hc with h | h | h | h <;> subst h <;> decide

theorem Word.plain_word {t : List Char} (h : Word t) :
    ∀ c ∈ t, c ≠ NUL ∧ c ≠ '\n' ∧ c ≠ '#' := by
  intro c hc
  obtain ⟨h1, h2, h3⟩ := h.2 c hc
  refine ⟨h2, ?_, h3⟩
  intro hn
  subst hn
  exact absurd h1 (by decide)

/-- `strtok` on blanks, a word and a delimiter: the word is the token, a NUL
replaces the delimiter and the scan will go on behind it. -/
theorem strtok_word (done g t : List Char) (d : Char) (rest : List Char)
    (hg : ∀ c ∈ g, isDelim c = true) (ht : Word t) (hd : isDelim d = true) :
    strtok done (g ++ (t ++ d :: rest)) = (some t, done ++ g ++ t ++ [NUL], rest) := by
  obtain ⟨hne, hw⟩ := ht
  obtain ⟨c, t1, rfl⟩ := List.exists_cons_of_ne_nil hne
  have hc := hw c (List.mem_cons_self _ _)
  have hcd : ¬ (isDelim c = true) := by simp [hc.1]
  have hp : ∀ x ∈ c :: t1, (fun x => !isDelim x && x != NUL) x = true := by
    intro x hx
    obtain ⟨h1, h2, -⟩ := hw x hx
    simp [h1, h2]
  have hpd : ¬ ((fun x => !isDelim x && x != NUL) d = true) := by simp [hd]
  have hdrop : (g ++ (c :: t1 ++ d :: rest)).dropWhile isDelim = c :: (t1 ++ d :: rest) := by
    rw [List.dropWhile_append_of_pos hg, List.cons_append, List.dropWhile_cons_of_neg hcd]
  have htake : (g ++ (c :: t1 ++ d :: rest)).takeWhile isDelim = g := by
    rw [List.takeWhile_append_of_pos hg, List.cons_append, List.takeWhile_cons_of_neg hcd,
      List.append_nil]
  have hdrop2 : (c :: (t1 ++ d :: rest)).dropWhile (fun x => !isDelim x && x != NUL) =
      d :: rest := by
    rw [← List.cons_append, List.dropWhile_append_of_pos hp]
    simp only [List.dropWhile_cons, hd, Bool.not_true, Bool.false_and, Bool.false_eq_true,
      if_false]
  have htake2 : (c :: (t1 ++ d :: rest)).takeWhile (fun x => !isDelim x && x != NUL) =
      c :: t1 := by
    rw [← List.cons_append, List.takeWhile_append_of_pos hp]
    simp only [List.takeWhile_cons, hd, Bool.not_true, Bool.false_and, Bool.false_eq_true,
      if_false, List.append_nil]
  unfold strtok
  rw [hdrop]
  simp only [if_neg hc.2.1]
  rw [hdrop2, htake, htake2]
  simp only [if_neg (isDelim_ne_NUL d hd)]

/-- `strchr` finds the first newline behind characters that are neither
newline nor NUL. -/
theorem strchr_newline (pre rest : List Char) (h : ∀ c ∈ pre, c ≠ NUL ∧ c ≠ '\n') :
    strchr (pre ++ '\n' :: rest) '\n' = some pre.length := by
  induction pre with
  | nil =>
    rw [List.nil_append, strchr, if_neg (by decide), if_pos rfl]
    rfl
  | cons c cs ih =>
    have hc := h c (List.mem_cons_self _ _)
    rw [List.cons_append, strchr, if_neg hc.1, if_neg hc.2,
      ih (fun x hx => h x (List.mem_cons_of_mem _ hx))]
    rfl

/-- The characters of a well-formed data line before its newline are neither
NUL nor newline nor `#`. -/
theorem Record3.body_plain (r : Record3) (h : r.WellFormed) :
    ∀ c ∈ r.body, c ≠ NUL ∧ c ≠ '\n' ∧ c ≠ '#' := by
  obtain ⟨h1, h2, h3, -, h5, h6, -, h8, h9⟩ := h
  intro c hc
  simp only [Record3.body, List.mem_append] at hc
  rcases hc with hc | hc | hc | hc | hc | hc | hc
  · exact h1.plain c hc
  · exact h2.plain_word c hc
  · exact h3.plain c hc
  · exact h5.plain_word c hc
  · exact h6.plain c hc
  · exact h8.plain_word c hc
  · exact h9.plain c hc

/-- The three calls of `strtok` on a well-formed data line deliver its fields,
and the pointer `next + 1` is the buffer behind the line. -/
theorem Record3.tokens (r : Record3) (h : r.WellFormed) (tail : List Char) :
    ∃ done rest,
      strtok (strtok [] (r.text ++ tail)).2.1 (strtok [] (r.text ++ tail)).2.2 =
        (some r.f1, done, rest) ∧
      ∃ done2 rest2, strtok done rest = (some r.f2, done2, rest2) ∧
        (strchr (r.text ++ tail) '\n').map (fun k => (done2 ++ rest2).drop (k + 1)) =
          some tail := by
  have hplain := r.body_plain h
  obtain ⟨h1, h2, h3, h4, h5, h6, h7, h8, h9⟩ := h
  obtain ⟨d1, s1, hs1⟩ := List.exists_cons_of_ne_nil h4
  obtain ⟨d2, s2, hs2⟩ := List.exists_cons_of_ne_nil h7
  have hd1 : isDelim d1 = true := h3.isDelim d1 (by rw [hs1]; exact List.mem_cons_self _ _)
  have hd2 : isDelim d2 = true := h6.isDelim d2 (by rw [hs2]; exact List.mem_cons_self _ _)
  have hs1d : ∀ c ∈ s1, isDelim c = true := fun c hc =>
    h3.isDelim c (by rw [hs1]; exact List.mem_cons_of_mem _ hc)
  have hs2d : ∀ c ∈ s2, isDelim c = true := fun c hc =>
    h6.isDelim c (by rw [hs2]; exact List.mem_cons_of_mem _ hc)
  obtain ⟨d3, e3, he3, hd3⟩ : ∃ d3 e3, r.trail ++ ['\n'] = d3 :: e3 ∧
      isDelim d3 = true := by
    cases ht : r.trail with
    | nil => exact ⟨'\n', [], rfl, by decide⟩
    | cons c cs =>
      exact ⟨c, cs ++ ['\n'], rfl, h9.isDelim c (by rw [ht]; exact List.mem_cons_self _ _)⟩
  have htext : r.text ++ tail =
      r.lead ++ (r.f0 ++ d1 :: (s1 ++ (r.f1 ++ d2 :: (s2 ++ (r.f2 ++ d3 :: (e3 ++ tail)))))) := by
    have : r.trail ++ '\n' :: tail = d3 :: (e3 ++ tail) := by
      rw [← List.cons_append, ← he3, List.append_assoc, List.singleton_append]
    simp only [Record3.text, Record3.body, hs1, hs2, List.append_assoc, List.cons_append,
      List.nil_append, List.singleton_append, this]
  have hk : strchr (r.text ++ tail) '\n' = some r.body.length := by
    rw [Record3.text, List.append_assoc, List.singleton_append]
    exact strchr_newline r.body tail (fun c hc => ⟨(hplain c hc).1, (hplain c hc).2.1⟩)
  rw [hk, htext, strtok_word [] r.lead r.f0 d1 _ (h1.isDelim) h2 hd1]
  simp only []
  rw [strtok_word _ s1 r.f1 d2 _ hs1d h5 hd2]
  refine ⟨_, _, rfl, ?_⟩
  rw [strtok_word _ s2 r.f2 d3 _ hs2d h8 hd3]
  refine ⟨_, _, rfl, ?_⟩
  simp only [Option.map_some', Option.some.injEq]
  rw [← List.append_assoc]
  apply List.drop_left'
  have hl := congrArg List.length he3
  simp only [List.length_append, List.length_cons, Record3.body, hs1, hs2,
    List.length_nil, List.length_singleton] at hl ⊢
  omega

theorem wordRuns_delims (b : Bool) (g x : List Char) (hg : ∀ c ∈ g, isDelim c = true)
    (hb : b = false ∨ g ≠ []) : wordRuns b (g ++ x) = wordRuns false x := by
  induction g generalizing b with
  | nil =>
    rcases hb with hb | hb
    · rw [hb, List.nil_append]
    · exact absurd rfl hb
  | cons d g ih =>
    rw [List.cons_append, wordRuns, if_pos (hg d (List.mem_cons_self _ _))]
    exact ih false (fun c hc => hg c (List.mem_cons_of_mem _ hc)) (Or.inl rfl)

theorem wordRuns_nondelims (t x : List Char) (ht : ∀ c ∈ t, isDelim c = false) :
    wordRuns true (t ++ x) = wordRuns true x := by
  induction t with
  | nil => rfl
  | cons c t ih =>
    have hc : ¬ (isDelim c = true) := by simp [ht c (List.mem_cons_self _ _)]
    rw [List.cons_append, wordRuns, if_neg hc, if_pos rfl, Nat.zero_add]
    exact ih (fun y hy => ht y (List.mem_cons_of_mem _ hy))

theorem wordRuns_word (t x : List Char) (ht : Word t) :
    wordRuns false (t ++ x) = 1 + wordRuns true x := by
  obtain ⟨hne, hw⟩ := ht
  obtain ⟨c, t1, rfl⟩ := List.exists_cons_of_ne_nil hne
  have hc : ¬ (isDelim c = true) := by simp [(hw c (List.mem_cons_self _ _)).1]
  rw [List.cons_append, wordRuns, if_neg hc, if_neg (by simp)]
  rw [wordRuns_nondelims t1 x (fun y hy => (hw y (List.mem_cons_of_mem _ hy)).1)]

theorem wordRuns_true_blanks (g : List Char) (hg : ∀ c ∈ g, isDelim c = true) :
    wordRuns true g = 0 := by
  cases g with
  | nil => rfl
  | cons d g =>
    have := wordRuns_delims true (d :: g) [] hg (Or.inr (List.cons_ne_nil _ _))
    rw [List.append_nil] at this
    rw [this]
    rfl

/-- A well-formed data line has three words. -/
theorem Record3.count_words_body (r : Record3) (h : r.WellFormed) :
    count_words r.body = 3 := by
  have hplain := r.body_plain h
  obtain ⟨h1, h2, h3, h4, h5, h6, h7, h8, h9⟩ := h
  have hc : cstr r.body = r.body := by
    unfold cstr
    rw [List.takeWhile_eq_self_iff]
    intro c hc
    simpa using (hplain c hc).1
  have hs : (r.body).takeWhile (fun c => c != '#') = r.body := by
    rw [List.takeWhile_eq_self_iff]
    intro c hc
    simpa using (hplain c hc).2.2
  rw [count_words_eq, hc, hs, Record3.body,
    wordRuns_delims false r.lead _ h1.isDelim (Or.inl rfl),
    wordRuns_word r.f0 _ h2,
    wordRuns_delims true r.sep1 _ h3.isDelim (Or.inr h4),
    wordRuns_word r.f1 _ h5,
    wordRuns_delims true r.sep2 _ h6.isDelim (Or.inr h7),
    wordRuns_word r.f2 _ h8,
    wordRuns_true_blanks r.trail h9.isDelim]

/-- The text of a well-formed data line holds no NUL. -/
theorem Record3.cstr_text (r : Record3) (h : r.WellFormed) : cstr r.text = r.text := by
  have hplain := r.body_plain h
  unfold cstr
  rw [List.takeWhile_eq_self_iff]
  intro c hc
  rw [Record3.text, List.mem_append, List.mem_singleton] at hc
  rcases hc with hc | hc
  · simpa using (hplain c hc).1
  · subst hc
    decide

/-- Reading as many strings as the list holds fills the buffer with them, when
none of them holds a NUL. -/
theorem read_chunk_texts (ls : List (List Char)) (fp : List (List Char))
    (h : ∀ l ∈ ls, cstr l = l) :
    read_chunk ls.length (ls ++ fp) = some (joinTexts ls, fp) := by
  induction ls with
  | nil => rfl
  | cons l ls ih =>
    rw [List.length_cons, List.cons_append, read_chunk, fgets]
    simp only []
    rw [ih (fun x hx => h x (List.mem_cons_of_mem _ hx)), h l (List.mem_cons_self _ _)]
    rfl

/-- The first line of a buffer that starts with a well-formed data line. -/
theorem joinTexts_first_line (r : Record3) (ls : List (List Char)) (h : r.WellFormed) :
    strchr (joinTexts (r.text :: ls)) '\n' = some r.body.length ∧
      (joinTexts (r.text :: ls)).take r.body.length = r.body := by
  have hplain := r.body_plain h
  constructor
  · rw [joinTexts, Record3.text, List.append_assoc, List.singleton_append]
    exact strchr_newline r.body _ (fun c hc => ⟨(hplain c hc).1, (hplain c hc).2.1⟩)
  · rw [joinTexts, Record3.text, List.append_assoc]
    exact List.take_left _ _

theorem storeAt_append {β : Type} (a b : List β) (n : Int) (arr : Int → β) :
    storeAt (a ++ b) n arr = storeAt b (n + a.length) (storeAt a n arr) := by
  induction a generalizing n arr with
  | nil =>
    simp [storeAt]
  | cons v a ih =>
    rw [List.cons_append, storeAt, ih, storeAt,
      show n + (((v :: a).length : Nat) : Int) = n + 1 + (a.length : Int) by
        simp only [List.length_cons]
        push_cast
        omega]

theorem storeAt_below {β : Type} (vs : List β) (n : Int) (arr : Int → β) (j : Int)
    (hj : j < n) : storeAt vs n arr j = arr j := by
  induction vs generalizing n arr with
  | nil => rfl
  | cons v vs ih =>
    rw [storeAt, ih _ _ (by omega), Function.update_noteq (by omega)]

theorem storeAt_above {β : Type} (vs : List β) (n : Int) (arr : Int → β) (j : Int)
    (hj : n + vs.length ≤ j) : storeAt vs n arr j = arr j := by
  induction vs generalizing n arr with
  | nil => rfl
  | cons v vs ih =>
    simp only [List.length_cons] at hj
    push_cast at hj
    rw [storeAt, ih _ _ (by omega), Function.update_noteq (by omega)]

/-- The `k`-th value is stored at index `n + k`. -/
theorem storeAt_get {β : Type} (vs : List β) (n : Int) (arr : Int → β) (k : Nat)
    (hk : k < vs.length) : storeAt vs n arr (n + k) = vs.get ⟨k, hk⟩ := by
  induction vs generalizing n arr k with
  | nil => simp at hk
  | cons v vs ih =>
    cases k with
    | zero =>
      rw [storeAt, storeAt_below _ _ _ _ (by push_cast; omega)]
      show Function.update arr n v (n + 0) = v
      rw [Int.add_zero, Function.update_same]
    | succ k =>
      have := ih (n + 1) (Function.update arr n v) k (by simpa using hk)
      rw [storeAt]
      rw [show n + ((k + 1 : Nat) : Int) = n + 1 + (k : Int) by push_cast; omega, this]
      rfl

/-- One well-formed data line through the record body of `read_points`, not in
three dimensions. -/
theorem read_points_record_wf {α : Type} [Zero α] (L : Libm α) (dimension : Int)
    (hd : dimension ≠ 3) (r : Record3) (h : r.WellFormed) (tail : List Char) :
    read_points_record L dimension (r.text ++ tail) = some (r.point L, some tail) := by
  obtain ⟨done, rest, h1, done2, rest2, h2, h3⟩ := r.tokens h tail
  unfold read_points_record
  rw [h1]
  simp only []
  rw [h2]
  simp only [if_neg hd]
  rw [h3]
  rfl

/-- One well-formed data line through the tokens of `read_lines`. -/
theorem read_lines_tokens_wf (r : Record3) (h : r.WellFormed) (tail : List Char) :
    read_lines_tokens (r.text ++ tail) = some (atoi r.f1, atoi r.f2, some tail) := by
  obtain ⟨done, rest, h1, done2, rest2, h2, h3⟩ := r.tokens h tail
  unfold read_lines_tokens
  rw [h1]
  simp only []
  rw [h2]
  simp only []
  rw [h3]

/-- The record loop of `read_points` on well-formed data lines stores their
points at successive indices. -/
theorem read_points_records_wf {α : Type} [Zero α] (L : Libm α) (dimension : Int)
    (hd : dimension ≠ 3) (recs : List Record3) (h : ∀ r ∈ recs, r.WellFormed)
    (n : Int) (tail : List Char) (pts : Int → Point α) :
    read_points_records L dimension recs.length n (some (joinTexts (recs.map Record3.text) ++ tail)) pts =
      some (storeAt (recs.map (Record3.point L)) n pts) := by
  induction recs generalizing n pts with
  | nil => rfl
  | cons r rs ih =>
    rw [List.length_cons, List.map_cons, joinTexts, List.append_assoc, read_points_records,
      read_points_record_wf L dimension hd r (h r (List.mem_cons_self _ _))]
    simp only []
    rw [ih (fun x hx => h x (List.mem_cons_of_mem _ hx))]
    rfl

/-- The record loop of `read_lines` on well-formed data lines with valid indices
stores their line elements at successive indices. -/
theorem read_lines_records_wf {α : Type} (recs : List Record3) (st : ReadSurf α)
    (h : ∀ r ∈ recs, r.WellFormed) (hv : ∀ r ∈ recs, r.ValidLine st.npoint_new)
    (n : Int) (tail : List Char) :
    read_lines_records recs.length n (some (joinTexts (recs.map Record3.text) ++ tail)) st =
      some (.ok { st with lines := storeAt (recs.map (Record3.line st.id)) n st.lines }) := by
  induction recs generalizing n st with
  | nil => rfl
  | cons r rs ih =>
    obtain ⟨v1, v2, v3, v4, v5⟩ := hv r (List.mem_cons_self _ _)
    rw [List.length_cons, List.map_cons, joinTexts, List.append_assoc, read_lines_records,
      read_lines_tokens_wf r (h r (List.mem_cons_self _ _))]
    simp only []
    rw [read_lines_record, if_neg (by omega)]
    simp only []
    exact ih { st with lines := Function.update st.lines n ⟨st.id, atoi r.f1, atoi r.f2⟩ }
      (fun x hx => h x (List.mem_cons_of_mem _ hx))
      (fun x hx => hv x (List.mem_cons_of_mem _ hx)) (n + 1)

/-- One buffer of well-formed data lines through `read_points` in two
dimensions. -/
theorem read_points_chunk_wf {α : Type} [Zero α] (L : Libm α) (rs : ReadSurf α)
    (hd : rs.dimension = 2) (recs : List Record3) (hne : recs ≠ [])
    (h : ∀ r ∈ recs, r.WellFormed) (n : Int) :
    read_points_chunk L rs n recs.length (joinTexts (recs.map Record3.text)) =
      some (.ok { rs with pts := storeAt (recs.map (Record3.point L)) n rs.pts }) := by
  obtain ⟨r, rt, rfl⟩ := List.exists_cons_of_ne_nil hne
  obtain ⟨hk, htake⟩ := joinTexts_first_line r (rt.map Record3.text)
    (h r (List.mem_cons_self _ _))
  rw [← List.map_cons] at hk htake
  have hrec := read_points_records_wf L rs.dimension (by omega) (r :: rt) h n [] rs.pts
  rw [List.append_nil] at hrec
  unfold read_points_chunk
  rw [hk]
  simp only []
  rw [htake, r.count_words_body (h r (List.mem_cons_self _ _)), hrec]
  simp [hd]

/-- One buffer of well-formed data lines with valid indices through
`read_lines`. -/
theorem read_lines_chunk_wf {α : Type} (rs : ReadSurf α) (recs : List Record3)
    (hne : recs ≠ []) (h : ∀ r ∈ recs, r.WellFormed)
    (hv : ∀ r ∈ recs, r.ValidLine rs.npoint_new) (n : Int) :
    read_lines_chunk rs n recs.length (joinTexts (recs.map Record3.text)) =
      some (.ok { rs with lines := storeAt (recs.map (Record3.line rs.id)) n rs.lines }) := by
  obtain ⟨r, rt, rfl⟩ := List.exists_cons_of_ne_nil hne
  obtain ⟨hk, htake⟩ := joinTexts_first_line r (rt.map Record3.text)
    (h r (List.mem_cons_self _ _))
  rw [← List.map_cons] at hk htake
  have hrec := read_lines_records_wf (r :: rt) rs h hv n []
  rw [List.append_nil] at hrec
  unfold read_lines_chunk
  rw [hk]
  simp only []
  rw [htake, r.count_words_body (h r (List.mem_cons_self _ _)), hrec]
  simp

/-- The loop of a section on a stream that starts with as many data lines as are
still to be read, when each batch of such lines is stored by `step`: the lines
are stored by `step` as one run, and the stream is left after them. -/
theorem read_section_records {α ρ : Type} (text : ρ → List Char)
    (chunk : ReadSurf α → Int → Nat → List Char → Option (Outcome (ReadSurf α)))
    (step : ReadSurf α → Int → List ρ → ReadSurf α)
    (Good : ReadSurf α → ρ → Prop)
    (hwf : ∀ rs c, Good rs c → cstr (text c) = text c)
    (hnil : ∀ rs n, step rs n [] = rs)
    (hcomp : ∀ rs n a b, step (step rs n a) (n + a.length) b = step rs n (a ++ b))
    (hgood : ∀ rs n a c, Good rs c → Good (step rs n a) c)
    (hchunk : ∀ rs n cs, cs ≠ [] → (∀ c ∈ cs, Good rs c) →
      chunk rs n cs.length (joinTexts (cs.map text)) = some (.ok (step rs n cs)))
    (total : Int) (fp1 : List (List Char)) (recs : List ρ) (r : Reader α)
    (hg : ∀ c ∈ recs, Good r.rs c) (nread n : Int)
    (ht : total - nread = recs.length) (hfp : r.fp = recs.map text ++ fp1) :
    read_section chunk total nread n r =
      some (.ok { r with rs := step r.rs n recs, fp := fp1 }) := by
  obtain ⟨m, hm⟩ : ∃ m, recs.length = m := ⟨_, rfl⟩
  induction m using Nat.strong_induction_on generalizing recs r nread n with
  | _ m ih =>
    rw [read_section]
    by_cases hlt : nread < total
    · rw [if_pos hlt]
      obtain ⟨k, hk, hk1, hk2⟩ : ∃ k : Nat,
          (if total - nread > CHUNK then CHUNK else total - nread) = (k : Int) ∧
            1 ≤ k ∧ k ≤ recs.length := by
        refine ⟨(if total - nread > CHUNK then CHUNK else total - nread).toNat, ?_, ?_, ?_⟩ <;>
          (simp only [CHUNK]; split <;> omega)
      rw [hk, Int.toNat_ofNat]
      have hlen : (recs.take k).length = k := by
        rw [List.length_take]
        omega
      have hfp2 : r.fp = (recs.take k).map text ++
          ((recs.drop k).map text ++ fp1) := by
        rw [hfp, ← List.append_assoc, ← List.map_append, List.take_append_drop]
      have hrc := read_chunk_texts ((recs.take k).map text) ((recs.drop k).map text ++ fp1)
        (fun l hl => by
          obtain ⟨c, hc, rfl⟩ := List.mem_map.mp hl
          exact hwf _ _ (hg c (List.mem_of_mem_take hc)))
      rw [List.length_map, hlen, ← hfp2] at hrc
      rw [hrc]
      simp only []
      have hch := hchunk r.rs n (recs.take k)
        (by
          intro h0
          rw [h0] at hlen
          simp at hlen
          omega)
        (fun c hc => hg c (List.mem_of_mem_take hc))
      rw [hlen] at hch
      rw [hch]
      simp only []
      have hc2 := hcomp r.rs n (recs.take k) (recs.drop k)
      rw [hlen, List.take_append_drop] at hc2
      rw [ih (recs.drop k).length (by rw [List.length_drop]; omega) (recs.drop k)
        { r with rs := step r.rs n (recs.take k), fp := (recs.drop k).map text ++ fp1 }
        (fun c hc => hgood _ _ _ _ (hg c (List.mem_of_mem_drop hc))) (nread + k) (n + k)
        (by rw [List.length_drop]; omega) rfl rfl]
      simp only [hc2]
    · rw [if_neg hlt]
      have h0 : recs = [] := List.eq_nil_of_length_eq_zero (by omega)
      subst h0
      rw [hnil]
      rw [List.map_nil, List.nil_append] at hfp
      rw [← hfp]

/-! ### Well-formed data lines of four fields -/

/-- The characters of a well-formed data line of four fields before its newline
are neither NUL nor newline nor `#`. -/
theorem Record4.body_plain4 (r : Record4) (h : r.WellFormed) :
    ∀ c ∈ r.body, c ≠ NUL ∧ c ≠ '\n' ∧ c ≠ '#' := by
  obtain ⟨h1, h2, h3, -, h5, h6, -, h8, h9, -, h11, h12⟩ := h
  intro c hc
  simp only [Record4.body, List.mem_append] at hc
  rcases hc with hc | hc | hc | hc | hc | hc | hc | hc | hc
  · exact h1.plain c hc
  · exact h2.plain_word c hc
  · exact h3.plain c hc
  · exact h5.plain_word c hc
  · exact h6.plain c hc
  · exact h8.plain_word c hc
  · exact h9.plain c hc
  · exact h11.plain_word c hc
  · exact h12.plain c hc

/-- A well-formed data line of four fields has four words. -/
theorem Record4.count_words_body4 (r : Record4) (h : r.WellFormed) :
    count_words r.body = 4 := by
  have hplain := r.body_plain4 h
  obtain ⟨h1, h2, h3, h4, h5, h6, h7, h8, h9, h10, h11, h12⟩ := h
  have hc : cstr r.body = r.body := by
    unfold cstr
    rw [List.takeWhile_eq_self_iff]
    intro c hc
    simpa using (hplain c hc).1
  have hs : (r.body).takeWhile (fun c => c != '#') = r.body := by
    rw [List.takeWhile_eq_self_iff]
    intro c hc
    simpa using (hplain c hc).2.2
  rw [count_words_eq, hc, hs, Record4.body,
    wordRuns_delims false r.lead _ h1.isDelim (Or.inl rfl),
    wordRuns_word r.f0 _ h2,
    wordRuns_delims true r.sep1 _ h3.isDelim (Or.inr h4),
    wordRuns_word r.f1 _ h5,
    wordRuns_delims true r.sep2 _ h6.isDelim (Or.inr h7),
    wordRuns_word r.f2 _ h8,
    wordRuns_delims true r.sep3 _ h9.isDelim (Or.inr h10),
    wordRuns_word r.f3 _ h11,
    wordRuns_true_blanks r.trail h12.isDelim]

/-- The text of a well-formed data line of four fields holds no NUL. -/
theorem Record4.cstr_text4 (r : Record4) (h : r.WellFormed) : cstr r.text = r.text := by
  have hplain := r.body_plain4 h
  unfold cstr
  rw [List.takeWhile_eq_self_iff]
  intro c hc
  rw [Record4.text, List.mem_append, List.mem_singleton] at hc
  rcases hc with hc | hc
  · simpa using (hplain c hc).1
  · subst hc
    decide

/-- The first line of a buffer that starts with a well-formed data line of four
fields. -/
theorem joinTexts_first_line4 (r : Record4) (ls : List (List Char)) (h : r.WellFormed) :
    strchr (joinTexts (r.text :: ls)) '\n' = some r.body.length ∧
      (joinTexts (r.text :: ls)).take r.body.length = r.body := by
  have hplain := r.body_plain4 h
  constructor
  · rw [joinTexts, Record4.text, List.append_assoc, List.singleton_append]
    exact strchr_newline r.body _ (fun c hc => ⟨(hplain c hc).1, (hplain c hc).2.1⟩)
  · rw [joinTexts, Record4.text, List.append_assoc]
    exact List.take_left _ _

/-- The four calls of `strtok` on a well-formed data line of four fields deliver
its fields, and the pointer `next + 1` is the buffer behind the line. -/
theorem Record4.tokens4 (r : Record4) (h : r.WellFormed) (tail : List Char) :
    ∃ done rest,
      strtok (strtok [] (r.text ++ tail)).2.1 (strtok [] (r.text ++ tail)).2.2 =
        (some r.f1, done, rest) ∧
      ∃ done2 rest2, strtok done rest = (some r.f2, done2, rest2) ∧
        ∃ done3 rest3, strtok done2 rest2 = (some r.f3, done3, rest3) ∧
          (strchr (r.text ++ tail) '\n').map (fun k => (done3 ++ rest3).drop (k + 1)) =
            some tail := by
  have hplain := r.body_plain4 h
  obtain ⟨h1, h2, h3, h4, h5, h6, h7, h8, h9, h10, h11, h12⟩ := h
  obtain ⟨d1, s1, hs1⟩ := List.exists_cons_of_ne_nil h4
  obtain ⟨d2, s2, hs2⟩ := List.exists_cons_of_ne_nil h7
  obtain ⟨d3, s3, hs3⟩ := List.exists_cons_of_ne_nil h10
  have hd1 : isDelim d1 = true := h3.isDelim d1 (by rw [hs1]; exact List.mem_cons_self _ _)
  have hd2 : isDelim d2 = true := h6.isDelim d2 (by rw [hs2]; exact List.mem_cons_self _ _)
  have hd3 : isDelim d3 = true := h9.isDelim d3 (by rw [hs3]; exact List.mem_cons_self _ _)
  have hs1d : ∀ c ∈ s1, isDelim c = true := fun c hc =>
    h3.isDelim c (by rw [hs1]; exact List.mem_cons_of_mem _ hc)
  have hs2d : ∀ c ∈ s2, isDelim c = true := fun c hc =>
    h6.isDelim c (by rw [hs2]; exact List.mem_cons_of_mem _ hc)
  have hs3d : ∀ c ∈ s3, isDelim c = true := fun c hc =>
    h9.isDelim c (by rw [hs3]; exact List.mem_cons_of_mem _ hc)
  obtain ⟨d4, e4, he4, hd4⟩ : ∃ d4 e4, r.trail ++ ['\n'] = d4 :: e4 ∧
      isDelim d4 = true := by
    cases ht : r.trail with
    | nil => exact ⟨'\n', [], rfl, by decide⟩
    | cons c cs =>
      exact ⟨c, cs ++ ['\n'], rfl, h12.isDelim c (by rw [ht]; exact List.mem_cons_self _ _)⟩
  have htext : r.text ++ tail =
      r.lead ++ (r.f0 ++ d1 :: (s1 ++ (r.f1 ++ d2 :: (s2 ++ (r.f2 ++ d3 ::
        (s3 ++ (r.f3 ++ d4 :: (e4 ++ tail)))))))) := by
    have : r.trail ++ '\n' :: tail = d4 :: (e4 ++ tail) := by
      rw [← List.cons_append, ← he4, List.append_assoc, List.singleton_append]
    simp only [Record4.text, Record4.body, hs1, hs2, hs3, List.append_assoc, List.cons_append,
      List.nil_append, List.singleton_append, this]
  have hk : strchr (r.text ++ tail) '\n' = some r.body.length := by
    rw [Record4.text, List.append_assoc, List.singleton_append]
    exact strchr_newline r.body tail (fun c hc => ⟨(hplain c hc).1, (hplain c hc).2.1⟩)
  rw [hk, htext, strtok_word [] r.lead r.f0 d1 _ (h1.isDelim) h2 hd1]
  simp only []
  rw [strtok_word _ s1 r.f1 d2 _ hs1d h5 hd2]
  refine ⟨_, _, rfl, ?_⟩
  rw [strtok_word _ s2 r.f2 d3 _ hs2d h8 hd3]
  refine ⟨_, _, rfl, ?_⟩
  rw [strtok_word _ s3 r.f3 d4 _ hs3d h11 hd4]
  refine ⟨_, _, rfl, ?_⟩
  simp only [Option.map_some', Option.some.injEq]
  rw [← List.append_assoc]
  apply List.drop_left'
  have hl := congrArg List.length he4
  simp only [List.length_append, List.length_cons, Record4.body, hs1, hs2, hs3,
    List.length_nil, List.length_singleton] at hl ⊢
  omega

/-- One well-formed data line of four fields through the record body of
`read_points` in three dimensions. -/
theorem read_points_record_wf4 {α : Type} [Zero α] (L : Libm α) (r : Record4)
    (h : r.WellFormed) (tail : List Char) :
    read_points_record L 3 (r.text ++ tail) = some (r.point L, some tail) := by
  obtain ⟨done, rest, h1, done2, rest2, h2, done3, rest3, h3, h4⟩ := r.tokens4 h tail
  unfold read_points_record
  rw [h1]
  simp only []
  rw [h2]
  simp only [if_true]
  rw [h3]
  simp only []
  rw [h4]
  rfl

/-- One well-formed data line of four fields through the tokens of
`read_tris`. -/
theorem read_tris_tokens_wf (r : Record4) (h : r.WellFormed) (tail : List Char) :
    read_tris_tokens (r.text ++ tail) =
      some (atoi r.f1, atoi r.f2, atoi r.f3, some tail) := by
  obtain ⟨done, rest, h1, done2, rest2, h2, done3, rest3, h3, h4⟩ := r.tokens4 h tail
  unfold read_tris_tokens
  rw [h1]
  simp only []
  rw [h2]
  simp only []
  rw [h3]
  simp only []
  rw [h4]

/-- The record loop of `read_points` in three dimensions on well-formed data
lines stores their points at successive indices. -/
theorem read_points_records_wf4 {α : Type} [Zero α] (L : Libm α)
    (recs : List Record4) (h : ∀ r ∈ recs, r.WellFormed)
    (n : Int) (tail : List Char) (pts : Int → Point α) :
    read_points_records L 3 recs.length n (some (joinTexts (recs.map Record4.text) ++ tail))
        pts =
      some (storeAt (recs.map (Record4.point L)) n pts) := by
  induction recs generalizing n pts with
  | nil => rfl
  | cons r rs ih =>
    rw [List.length_cons, List.map_cons, joinTexts, List.append_assoc, read_points_records,
      read_points_record_wf4 L r (h r (List.mem_cons_self _ _))]
    simp only []
    rw [ih (fun x hx => h x (List.mem_cons_of_mem _ hx))]
    rfl

/-- The record loop of `read_tris` on well-formed data lines with valid indices
stores their triangles at successive indices. -/
theorem read_tris_records_wf {α : Type} (recs : List Record4) (st : ReadSurf α)
    (h : ∀ r ∈ recs, r.WellFormed) (hv : ∀ r ∈ recs, r.ValidTri st.npoint_new)
    (n : Int) (tail : List Char) :
    read_tris_records recs.length n (some (joinTexts (recs.map Record4.text) ++ tail)) st =
      some (.ok { st with tris := storeAt (recs.map (Record4.tri st.id)) n st.tris }) := by
  induction recs generalizing n st with
  | nil => rfl
  | cons r rs ih =>
    obtain ⟨v1, v2, v3, v4, v5, v6, v7, v8⟩ := hv r (List.mem_cons_self _ _)
    rw [List.length_cons, List.map_cons, joinTexts, List.append_assoc, read_tris_records,
      read_tris_tokens_wf r (h r (List.mem_cons_self _ _))]
    simp only []
    rw [read_tris_record, if_neg (by omega)]
    simp only []
    exact ih
      { st with tris := Function.update st.tris n ⟨st.id, atoi r.f1, atoi r.f2, atoi r.f3⟩ }
      (fun x hx => h x (List.mem_cons_of_mem _ hx))
      (fun x hx => hv x (List.mem_cons_of_mem _ hx)) (n + 1)

/-- One buffer of well-formed data lines of four fields through `read_points`
in three dimensions. -/
theorem read_points_chunk_wf4 {α : Type} [Zero α] (L : Libm α) (rs : ReadSurf α)
    (hd : rs.dimension = 3) (recs : List Record4) (hne : recs ≠ [])
    (h : ∀ r ∈ recs, r.WellFormed) (n : Int) :
    read_points_chunk L rs n recs.length (joinTexts (recs.map Record4.text)) =
      some (.ok { rs with pts := storeAt (recs.map (Record4.point L)) n rs.pts }) := by
  obtain ⟨r, rt, rfl⟩ := List.exists_cons_of_ne_nil hne
  obtain ⟨hk, htake⟩ := joinTexts_first_line4 r (rt.map Record4.text)
    (h r (List.mem_cons_self _ _))
  rw [← List.map_cons] at hk htake
  have hrec := read_points_records_wf4 L (r :: rt) h n [] rs.pts
  rw [List.append_nil] at hrec
  unfold read_points_chunk
  rw [hk]
  simp only []
  rw [htake, r.count_words_body4 (h r (List.mem_cons_self _ _)), hd, hrec]
  simp

/-- One buffer of well-formed data lines with valid indices through
`read_tris`. -/
theorem read_tris_chunk_wf {α : Type} (rs : ReadSurf α) (recs : List Record4)
    (hne : recs ≠ []) (h : ∀ r ∈ recs, r.WellFormed)
    (hv : ∀ r ∈ recs, r.ValidTri rs.npoint_new) (n : Int) :
    read_tris_chunk rs n recs.length (joinTexts (recs.map Record4.text)) =
      some (.ok { rs with tris := storeAt (recs.map (Record4.tri rs.id)) n rs.tris }) := by
  obtain ⟨r, rt, rfl⟩ := List.exists_cons_of_ne_nil hne
  obtain ⟨hk, htake⟩ := joinTexts_first_line4 r (rt.map Record4.text)
    (h r (List.mem_cons_self _ _))
  rw [← List.map_cons] at hk htake
  have hrec := read_tris_records_wf (r :: rt) rs h hv n []
  rw [List.append_nil] at hrec
  unfold read_tris_chunk
  rw [hk]
  simp only []
  rw [htake, r.count_words_body4 (h r (List.mem_cons_self _ _)), hrec]
  simp

/-! ### Sections of well-formed data lines -/

/-- `read_points` in two dimensions on a stream that starts with the declared
number of well-formed data lines: their points are stored from index
`npoint_old` on, and the stream is left behind them. -/
theorem read_points_wf {α : Type} [Zero α] (L : Libm α) (r : Reader α)
    (hd : r.rs.dimension = 2) (recs : List Record3) (h : ∀ c ∈ recs, c.WellFormed)
    (hn : r.rs.npoint_new = recs.length) (fp1 : List (List Char))
    (hfp : r.fp = recs.map Record3.text ++ fp1) :
    read_points L r = some (.ok { r with
      rs := { r.rs with pts := storeAt (recs.map (Record3.point L)) r.rs.npoint_old r.rs.pts }
      fp := fp1 }) := by
  unfold read_points
  exact read_section_records Record3.text (read_points_chunk L)
    (fun rs n cs => { rs with pts := storeAt (cs.map (Record3.point L)) n rs.pts })
    (fun rs c => rs.dimension = 2 ∧ c.WellFormed)
    (fun _ c hc => c.cstr_text hc.2)
    (fun _ _ => rfl)
    (fun rs n a b => by
      simp only [List.map_append]
      rw [storeAt_append, List.length_map])
    (fun _ _ _ _ hc => hc)
    (fun rs n cs hne hcs =>
      read_points_chunk_wf L rs (by
        obtain ⟨c, cs1, rfl⟩ := List.exists_cons_of_ne_nil hne
        exact (hcs c (List.mem_cons_self _ _)).1) cs hne (fun c hc => (hcs c hc).2) n)
    r.rs.npoint_new fp1 recs r (fun c hc => ⟨hd, h c hc⟩) 0 r.rs.npoint_old
    (by omega) hfp

/-- `read_points` in three dimensions on a stream that starts with the declared
number of well-formed data lines of four fields. -/
theorem read_points_wf4 {α : Type} [Zero α] (L : Libm α) (r : Reader α)
    (hd : r.rs.dimension = 3) (recs : List Record4) (h : ∀ c ∈ recs, c.WellFormed)
    (hn : r.rs.npoint_new = recs.length) (fp1 : List (List Char))
    (hfp : r.fp = recs.map Record4.text ++ fp1) :
    read_points L r = some (.ok { r with
      rs := { r.rs with pts := storeAt (recs.map (Record4.point L)) r.rs.npoint_old r.rs.pts }
      fp := fp1 }) := by
  unfold read_points
  exact read_section_records Record4.text (read_points_chunk L)
    (fun rs n cs => { rs with pts := storeAt (cs.map (Record4.point L)) n rs.pts })
    (fun rs c => rs.dimension = 3 ∧ c.WellFormed)
    (fun _ c hc => c.cstr_text4 hc.2)
    (fun _ _ => rfl)
    (fun rs n a b => by
      simp only [List.map_append]
      rw [storeAt_append, List.length_map])
    (fun _ _ _ _ hc => hc)
    (fun rs n cs hne hcs =>
      read_points_chunk_wf4 L rs (by
        obtain ⟨c, cs1, rfl⟩ := List.exists_cons_of_ne_nil hne
        exact (hcs c (List.mem_cons_self _ _)).1) cs hne (fun c hc => (hcs c hc).2) n)
    r.rs.npoint_new fp1 recs r (fun c hc => ⟨hd, h c hc⟩) 0 r.rs.npoint_old
    (by omega) hfp

/-- `read_lines` on a stream that starts with the declared number of well-formed
data lines with valid indices: their line elements are stored from index
`nline_old` on, and the stream is left behind them. -/
theorem read_lines_wf {α : Type} (r : Reader α)
    (recs : List Record3) (h : ∀ c ∈ recs, c.WellFormed)
    (hv : ∀ c ∈ recs, c.ValidLine r.rs.npoint_new)
    (hn : r.rs.nline_new = recs.length) (fp1 : List (List Char))
    (hfp : r.fp = recs.map Record3.text ++ fp1) :
    read_lines r = some (.ok { r with
      rs := { r.rs with
        lines := storeAt (recs.map (Record3.line r.rs.id)) r.rs.nline_old r.rs.lines }
      fp := fp1 }) := by
  unfold read_lines
  exact read_section_records Record3.text read_lines_chunk
    (fun rs n cs => { rs with lines := storeAt (cs.map (Record3.line rs.id)) n rs.lines })
    (fun rs c => c.WellFormed ∧ c.ValidLine rs.npoint_new)
    (fun _ c hc => c.cstr_text hc.1)
    (fun _ _ => rfl)
    (fun rs n a b => by
      simp only [List.map_append]
      rw [storeAt_append, List.length_map])
    (fun _ _ _ _ hc => hc)
    (fun rs n cs hne hcs =>
      read_lines_chunk_wf rs cs hne (fun c hc => (hcs c hc).1) (fun c hc => (hcs c hc).2) n)
    r.rs.nline_new fp1 recs r (fun c hc => ⟨h c hc, hv c hc⟩) 0 r.rs.nline_old
    (by omega) hfp

/-- `read_tris` on a stream that starts with the declared number of well-formed
data lines of four fields with valid indices: their triangles are stored from
index `ntri_old` on, and the stream is left behind them. -/
theorem read_tris_wf {α : Type} (r : Reader α)
    (recs : List Record4) (h : ∀ c ∈ recs, c.WellFormed)
    (hv : ∀ c ∈ recs, c.ValidTri r.rs.npoint_new)
    (hn : r.rs.ntri_new = recs.length) (fp1 : List (List Char))
    (hfp : r.fp = recs.map Record4.text ++ fp1) :
    read_tris r = some (.ok { r with
      rs := { r.rs with
        tris := storeAt (recs.map (Record4.tri r.rs.id)) r.rs.ntri_old r.rs.tris }
      fp := fp1 }) := by
  unfold read_tris
  exact read_section_records Record4.text read_tris_chunk
    (fun rs n cs => { rs with tris := storeAt (cs.map (Record4.tri rs.id)) n rs.tris })
    (fun rs c => c.WellFormed ∧ c.ValidTri rs.npoint_new)
    (fun _ c hc => c.cstr_text4 hc.1)
    (fun _ _ => rfl)
    (fun rs n a b => by
      simp only [List.map_append]
      rw [storeAt_append, List.length_map])
    (fun _ _ _ _ hc => hc)
    (fun rs n cs hne hcs =>
      read_tris_chunk_wf rs cs hne (fun c hc => (hcs c hc).1) (fun c hc => (hcs c hc).2) n)
    r.rs.ntri_new fp1 recs r (fun c hc => ⟨h c hc, hv c hc⟩) 0 r.rs.ntri_old
    (by omega) hfp

theorem storeAt_map_get {β ρ : Type} (f : ρ → β) (recs : List ρ) (n : Int) (arr : Int → β)
    (k : Nat) (hk : k < recs.length) :
    storeAt (recs.map f) n arr (n + k) = f (recs.get ⟨k, hk⟩) := by
  rw [storeAt_get (recs.map f) n arr k (by rw [List.length_map]; exact hk)]
  simp

/-- C19: the batch loop of a section is a total function that handles the
batches of `batch_sizes` in order, whatever the declared count `N` and the
handling of one batch; for `N ≥ 1` every batch holds between 1 and 1024 records,
every batch but the last holds 1024, and the sizes sum to `N`; and on a stream of
`N` well-formed data lines, `read_points` (in two and in three dimensions),
`read_lines` and `read_tris` write the `k`-th record at store index
`old_count + k`. -/
theorem batch_loop_spec {α : Type} [Zero α] (L : Libm α)
    (chunk : ReadSurf α → Int → Nat → List Char → Option (Outcome (ReadSurf α)))
    (N n : Int) (r : Reader α) :
    read_section chunk N 0 n r = run_batches chunk (batch_sizes N 0) n r ∧
    (1 ≤ N →
      (∀ c ∈ batch_sizes N 0, 1 ≤ c ∧ c ≤ 1024) ∧
      (∀ c ∈ (batch_sizes N 0).dropLast, c = 1024) ∧
      (batch_sizes N 0).sum = N) ∧
    (∀ (recs : List Record3) (fp1 : List (List Char)),
      r.rs.dimension = 2 → (∀ c ∈ recs, c.WellFormed) → r.rs.npoint_new = recs.length →
      r.fp = recs.map Record3.text ++ fp1 →
      ∃ r1, read_points L r = some (.ok r1) ∧
        ∀ (k : Nat) (hk : k < recs.length),
          r1.rs.pts (r.rs.npoint_old + k) = (recs.get ⟨k, hk⟩).point L) ∧
    (∀ (recs : List Record4) (fp1 : List (List Char)),
      r.rs.dimension = 3 → (∀ c ∈ recs, c.WellFormed) → r.rs.npoint_new = recs.length →
      r.fp = recs.map Record4.text ++ fp1 →
      ∃ r1, read_points L r = some (.ok r1) ∧
        ∀ (k : Nat) (hk : k < recs.length),
          r1.rs.pts (r.rs.npoint_old + k) = (recs.get ⟨k, hk⟩).point L) ∧
    (∀ (recs : List Record3) (fp1 : List (List Char)),
      (∀ c ∈ recs, c.WellFormed) → (∀ c ∈ recs, c.ValidLine r.rs.npoint_new) →
      r.rs.nline_new = recs.length → r.fp = recs.map Record3.text ++ fp1 →
      ∃ r1, read_lines r = some (.ok r1) ∧
        ∀ (k : Nat) (hk : k < recs.length),
          r1.rs.lines (r.rs.nline_old + k) = (recs.get ⟨k, hk⟩).line r.rs.id) ∧
    (∀ (recs : List Record4) (fp1 : List (List Char)),
      (∀ c ∈ recs, c.WellFormed) → (∀ c ∈ recs, c.ValidTri r.rs.npoint_new) →
      r.rs.ntri_new = recs.length → r.fp = recs.map Record4.text ++ fp1 →
      ∃ r1, read_tris r = some (.ok r1) ∧
        ∀ (k : Nat) (hk : k < recs.length),
          r1.rs.tris (r.rs.ntri_old + k) = (recs.get ⟨k, hk⟩).tri r.rs.id) := by
  refine ⟨read_section_eq_run_batches chunk N 0 n r, ?_, ?_, ?_, ?_, ?_⟩
  · intro hN
    obtain ⟨h1, h2, h3⟩ := batch_sizes_spec N 0
    refine ⟨h1, h2, ?_⟩
    rw [h3]
    omega
  · intro recs fp1 hd h hn hfp
    exact ⟨_, read_points_wf L r hd recs h hn fp1 hfp, fun k hk =>
      storeAt_map_get _ recs _ _ k hk⟩
  · intro recs fp1 hd h hn hfp
    exact ⟨_, read_points_wf4 L r hd recs h hn fp1 hfp, fun k hk =>
      storeAt_map_get _ recs _ _ k hk⟩
  · intro recs fp1 h hv hn hfp
    exact ⟨_, read_lines_wf r recs h hv hn fp1 hfp, fun k hk =>
      storeAt_map_get _ recs _ _ k hk⟩
  · intro recs fp1 h hv hn hfp
    exact ⟨_, read_tris_wf r recs h hv hn fp1 hfp, fun k hk =>
      storeAt_map_get _ recs _ _ k hk⟩

/-- Witness of C19 for two declared lines, `1 1 2` and `2 2 3`, behind five older
ones: one batch of two, and the second line is stored at index 5 + 1. -/
theorem batch_loop_spec_witness :
    (batch_sizes 2 0).sum = 2 ∧
      ∃ r1, read_lines sampleLinesReader = some (.ok r1) ∧ r1.rs.lines (5 + 1) = ⟨7, 2, 3⟩ :=
  ⟨((batch_loop_spec sampleLibm read_lines_chunk 2 0 sampleLinesReader).2.1 (by decide)).2.2,
    (((batch_loop_spec sampleLibm read_lines_chunk 2 0 sampleLinesReader).2.2.2.2.1
      sampleLineRecs [] (by decide) (by decide) rfl rfl).imp
        (fun _ h => ⟨h.1, h.2 1 (by decide)⟩))⟩

/-! ### A well-formed 2-D file -/

/-- The header loop over header lines that are blank or declare `n` points or `m`
lines, up to a line `kw` that is no header line, not in three dimensions: the
checks are made on the counts declared. -/
theorem header_loop_entries {α : Type} (n m : Int) (hdr : List (List Char))
    (kw : List Char) (fp1 : List (List Char)) (r : Reader α)
    (hd : r.rs.dimension ≠ 3)
    (h : ∀ l ∈ hdr, blank (strip_comment (cstr l)) = true ∨ PointsDecl n l ∨ LinesDecl m l)
    (hk1 : blank (strip_comment (cstr kw)) = false)
    (hk2 : strstr (strip_comment (cstr kw)) "points".toList = false)
    (hk3 : strstr (strip_comment (cstr kw)) "lines".toList = false)
    (hk4 : strstr (strip_comment (cstr kw)) "tris".toList = false) :
    ∃ p q,
      header_loop (hdr ++ kw :: fp1) r = header_checks
        { r with
          rs := { r.rs with npoint_new := p, nline_new := q }
          fp := fp1
          line := strip_comment (cstr kw) } ∧
      (p = n ∨ (p = r.rs.npoint_new ∧ ¬ ∃ l ∈ hdr, PointsDecl n l)) ∧
      (q = m ∨ (q = r.rs.nline_new ∧ ¬ ∃ l ∈ hdr, LinesDecl m l)) := by
  induction hdr generalizing r with
  | nil =>
    refine ⟨r.rs.npoint_new, r.rs.nline_new, ?_, Or.inr ⟨rfl, by simp⟩, Or.inr ⟨rfl, by simp⟩⟩
    rw [List.nil_append, header_loop]
    simp only [hk1, hk2, hk3, hk4, Bool.false_eq_true, if_false]
  | cons l hdr ih =>
    have hl := h l (List.mem_cons_self _ _)
    have ht : ∀ x ∈ hdr, blank (strip_comment (cstr x)) = true ∨ PointsDecl n x ∨
        LinesDecl m x := fun x hx => h x (List.mem_cons_of_mem _ hx)
    rcases hl with hb | hp | hq
    · obtain ⟨p, q, e, hp1, hq1⟩ := ih
        { r with fp := hdr ++ kw :: fp1, line := strip_comment (cstr l) } hd ht
      refine ⟨p, q, ?_, ?_, ?_⟩
      · rw [List.cons_append, header_loop]
        simp only [hb, if_true]
        exact e
      · rcases hp1 with hp1 | ⟨hp1, hp2⟩
        · exact Or.inl hp1
        · refine Or.inr ⟨hp1, ?_⟩
          rintro ⟨x, hx, hx2⟩
          rcases List.mem_cons.mp hx with hx | hx
          · subst hx
            rw [hx2.1] at hb
            cases hb
          · exact hp2 ⟨x, hx, hx2⟩
      · rcases hq1 with hq1 | ⟨hq1, hq2⟩
        · exact Or.inl hq1
        · refine Or.inr ⟨hq1, ?_⟩
          rintro ⟨x, hx, hx2⟩
          rcases List.mem_cons.mp hx with hx | hx
          · subst hx
            rw [hx2.1] at hb
            cases hb
          · exact hq2 ⟨x, hx, hx2⟩
    · obtain ⟨hp0, hp1, hp2⟩ := hp
      obtain ⟨p, q, e, hp3, hq3⟩ := ih
        { r with
          rs := { r.rs with npoint_new := sscanf_d (strip_comment (cstr l)) r.rs.npoint_new }
          fp := hdr ++ kw :: fp1
          line := strip_comment (cstr l) } hd ht
      have hs : sscanf_d (strip_comment (cstr l)) r.rs.npoint_new = n := by
        rw [sscanf_d, hp2]
        rfl
      refine ⟨p, q, ?_, ?_, ?_⟩
      · rw [List.cons_append, header_loop]
        simp only [hp0, hp1, Bool.false_eq_true, if_false, if_true]
        exact e
      · rcases hp3 with hp3 | ⟨hp3, -⟩
        · exact Or.inl hp3
        · exact Or.inl (hp3.trans hs)
      · rcases hq3 with hq3 | ⟨hq3, hq4⟩
        · exact Or.inl hq3
        · refine Or.inr ⟨hq3, ?_⟩
          rintro ⟨x, hx, hx2⟩
          rcases List.mem_cons.mp hx with hx | hx
          · subst hx
            rw [hx2.2.1] at hp1
            cases hp1
          · exact hq4 ⟨x, hx, hx2⟩
    · obtain ⟨hq0, hq1, hq2, hq3⟩ := hq
      obtain ⟨p, q, e, hp3, hq4⟩ := ih
        { r with
          rs := { r.rs with nline_new := sscanf_d (strip_comment (cstr l)) r.rs.nline_new }
          fp := hdr ++ kw :: fp1
          line := strip_comment (cstr l) } hd ht
      have hs : sscanf_d (strip_comment (cstr l)) r.rs.nline_new = m := by
        rw [sscanf_d, hq3]
        rfl
      refine ⟨p, q, ?_, ?_, ?_⟩
      · rw [List.cons_append, header_loop]
        simp only [hq0, hq1, hq2, Bool.false_eq_true, if_false, if_true, if_neg hd]
        exact e
      · rcases hp3 with hp3 | ⟨hp3, hp4⟩
        · exact Or.inl hp3
        · refine Or.inr ⟨hp3, ?_⟩
          rintro ⟨x, hx, hx2⟩
          rcases List.mem_cons.mp hx with hx | hx
          · subst hx
            rw [hx2.2.1] at hq1
            cases hq1
          · exact hp4 ⟨x, hx, hx2⟩
      · rcases hq4 with hq4 | ⟨hq4, -⟩
        · exact Or.inl hq4
        · exact Or.inl (hq4.trans hs)

/-- The scan for a nonblank line over blank lines `gap` and a nonblank line
`kw`. -/
theorem skip_blank_lines_gap (gap : List (List Char)) (kw : List Char)
    (fp1 : List (List Char)) (hg : ∀ g ∈ gap, blank (cstr g) = true)
    (hb : blank (cstr kw) = false) :
    ∀ x xs, gap ++ kw :: fp1 = x :: xs →
      skip_blank_lines (cstr x) xs = (false, cstr kw, fp1) := by
  induction gap with
  | nil =>
    intro x xs h
    rw [List.nil_append] at h
    obtain ⟨rfl, rfl⟩ := List.cons.inj h
    cases fp1 with
    | nil => rw [skip_blank_lines, hb]
    | cons l fp => rw [skip_blank_lines, hb, if_neg (by simp)]
  | cons g gs ih =>
    intro x xs h
    rw [List.cons_append] at h
    obtain ⟨rfl, rfl⟩ := List.cons.inj h
    have hne : gs ++ kw :: fp1 ≠ [] := by simp
    obtain ⟨y, ys, hy⟩ := List.exists_cons_of_ne_nil hne
    rw [hy, skip_blank_lines, hg g (List.mem_cons_self _ _), if_pos rfl]
    exact ih (fun z hz => hg z (List.mem_cons_of_mem _ hz)) y ys hy

/-- The first call of `parse_keyword` when the header ended at the nonblank line
`kw` and one more line can be read. -/
theorem parse_keyword_first {α : Type} (r : Reader α) (sep : List Char)
    (fp1 : List (List Char)) (hb : blank r.line = false) (hfp : r.fp = sep :: fp1) :
    parse_keyword true r =
      { r with fp := fp1, line := (r.line.reverse.dropWhile isBlank).reverse,
               keyword := trim r.line } := by
  unfold parse_keyword
  simp only [if_true, Bool.false_eq_true, if_false, hfp, skip_blank_lines, hb, fgets]

/-- A later call of `parse_keyword` over blank lines, a nonblank line `kw` and
one more line. -/
theorem parse_keyword_next {α : Type} (r : Reader α) (gap : List (List Char))
    (kw sep : List Char) (fp1 : List (List Char))
    (hg : ∀ g ∈ gap, blank (cstr g) = true) (hb : blank (cstr kw) = false)
    (hfp : r.fp = gap ++ kw :: sep :: fp1) :
    parse_keyword false r =
      { r with fp := fp1, line := ((cstr kw).reverse.dropWhile isBlank).reverse,
               keyword := trim (cstr kw) } := by
  have hne : gap ++ kw :: sep :: fp1 ≠ [] := by simp
  obtain ⟨x, xs, hx⟩ := List.exists_cons_of_ne_nil hne
  have hs := skip_blank_lines_gap gap kw (sep :: fp1) hg hb x xs hx
  unfold parse_keyword
  simp only [Bool.false_eq_true, if_false, hfp, hx, fgets, hs]

/-- The header of a well-formed 2-D file: the counts are those declared, and the
header ends at the keyword line `Points`. -/
theorem header_2d {α : Type} [Zero α] (id : Int) (surf : Surf α) (f : File2D)
    (hf : f.Sections) :
    header (Reader.start 2 id surf f.strings) =
      .ok { Reader.start 2 id surf f.strings with
        rs := { (Reader.start 2 id surf f.strings).rs with
          npoint_new := f.points.length
          nline_new := f.lines.length }
        fp := f.sepP :: (f.points.map Record3.text ++
          (f.gap ++ ("Lines\n".toList :: f.sepL :: (f.lines.map Record3.text ++ fgets_all f.rest))))
        line := "Points\n".toList } := by
  obtain ⟨hh, ⟨lp, hlp, hpd⟩, ⟨ll, hll, hld⟩, hpne, hlne, -, -, -, -⟩ := hf
  obtain ⟨p, q, e, hp, hq⟩ := header_loop_entries (f.points.length : Int) (f.lines.length : Int)
    f.header "Points\n".toList
    (f.sepP :: (f.points.map Record3.text ++
      (f.gap ++ ("Lines\n".toList :: f.sepL :: (f.lines.map Record3.text ++ fgets_all f.rest)))))
    { Reader.start 2 id surf f.strings with
      rs := { (Reader.start 2 id surf f.strings).rs with
        npoint_new := 0, nline_new := 0, ntri_new := 0 }
      fp := f.header ++ ("Points\n".toList :: f.sepP :: (f.points.map Record3.text ++
        (f.gap ++ ("Lines\n".toList :: f.sepL :: (f.lines.map Record3.text ++ fgets_all f.rest)))))
      line := cstr f.title }
    (by
      show (2 : Int) ≠ 3
      decide) hh (by decide) (by decide) (by decide) (by decide)
  have hp1 : p = f.points.length := hp.elim (fun h => h) (fun h => absurd ⟨lp, hlp, hpd⟩ h.2)
  have hq1 : q = f.lines.length := hq.elim (fun h => h) (fun h => absurd ⟨ll, hll, hld⟩ h.2)
  subst hp1 hq1
  have hn1 : (f.points.length : Int) ≠ 0 := by
    intro h0
    exact hpne (List.eq_nil_of_length_eq_zero (by omega))
  have hn2 : (f.lines.length : Int) ≠ 0 := by
    intro h0
    exact hlne (List.eq_nil_of_length_eq_zero (by omega))
  have e2 : header (Reader.start 2 id surf f.strings) = _ := e
  rw [e2, header_checks]
  simp only [Reader.start, hn1, hn2, if_false, and_false, false_and]
  rfl

/-- The two sections of a well-formed 2-D file, read by a reader whose header
ended at the keyword line `Points` with the counts declared: the data lines are
appended to the points and to the lines. -/
theorem read_sections_2d {α : Type} [Zero α] (L : Libm α) (f : File2D)
    (hf : f.Sections) (r : Reader α) (hd : r.rs.dimension = 2)
    (hline : r.line = "Points\n".toList)
    (hfp : r.fp = f.sepP :: (f.points.map Record3.text ++
      (f.gap ++ ("Lines\n".toList :: f.sepL :: (f.lines.map Record3.text ++ fgets_all f.rest)))))
    (hn : r.rs.npoint_new = f.points.length) (hm : r.rs.nline_new = f.lines.length) :
    read_sections L r = some (.ok { r with
      rs := { r.rs with
        pts := storeAt (f.points.map (Record3.point L)) r.rs.npoint_old r.rs.pts
        lines := storeAt (f.lines.map (Record3.line r.rs.id)) r.rs.nline_old r.rs.lines }
      fp := fgets_all f.rest
      line := "Lines".toList
      keyword := "Lines".toList }) := by
  obtain ⟨-, -, -, -, -, hpw, hgap, hlw, hlv⟩ := hf
  have hb : blank r.line = false := by
    rw [hline]
    decide
  have h1 := parse_keyword_first r f.sepP _ hb hfp
  rw [hline] at h1
  have hk1 : trim "Points\n".toList = "Points".toList := by decide
  have hl1 : ("Points\n".toList.reverse.dropWhile isBlank).reverse = "Points".toList := by
    decide
  rw [hk1, hl1] at h1
  have h2 := read_points_wf L (parse_keyword true r) (by rw [h1]; exact hd) f.points hpw
    (by rw [h1]; exact hn)
    (f.gap ++ ("Lines\n".toList :: f.sepL :: (f.lines.map Record3.text ++ fgets_all f.rest)))
    (by rw [h1])
  have hb2 : blank (cstr "Lines\n".toList) = false := by decide
  have hk2 : trim (cstr "Lines\n".toList) = "Lines".toList := by decide
  have hl2 : ((cstr "Lines\n".toList).reverse.dropWhile isBlank).reverse = "Lines".toList := by
    decide
  unfold read_sections
  rw [h2]
  simp only []
  have h3 := parse_keyword_next
    ({ parse_keyword true r with
        rs := { (parse_keyword true r).rs with
          pts := storeAt (f.points.map (Record3.point L)) (parse_keyword true r).rs.npoint_old
            (parse_keyword true r).rs.pts }
        fp := f.gap ++ ("Lines\n".toList :: f.sepL :: (f.lines.map Record3.text ++ fgets_all f.rest)) } :
      Reader α)
    f.gap "Lines\n".toList f.sepL (f.lines.map Record3.text ++ fgets_all f.rest) hgap hb2 rfl
  rw [hk2, hl2] at h3
  rw [h3]
  have h4 := read_lines_wf
    ({ parse_keyword true r with
        rs := { (parse_keyword true r).rs with
          pts := storeAt (f.points.map (Record3.point L)) (parse_keyword true r).rs.npoint_old
            (parse_keyword true r).rs.pts }
        fp := f.lines.map Record3.text ++ fgets_all f.rest
        line := "Lines".toList
        keyword := "Lines".toList } : Reader α)
    f.lines hlw (by rw [h1]; exact hn ▸ hlv) (by rw [h1]; exact hm) (fgets_all f.rest) rfl
  rw [h1] at h4 ⊢
  simp only [hd, if_true, ne_eq, not_true_eq_false, if_false] at h4 ⊢
  exact h4

/-- One call of `fgets` takes a line that fits it whole. -/
theorem fgets_take_line (n : Nat) (b t : List Char) (hb : '\n' ∉ b) (hn : b.length < n) :
    fgets_take n (b ++ '\n' :: t) = b ++ ['\n'] := by
  induction b generalizing n with
  | nil =>
    obtain ⟨k, rfl⟩ : ∃ k, n = k + 1 := ⟨n - 1, by simp at hn; omega⟩
    rw [List.nil_append, fgets_take, if_pos rfl]
    rfl
  | cons c b ih =>
    obtain ⟨k, rfl⟩ : ∃ k, n = k + 1 := ⟨n - 1, by simp at hn; omega⟩
    have hc : c ≠ '\n' := fun h => hb (h ▸ List.mem_cons_self _ _)
    rw [List.cons_append, fgets_take, if_neg hc,
      ih k (fun h => hb (List.mem_cons_of_mem _ h)) (by simpa using hn)]
    rfl

/-- A line that fits one read is a text without newline, of fewer than
`MAXLINE - 1` characters, and a newline. -/
theorem FileLine.split {l : List Char} (h : FileLine l) :
    ∃ b, l = b ++ ['\n'] ∧ '\n' ∉ b ∧ b.length < MAXLINE - 1 := by
  obtain ⟨h1, h2, h3⟩ := h
  have hne : l ≠ [] := by
    intro h0
    rw [h0] at h2
    cases h2
  have e : l = l.dropLast ++ ['\n'] := by
    have h4 := List.dropLast_append_getLast hne
    rw [List.getLast?_eq_getLast _ hne, Option.some.injEq] at h2
    rw [h2] at h4
    exact h4.symm
  refine ⟨l.dropLast, e, h3, ?_⟩
  have h5 := congrArg List.length e
  rw [List.length_append, List.length_singleton] at h5
  omega

/-- The reads of a file deliver a line that fits one read whole. -/
theorem fgets_all_line (l t : List Char) (h : FileLine l) :
    fgets_all (l ++ t) = l :: fgets_all t := by
  obtain ⟨b, rfl, hb, hlen⟩ := h.split
  have ht : fgets_take (MAXLINE - 1) (b ++ ['\n'] ++ t) = b ++ ['\n'] := by
    rw [List.append_assoc, List.singleton_append]
    exact fgets_take_line _ b t hb hlen
  obtain ⟨c, t1, hc⟩ : ∃ c t1, b ++ ['\n'] ++ t = c :: t1 := by
    cases b with
    | nil => exact ⟨'\n', t, rfl⟩
    | cons c b1 => exact ⟨c, b1 ++ ['\n'] ++ t, rfl⟩
  rw [hc, fgets_all, ← hc, ht, List.drop_left]

/-- The reads of a file deliver lines that fit one read one by one. -/
theorem fgets_all_lines (ls : List (List Char)) (t : List Char)
    (h : ∀ l ∈ ls, FileLine l) : fgets_all (joinTexts ls ++ t) = ls ++ fgets_all t := by
  induction ls with
  | nil => rfl
  | cons l ls ih =>
    rw [joinTexts, List.append_assoc, fgets_all_line l _ (h l (List.mem_cons_self _ _)),
      ih (fun x hx => h x (List.mem_cons_of_mem _ hx))]
    rfl

/-- A well-formed data line of at most `MAXLINE - 1` characters fits one
read. -/
theorem Record3.fileLine (r : Record3) (h : r.WellFormed) (hl : r.text.length ≤ MAXLINE - 1) :
    FileLine r.text := by
  have hplain := r.body_plain h
  refine ⟨hl, ?_, ?_⟩
  · rw [Record3.text, List.getLast?_append]
    rfl
  · rw [Record3.text, List.dropLast_concat]
    intro hc
    exact (hplain _ hc).2.1 rfl

/-- The reads of a well-formed 2-D file deliver its lines. -/
theorem File2D.stream_eq (f : File2D) (hf : f.WellFormed) : f.stream = f.strings := by
  obtain ⟨⟨-, -, -, -, -, hpw, -, hlw, -⟩, h1, h2, h3, h4, h5, h6, h7⟩ := hf
  have hP : FileLine "Points\n".toList := by decide
  have hL : FileLine "Lines\n".toList := by decide
  have hp : ∀ l ∈ f.points.map Record3.text, FileLine l := by
    intro l hl
    obtain ⟨r, hr, rfl⟩ := List.mem_map.mp hl
    exact r.fileLine (hpw r hr) (h4 r hr)
  have hl : ∀ l ∈ f.lines.map Record3.text, FileLine l := by
    intro l hl
    obtain ⟨r, hr, rfl⟩ := List.mem_map.mp hl
    exact r.fileLine (hlw r hr) (h7 r hr)
  unfold File2D.stream File2D.text File2D.strings
  rw [fgets_all_line _ _ h1, fgets_all_lines _ _ h2, fgets_all_line _ _ hP,
    fgets_all_line _ _ h3, fgets_all_lines _ _ hp, fgets_all_lines _ _ h5,
    fgets_all_line _ _ hL, fgets_all_line _ _ h6, fgets_all_lines _ _ hl]

/-- The call on a well-formed 2-D file without operators ends in the state that
the specification describes. -/
theorem command_2d {α : Type} [Add α] [Sub α] [Mul α] [Div α] [Zero α] [One α]
    [OfScientific α] [DecidableEq α] (L : Libm α) (dom : Domain α) (id : Int)
    (surf : Surf α) (a0 a1 : String) (f : File2D) (hf : f.WellFormed) :
    command L dom true 2 id surf [a0, a1] (some f.stream) =
      some (.ok (f.result L id surf)) := by
  have h1 := header_2d id surf f hf.1
  have h2 := read_sections_2d L f hf.1
    { Reader.start 2 id surf f.strings with
      rs := { (Reader.start 2 id surf f.strings).rs with
        npoint_new := f.points.length
        nline_new := f.lines.length }
      fp := f.sepP :: (f.points.map Record3.text ++
        (f.gap ++ ("Lines\n".toList :: f.sepL :: (f.lines.map Record3.text ++
          fgets_all f.rest))))
      line := "Points\n".toList } rfl rfl rfl rfl rfl
  rw [File2D.stream_eq f hf]
  unfold command command_read
  simp only [Bool.true_eq_false, if_false, List.length_cons, List.length_nil]
  rw [if_neg (by decide), h1]
  simp only []
  rw [h2]
  simp only [List.drop, transform_pipeline]
  rw [command_transforms]
  rfl

/-- C12: for every well-formed 2-D file with `n` Points data lines and `m` Lines
data lines, read on top of a store that holds `P` points and `L` lines, the call
completes; the store then holds `P + n` points and `L + m` lines; the point at
index `P + k` holds the two coordinates of the `k`-th Points data line and a zero;
the line at index `L + k` holds the surface id of the call and the two point
indices of the `k`-th Lines data line; the older points and lines are as before.
The leading token `f0` of a data line occurs nowhere in the result.  The file is
given by its text, which the call reads by `fgets` with at most
`MAXLINE - 1 = 255` characters per read (`File2D.stream`); in a well-formed file
each line up to the last Lines data line ends with its newline and has at most
255 characters, the newline included, and what follows the Lines data lines is
any text. -/
theorem well_formed_2d_file_appended {α : Type} [Add α] [Sub α] [Mul α] [Div α] [Zero α]
    [One α] [OfScientific α] [DecidableEq α] (L : Libm α) (dom : Domain α) (id : Int)
    (surf : Surf α) (a0 a1 : String) (f : File2D) (hf : f.WellFormed) :
    ∃ st, command L dom true 2 id surf [a0, a1] (some f.stream) = some (.ok st) ∧
      (commit st).npoint = surf.npoint + f.points.length ∧
      (commit st).nline = surf.nline + f.lines.length ∧
      (∀ (k : Nat) (hk : k < f.points.length),
        (commit st).pts (surf.npoint + k) =
          ⟨L.atof (String.mk (f.points.get ⟨k, hk⟩).f1),
            L.atof (String.mk (f.points.get ⟨k, hk⟩).f2), 0⟩) ∧
      (∀ (k : Nat) (hk : k < f.lines.length),
        (commit st).lines (surf.nline + k) =
          ⟨id, atoi (f.lines.get ⟨k, hk⟩).f1, atoi (f.lines.get ⟨k, hk⟩).f2⟩) ∧
      (∀ j, j < surf.npoint → (commit st).pts j = surf.pts j) ∧
      (∀ j, j < surf.nline → (commit st).lines j = surf.lines j) :=
  ⟨f.result L id surf, command_2d L dom id surf a0 a1 f hf, rfl, rfl,
    fun k hk => storeAt_map_get (Record3.point L) f.points surf.npoint surf.pts k hk,
    fun k hk => storeAt_map_get (Record3.line id) f.lines surf.nline surf.lines k hk,
    fun j hj => storeAt_below _ _ _ j hj,
    fun j hj => storeAt_below _ _ _ j hj⟩

/-- Witness of C12: the sample file of three points and two lines, read into an
empty store for surface 7, gives three points and two lines, and the lines
`(1,2)` at index 0 and `(2,3)` at index 1. -/
theorem well_formed_2d_file_appended_witness :
    ∃ st, command sampleLibm box10 true 2 7 emptyStore ["s", "data.surf"]
        (some sampleFile2D.stream) = some (.ok st) ∧
      (commit st).npoint = 3 ∧ (commit st).nline = 2 ∧
      (commit st).lines 0 = ⟨7, 1, 2⟩ ∧ (commit st).lines 1 = ⟨7, 2, 3⟩ ∧
      (commit st).pts 1 = ⟨2, 1, 0⟩ :=
  (well_formed_2d_file_appended sampleLibm box10 7 emptyStore "s" "data.surf" sampleFile2D
    (by decide)).imp
    (fun _ h => ⟨h.1, h.2.1, h.2.2.1, h.2.2.2.2.1 0 (by decide), h.2.2.2.2.1 1 (by decide),
      h.2.2.2.1 1 (by decide)⟩)

/-- Dropping from the front of a list whose first element fails the test drops
nothing. -/
theorem dropWhile_head_not {β : Type} (p : β → Bool) (b : List β)
    (h : ∀ x, b.head? = some x → p x = false) : b.dropWhile p = b := by
  cases b with
  | nil => rfl
  | cons x xs => rw [List.dropWhile_cons, h x rfl, if_neg (by simp)]

/-- The keyword copied from a line is the line without its leading and trailing
whitespace, and such a line is not blank. -/
theorem trim_of_trimmed (s core : List Char) (h : Trimmed s core) :
    trim s = core ∧ blank s = false := by
  obtain ⟨lead, trail, rfl, hl, ht, hne, hh, hlast⟩ := h
  constructor
  · unfold trim
    have h1 : (lead ++ (core ++ trail)).reverse =
        trail.reverse ++ (core.reverse ++ lead.reverse) := by
      simp only [List.reverse_append, List.append_assoc]
    have h2 : (core.reverse ++ lead.reverse).dropWhile isBlank =
        core.reverse ++ lead.reverse := by
      apply dropWhile_head_not
      intro x hx
      apply hlast x
      rw [List.head?_append, List.head?_reverse] at hx
      cases hc : core.getLast? with
      | none =>
        rw [List.getLast?_eq_none_iff] at hc
        exact absurd hc hne
      | some a =>
        rw [hc] at hx
        exact hx
    rw [h1, List.dropWhile_append_of_pos (fun a ha => ht a (List.mem_reverse.mp ha)), h2]
    rw [List.reverse_append, List.reverse_reverse, List.reverse_reverse,
      List.dropWhile_append_of_pos hl]
    exact dropWhile_head_not isBlank core hh
  · obtain ⟨a, as, rfl⟩ := List.exists_cons_of_ne_nil hne
    have ha : isBlank a = false := hh a rfl
    unfold blank
    rw [Bool.eq_false_iff]
    intro hall
    rw [List.all_eq_true] at hall
    have := hall a (by simp)
    rw [ha] at this
    cases this

/-- The scan over blank lines with at most one more line behind them uses up the
stream. -/
theorem skip_blank_lines_ends (gap last : List (List Char))
    (hg : ∀ g ∈ gap, blank (cstr g) = true) (hl : last.length ≤ 1) :
    ∀ line, blank line = true → (skip_blank_lines line (gap ++ last)).2.2 = [] := by
  induction gap with
  | nil =>
    intro line hb
    match last, hl with
    | [], _ => rfl
    | [kw], _ =>
      rw [List.nil_append, skip_blank_lines, if_pos hb]
      rfl
  | cons g gs ih =>
    intro line hb
    rw [List.cons_append, skip_blank_lines, if_pos hb]
    exact ih (fun z hz => hg z (List.mem_cons_of_mem _ hz)) (cstr g)
      (hg g (List.mem_cons_self _ _))

/-- When the keyword scan meets the end of the stream the keyword is empty. -/
theorem parse_keyword_ends {α : Type} (first : Bool) (r : Reader α)
    (h : ScanEnds first r.line r.fp) : (parse_keyword first r).keyword = [] := by
  rcases h with h | ⟨hf, gap, last, hfp, hg, hl⟩
  · exact parse_keyword_eof first r h
  · cases first with
    | true =>
      have hb : blank r.line = true := by
        rcases hf with hf | hf
        · cases hf
        · exact hf
      have hs := skip_blank_lines_ends gap last hg hl r.line hb
      unfold parse_keyword
      simp only [if_true, Bool.false_eq_true, if_false, hfp, hs, fgets]
    | false =>
      cases hx : r.fp with
      | nil => exact parse_keyword_eof false r hx
      | cons x xs =>
        have hs : (skip_blank_lines (cstr x) xs).2.2 = [] := by
          cases gap with
          | nil =>
            rw [List.nil_append] at hfp
            rw [hfp] at hx
            match last, hl, hx with
            | [y], _, hx =>
              obtain ⟨rfl, rfl⟩ := List.cons.inj hx
              cases hbx : blank (cstr y) <;> rfl
          | cons g gs =>
            rw [hfp, List.cons_append] at hx
            obtain ⟨rfl, rfl⟩ := List.cons.inj hx
            exact skip_blank_lines_ends gs last
              (fun z hz => hg z (List.mem_cons_of_mem _ hz)) hl (cstr g)
              (hg g (List.mem_cons_self _ _))
        unfold parse_keyword
        simp only [Bool.false_eq_true, if_false, hx, fgets, hs]

/-- A first call of `parse_keyword` on a blank `line` reads on as a later call
does. -/
theorem parse_keyword_first_blank {α : Type} (r : Reader α) (hb : blank r.line = true) :
    parse_keyword true r = parse_keyword false r := by
  unfold parse_keyword
  cases hx : r.fp with
  | nil =>
    simp only [if_true, Bool.false_eq_true, if_false, fgets, skip_blank_lines, hb]
  | cons x xs =>
    simp only [if_true, Bool.false_eq_true, if_false, fgets, skip_blank_lines, hb]

/-- C16: the sections are read without fatal error only when the keyword after
the header is exactly `Points` and the keyword after the Points section is
exactly `Lines` in 2-D and `Triangles` otherwise; any other first keyword, and
any other second keyword once the points are read, is fatal with the message of
the section that was expected.  In particular `Lines` in 3-D and `Triangles` in
2-D are fatal.  The keyword is the first nonblank line of the scan without its
leading and trailing whitespace, when a line can be read after it: the line that
ended the header in the first call, the first nonblank line of the stream in a
later call and in a first call that starts at a blank line.  When the scan meets
the end of the stream (nothing to read, blank lines only, or no line after the
keyword line) the keyword is empty, which is none of the three keywords, and the
call is fatal with the message of the section that was expected. -/
theorem section_keywords_required {α : Type} [Zero α] (L : Libm α) (r : Reader α) :
    (∀ res, read_sections L r = some (.ok res) →
      (parse_keyword true r).keyword = "Points".toList ∧
      ∃ r1, read_points L (parse_keyword true r) = some (.ok r1) ∧
        (parse_keyword false r1).keyword =
          (if r1.rs.dimension = 2 then "Lines".toList else "Triangles".toList)) ∧
    ((parse_keyword true r).keyword ≠ "Points".toList →
      read_sections L r =
        some (.fatal "Surf file cannot parse Points section" (parse_keyword true r))) ∧
    (∀ r1, (parse_keyword true r).keyword = "Points".toList →
      read_points L (parse_keyword true r) = some (.ok r1) →
      (r1.rs.dimension = 2 → (parse_keyword false r1).keyword ≠ "Lines".toList →
        read_sections L r =
          some (.fatal "Surf file cannot parse Lines section" (parse_keyword false r1))) ∧
      (r1.rs.dimension ≠ 2 → (parse_keyword false r1).keyword ≠ "Triangles".toList →
        read_sections L r =
          some (.fatal "Surf file cannot parse Triangles section"
            (parse_keyword false r1))) ∧
      (r1.rs.dimension = 3 → (parse_keyword false r1).keyword = "Lines".toList →
        read_sections L r =
          some (.fatal "Surf file cannot parse Triangles section"
            (parse_keyword false r1))) ∧
      (r1.rs.dimension = 2 → (parse_keyword false r1).keyword = "Triangles".toList →
        read_sections L r =
          some (.fatal "Surf file cannot parse Lines section" (parse_keyword false r1)))) ∧
    (∀ (first : Bool) (r2 : Reader α), ScanEnds first r2.line r2.fp →
      (parse_keyword first r2).keyword = [] ∧
        (parse_keyword first r2).keyword ≠ "Points".toList ∧
        (parse_keyword first r2).keyword ≠ "Lines".toList ∧
        (parse_keyword first r2).keyword ≠ "Triangles".toList) ∧
    (∀ (r2 : Reader α) (sep : List Char) (fp1 : List (List Char)) (core : List Char),
      Trimmed r2.line core → r2.fp = sep :: fp1 →
      (parse_keyword true r2).keyword = core ∧ (parse_keyword true r2).fp = fp1) ∧
    (∀ (r2 : Reader α), blank r2.line = true →
      parse_keyword true r2 = parse_keyword false r2) ∧
    (∀ (r2 : Reader α) (gap : List (List Char)) (kw sep : List Char)
      (fp1 : List (List Char)) (core : List Char),
      (∀ g ∈ gap, blank (cstr g) = true) → Trimmed (cstr kw) core →
      r2.fp = gap ++ kw :: sep :: fp1 →
      (parse_keyword false r2).keyword = core ∧ (parse_keyword false r2).fp = fp1) ∧
    (ScanEnds true r.line r.fp →
      read_sections L r =
        some (.fatal "Surf file cannot parse Points section" (parse_keyword true r))) ∧
    (∀ r1, (parse_keyword true r).keyword = "Points".toList →
      read_points L (parse_keyword true r) = some (.ok r1) →
      ScanEnds false r1.line r1.fp →
      read_sections L r =
        some (.fatal
          (if r1.rs.dimension = 2 then "Surf file cannot parse Lines section"
            else "Surf file cannot parse Triangles section")
          (parse_keyword false r1))) := by
  have hsecond : ∀ r1, (parse_keyword true r).keyword = "Points".toList →
      read_points L (parse_keyword true r) = some (.ok r1) →
      read_sections L r =
        (if r1.rs.dimension = 2 then
          if (parse_keyword false r1).keyword ≠ "Lines".toList then
            some (.fatal "Surf file cannot parse Lines section" (parse_keyword false r1))
          else read_lines (parse_keyword false r1)
        else
          if (parse_keyword false r1).keyword ≠ "Triangles".toList then
            some (.fatal "Surf file cannot parse Triangles section"
              (parse_keyword false r1))
          else read_tris (parse_keyword false r1)) := by
    intro r1 hk hp
    unfold read_sections
    rw [if_neg (not_not.mpr hk), hp]
  refine ⟨?_, ?_, ?_, ?_, ?_, ?_, ?_, ?_, ?_⟩
  · intro res h
    by_cases hk : (parse_keyword true r).keyword = "Points".toList
    · refine ⟨hk, ?_⟩
      cases hp : read_points L (parse_keyword true r) with
      | none =>
        unfold read_sections at h
        rw [if_neg (not_not.mpr hk), hp] at h
        cases h
      | some o =>
        cases o with
        | fatal msg r1 =>
          unfold read_sections at h
          rw [if_neg (not_not.mpr hk), hp] at h
          cases h
        | ok r1 =>
          refine ⟨r1, rfl, ?_⟩
          rw [hsecond r1 hk hp] at h
          by_cases hd : r1.rs.dimension = 2
          · rw [if_pos hd] at h ⊢
            by_contra hc
            rw [if_pos hc] at h
            cases h
          · rw [if_neg hd] at h ⊢
            by_contra hc
            rw [if_pos hc] at h
            cases h
    · unfold read_sections at h
      rw [if_pos hk] at h
      cases h
  · intro hk
    unfold read_sections
    rw [if_pos hk]
  · intro r1 hk hp
    refine ⟨?_, ?_, ?_, ?_⟩
    · intro hd hc
      rw [hsecond r1 hk hp, if_pos hd, if_pos hc]
    · intro hd hc
      rw [hsecond r1 hk hp, if_neg hd, if_pos hc]
    · intro hd hc
      have hd2 : ¬ r1.rs.dimension = 2 := by omega
      have hne : (parse_keyword false r1).keyword ≠ "Triangles".toList := by
        rw [hc]
        decide
      rw [hsecond r1 hk hp, if_neg hd2, if_pos hne]
    · intro hd hc
      have hne : (parse_keyword false r1).keyword ≠ "Lines".toList := by
        rw [hc]
        decide
      rw [hsecond r1 hk hp, if_pos hd, if_pos hne]
  · intro first r2 h2
    have h := parse_keyword_ends first r2 h2
    rw [h]
    exact ⟨rfl, by decide, by decide, by decide⟩
  · intro r2 sep fp1 core ht hfp
    rw [parse_keyword_first r2 sep fp1 (trim_of_trimmed _ _ ht).2 hfp]
    exact ⟨(trim_of_trimmed _ _ ht).1, rfl⟩
  · intro r2 hb
    exact parse_keyword_first_blank r2 hb
  · intro r2 gap kw sep fp1 core hg ht hfp
    rw [parse_keyword_next r2 gap kw sep fp1 hg (trim_of_trimmed _ _ ht).2 hfp]
    exact ⟨(trim_of_trimmed _ _ ht).1, rfl⟩
  · intro he
    have hk : (parse_keyword true r).keyword ≠ "Points".toList := by
      rw [parse_keyword_ends true r he]
      decide
    unfold read_sections
    rw [if_pos hk]
  · intro r1 hk hp he
    have hk1 := parse_keyword_ends false r1 he
    rw [hsecond r1 hk hp]
    by_cases hd : r1.rs.dimension = 2
    · rw [if_pos hd, if_pos hd, if_pos (by rw [hk1]; decide)]
    · rw [if_neg hd, if_neg hd, if_pos (by rw [hk1]; decide)]

/-- Witness of C16: on a stream that is at its end the first keyword is empty and
the call is fatal for the Points section; a 2-D file whose second section is
`Triangles` is fatal for the Lines section once its points are read; behind two
blank lines the keyword line `Triangles` with blanks, a tab and a carriage
return around the word gives the keyword `Triangles`; and a file that ends with
the line `Points` behind blank lines is fatal for the Points section. -/
theorem section_keywords_required_witness :
    ((parse_keyword true (Reader.start 2 1 emptyStore [])).keyword ≠ "Points".toList ∧
      read_sections sampleLibm (Reader.start 2 1 emptyStore []) =
        some (.fatal "Surf file cannot parse Points section"
          (parse_keyword true (Reader.start 2 1 emptyStore [])))) ∧
    (∃ r1, r1.keyword = "Triangles".toList ∧
      read_sections sampleLibm sampleTrianglesReader =
        some (.fatal "Surf file cannot parse Lines section" r1)) ∧
    ((parse_keyword false (Reader.start 3 1 emptyStore
        ["\n".toList, " \t\n".toList, "  Triangles \t\r\n".toList, "\n".toList,
          "1 1 2 3\n".toList])).keyword = "Triangles".toList ∧
      (parse_keyword false (Reader.start 3 1 emptyStore
        ["\n".toList, " \t\n".toList, "  Triangles \t\r\n".toList, "\n".toList,
          "1 1 2 3\n".toList])).fp = ["1 1 2 3\n".toList]) ∧
    read_sections sampleLibm
        { Reader.start 2 1 emptyStore ["\n".toList, "Points\n".toList] with
          line := "\n".toList } =
      some (.fatal "Surf file cannot parse Points section"
        (parse_keyword true
          { Reader.start 2 1 emptyStore ["\n".toList, "Points\n".toList] with
            line := "\n".toList })) :=
  ⟨⟨by decide,
    (section_keywords_required sampleLibm (Reader.start 2 1 emptyStore [])).2.1 (by decide)⟩,
    ⟨_, by decide,
      ((section_keywords_required sampleLibm sampleTrianglesReader).2.2.1 _ (by decide)
        (read_points_wf sampleLibm (parse_keyword true sampleTrianglesReader) rfl
          samplePointRecs (by decide) rfl ["\n".toList, "Triangles\n".toList, "\n".toList]
          rfl)).2.2.2 rfl (by decide)⟩,
    (section_keywords_required sampleLibm (Reader.start 3 1 emptyStore [])).2.2.2.2.2.2.1
      (Reader.start 3 1 emptyStore
        ["\n".toList, " \t\n".toList, "  Triangles \t\r\n".toList, "\n".toList,
          "1 1 2 3\n".toList])
      ["\n".toList, " \t\n".toList] "  Triangles \t\r\n".toList "\n".toList
      ["1 1 2 3\n".toList] "Triangles".toList (by decide)
      ⟨"  ".toList, " \t\r\n".toList, by decide, by decide, by decide, by decide,
        fun a h => by cases h; rfl, fun a h => by cases h; rfl⟩
      rfl,
    (section_keywords_required sampleLibm
      { Reader.start 2 1 emptyStore ["\n".toList, "Points\n".toList] with
        line := "\n".toList }).2.2.2.2.2.2.2.1
      (Or.inr ⟨Or.inr (by decide), ["\n".toList], ["Points\n".toList], rfl, by decide,
        by decide⟩)⟩

/-! ### Counts that are not positive -/

/-- The loop of a section does nothing when no record is left to read. -/
theorem read_section_nonpos {α : Type}
    (chunk : ReadSurf α → Int → Nat → List Char → Option (Outcome (ReadSurf α)))
    (total nread n : Int) (r : Reader α) (h : total ≤ nread) :
    read_section chunk total nread n r = some (.ok r) := by
  rw [read_section, if_neg (by omega)]

/-- The two sections of a 2-D file whose declared counts are not positive: no
record is read. -/
theorem read_sections_no_records {α : Type} [Zero α] (L : Libm α) (r : Reader α)
    (sepP sepL : List Char) (gap rest : List (List Char))
    (hd : r.rs.dimension = 2) (hline : r.line = "Points\n".toList)
    (hfp : r.fp = sepP :: (gap ++ ("Lines\n".toList :: sepL :: rest)))
    (hg : ∀ g ∈ gap, blank (cstr g) = true)
    (hn : r.rs.npoint_new ≤ 0) (hm : r.rs.nline_new ≤ 0) :
    read_sections L r = some (.ok { r with
      fp := rest
      line := "Lines".toList
      keyword := "Lines".toList }) := by
  have hb : blank r.line = false := by
    rw [hline]
    decide
  have h1 := parse_keyword_first r sepP _ hb hfp
  rw [hline] at h1
  have hk1 : trim "Points\n".toList = "Points".toList := by decide
  have hl1 : ("Points\n".toList.reverse.dropWhile isBlank).reverse = "Points".toList := by
    decide
  rw [hk1, hl1] at h1
  have h2 : read_points L (parse_keyword true r) = some (.ok (parse_keyword true r)) :=
    read_section_nonpos _ _ _ _ _ (by rw [h1]; exact hn)
  have hb2 : blank (cstr "Lines\n".toList) = false := by decide
  have hk2 : trim (cstr "Lines\n".toList) = "Lines".toList := by decide
  have hl2 : ((cstr "Lines\n".toList).reverse.dropWhile isBlank).reverse = "Lines".toList := by
    decide
  have h3 := parse_keyword_next (parse_keyword true r) gap "Lines\n".toList sepL rest hg hb2
    (by rw [h1])
  rw [hk2, hl2] at h3
  have h4 : read_lines (parse_keyword false (parse_keyword true r)) =
      some (.ok (parse_keyword false (parse_keyword true r))) :=
    read_section_nonpos _ _ _ _ _ (by rw [h3, h1]; exact hm)
  unfold read_sections
  rw [h2]
  simp only []
  rw [h4, h3, h1]
  simp only [hd, if_true, ne_eq, not_true_eq_false, if_false]

/-- C13, the divergence: the file `negativeCountFile`, read in two dimensions on
top of a store that holds five points and five lines, is read without fatal
error, and the store then holds four points and four lines. -/
theorem negative_counts_shrink_store :
    ∃ st, command sampleLibm box10 true 2 7 fiveStore ["s", "data.surf"]
        (some negativeCountFile) = some (.ok st) ∧
      (commit st).npoint = 4 ∧ (commit st).nline = 4 ∧
      fiveStore.npoint = 5 ∧ fiveStore.nline = 5 := by
  have h1 : header (Reader.start 2 7 fiveStore negativeCountFile) =
      .ok { Reader.start 2 7 fiveStore ["\n".toList, "Lines\n".toList, "\n".toList] with
        rs := { (Reader.start 2 7 fiveStore []).rs with
          npoint_new := -1
          nline_new := -1 }
        line := "Points\n".toList } := rfl
  have h2 := read_sections_no_records sampleLibm
    ({ Reader.start 2 7 fiveStore ["\n".toList, "Lines\n".toList, "\n".toList] with
        rs := { (Reader.start 2 7 fiveStore []).rs with
          npoint_new := -1
          nline_new := -1 }
        line := "Points\n".toList } : Reader ℚ)
    "\n".toList "\n".toList [] [] rfl rfl rfl (by simp) (by decide) (by decide)
  refine ⟨{ (Reader.start 2 7 fiveStore []).rs with npoint_new := -1, nline_new := -1 },
    ?_, rfl, rfl, rfl, rfl⟩
  unfold command command_read
  simp only [Bool.true_eq_false, if_false, List.length_cons, List.length_nil]
  rw [if_neg (by decide), h1]
  simp only []
  rw [h2]
  simp only [List.drop, transform_pipeline]
  rw [command_transforms]
  rfl

/-! ### Planarity in two dimensions -/

/-- A valid operator keeps a 2-D state planar, in an arithmetic where `0 + 0` and
`0 - 0` are `0`. -/
theorem Op.apply_planar {α : Type} [Add α] [Sub α] [Mul α] [Div α] [Zero α] [One α]
    [OfScientific α] (L : Libm α) (dom : Domain α)
    (h0 : (0 : α) + 0 = 0) (h1 : (0 : α) - 0 = 0) (op : Op) (st : ReadSurf α)
    (hd : st.dimension = 2) (hp : Planar st) (hv : op.valid L st.dimension) :
    (op.apply L dom st).dimension = 2 ∧ Planar (op.apply L dom st) := by
  obtain ⟨ho, hx⟩ := hp
  have h3 : ¬ (st.dimension = 3) := by omega
  cases op with
  | origin x y z =>
    exact ⟨hd, hv hd, hx⟩
  | trans x y z =>
    have hz : L.atof z = 0 := hv hd
    refine ⟨hd, ?_, ?_⟩
    · show st.origin2 + L.atof z = 0
      rw [ho, hz, h0]
    · intro j hj1 hj2
      have := translate_pts_apply (L.atof x) (L.atof y) (L.atof z)
        { st with origin0 := st.origin0 + L.atof x, origin1 := st.origin1 + L.atof y,
                  origin2 := st.origin2 + L.atof z } j
      rw [if_pos ⟨hj1, hj2⟩] at this
      show ((translate (L.atof x) (L.atof y) (L.atof z) _).pts j).x2 = 0
      rw [this]
      show (st.pts j).x2 + L.atof z = 0
      rw [hx j hj1 hj2, hz, h0]
  | atrans x y z =>
    have hz : L.atof z = 0 := hv hd
    refine ⟨hd, hz, ?_⟩
    intro j hj1 hj2
    have := translate_pts_apply (L.atof x - st.origin0) (L.atof y - st.origin1)
      (L.atof z - st.origin2)
      { st with origin0 := L.atof x, origin1 := L.atof y, origin2 := L.atof z } j
    rw [if_pos ⟨hj1, hj2⟩] at this
    show ((translate _ _ _ _).pts j).x2 = 0
    rw [this]
    show (st.pts j).x2 + (L.atof z - st.origin2) = 0
    rw [hx j hj1 hj2, hz, ho, h1, h0]
  | ftrans x y z =>
    have ha : (ftrans_target dom st.dimension (L.atof x) (L.atof y) (L.atof z)).v2 = 0 := by
      show (if st.dimension = 3 then _ else (0 : α)) = 0
      rw [if_neg h3]
    refine ⟨hd, ha, ?_⟩
    intro j hj1 hj2
    have := translate_pts_apply
      ((ftrans_target dom st.dimension (L.atof x) (L.atof y) (L.atof z)).v0 - st.origin0)
      ((ftrans_target dom st.dimension (L.atof x) (L.atof y) (L.atof z)).v1 - st.origin1)
      ((ftrans_target dom st.dimension (L.atof x) (L.atof y) (L.atof z)).v2 - st.origin2)
      { st with
        origin0 := (ftrans_target dom st.dimension (L.atof x) (L.atof y) (L.atof z)).v0
        origin1 := (ftrans_target dom st.dimension (L.atof x) (L.atof y) (L.atof z)).v1
        origin2 := (ftrans_target dom st.dimension (L.atof x) (L.atof y) (L.atof z)).v2 } j
    rw [if_pos ⟨hj1, hj2⟩] at this
    show ((translate _ _ _ _).pts j).x2 = 0
    rw [this]
    show (st.pts j).x2 +
      ((ftrans_target dom st.dimension (L.atof x) (L.atof y) (L.atof z)).v2 - st.origin2) = 0
    rw [hx j hj1 hj2, ha, ho, h1, h0]
  | scale x y z =>
    refine ⟨hd, ho, ?_⟩
    intro j hj1 hj2
    have := scale_pts_apply (L.atof x) (L.atof y) (L.atof z) st j
    rw [if_pos ⟨hj1, hj2⟩] at this
    show ((Sparta.scale _ _ _ st).pts j).x2 = 0
    rw [this]
    show (if st.dimension = 3 then _ else (st.pts j).x2) = 0
    rw [if_neg h3, hx j hj1 hj2]
  | rotate t x y z =>
    refine ⟨hd, ho, ?_⟩
    intro j hj1 hj2
    have := rotate_pts_apply L (L.atof t) (L.atof x) (L.atof y) (L.atof z) st j
    rw [if_pos ⟨hj1, hj2⟩] at this
    show ((Sparta.rotate L _ _ _ _ st).pts j).x2 = 0
    rw [this]
    show (if st.dimension = 3 then _ else (st.pts j).x2) = 0
    rw [if_neg h3, hx j hj1 hj2]
  | invert =>
    have e : Sparta.invert st = invert_lines st := by
      unfold Sparta.invert
      simp only [hd, if_true]
      rw [if_neg]
      show ¬ (st.dimension = 3)
      exact h3
    show (Sparta.invert st).dimension = 2 ∧ Planar (Sparta.invert st)
    rw [e]
    exact ⟨hd, ho, hx⟩

/-- The point that the record body of `read_points` reads has a zero third
coordinate, except in three dimensions. -/
theorem read_points_record_x2 {α : Type} [Zero α] (L : Libm α) (dimension : Int)
    (hd : dimension ≠ 3) (s : List Char) (p : Point α) (buf : Option (List Char))
    (h : read_points_record L dimension s = some (p, buf)) : p.x2 = 0 := by
  unfold read_points_record at h
  split at h
  · cases h
  · split at h
    · cases h
    · rw [if_neg hd] at h
      cases h
      rfl

/-- The record loop of `read_points`, except in three dimensions: the points
stored have a zero third coordinate, and the points below the first index are
left as they were. -/
theorem read_points_records_x2 {α : Type} [Zero α] (L : Libm α) (dimension : Int)
    (hd : dimension ≠ 3) (k : Nat) (n : Int) (buf : Option (List Char))
    (pts pts1 : Int → Point α)
    (h : read_points_records L dimension k n buf pts = some pts1) :
    (∀ j, n ≤ j → j < n + k → (pts1 j).x2 = 0) ∧ (∀ j, j < n → pts1 j = pts j) := by
  induction k generalizing n buf pts with
  | zero =>
    rw [read_points_records] at h
    cases h
    exact ⟨fun j h1 h2 => absurd h2 (by push_cast; omega), fun _ _ => rfl⟩
  | succ k ih =>
    cases buf with
    | none =>
      rw [read_points_records] at h
      cases h
    | some s =>
      rw [read_points_records] at h
      cases hr : read_points_record L dimension s with
      | none =>
        rw [hr] at h
        cases h
      | some pb =>
        obtain ⟨p, buf1⟩ := pb
        rw [hr] at h
        simp only [] at h
        obtain ⟨i1, i2⟩ := ih (n + 1) buf1 (Function.update pts n p) h
        refine ⟨?_, ?_⟩
        · intro j h1 h2
          by_cases hj : j = n
          · subst hj
            rw [i2 j (by omega), Function.update_same]
            exact read_points_record_x2 L dimension hd s p buf1 hr
          · exact i1 j (by omega) (by push_cast at h2 ⊢; omega)
        · intro j hj
          rw [i2 j (by omega), Function.update_noteq (by omega)]

/-- One buffer through `read_points` in two dimensions: only the points change,
the points stored have a zero third coordinate, and the points below the first
index are left as they were. -/
theorem read_points_chunk_x2 {α : Type} [Zero α] (L : Libm α) (rs rs1 : ReadSurf α)
    (hd : rs.dimension = 2) (n : Int) (k : Nat) (buffer : List Char)
    (h : read_points_chunk L rs n k buffer = some (.ok rs1)) :
    rs1.dimension = 2 ∧ rs1.npoint_old = rs.npoint_old ∧ rs1.npoint_new = rs.npoint_new ∧
      (∀ j, n ≤ j → j < n + k → (rs1.pts j).x2 = 0) ∧
      (∀ j, j < n → rs1.pts j = rs.pts j) := by
  unfold read_points_chunk at h
  split at h
  · cases h
  · split at h
    · cases h
    · split at h
      · cases h
      · cases hr : read_points_records L rs.dimension k n (some buffer) rs.pts with
        | none =>
          rw [hr] at h
          cases h
        | some pts1 =>
          rw [hr] at h
          simp only [Option.some.injEq, Outcome.ok.injEq] at h
          subst h
          obtain ⟨i1, i2⟩ := read_points_records_x2 L rs.dimension (by omega) k n _ _ _ hr
          exact ⟨hd, rfl, rfl, i1, i2⟩

/-- The batch loop of `read_points` in two dimensions: when it ends without
fatal error, the points stored from index `n` on have a zero third coordinate. -/
theorem read_points_section_x2 {α : Type} [Zero α] (L : Libm α) (total nread n : Int)
    (r r1 : Reader α) (hd : r.rs.dimension = 2)
    (h : read_section (read_points_chunk L) total nread n r = some (.ok r1)) :
    r1.rs.dimension = 2 ∧ r1.rs.npoint_old = r.rs.npoint_old ∧
      r1.rs.npoint_new = r.rs.npoint_new ∧
      (∀ j, n ≤ j → j < n + (total - nread) → (r1.rs.pts j).x2 = 0) ∧
      (∀ j, j < n → r1.rs.pts j = r.rs.pts j) := by
  obtain ⟨m, hm⟩ : ∃ m, (total - nread).toNat = m := ⟨_, rfl⟩
  induction m using Nat.strong_induction_on generalizing nread n r with
  | _ m ih =>
    rw [read_section] at h
    by_cases hlt : nread < total
    · rw [if_pos hlt] at h
      obtain ⟨k, hk, hk1, hk2⟩ : ∃ k : Nat,
          (if total - nread > CHUNK then CHUNK else total - nread) = (k : Int) ∧
            1 ≤ k ∧ (k : Int) ≤ total - nread := by
        refine ⟨(if total - nread > CHUNK then CHUNK else total - nread).toNat, ?_, ?_, ?_⟩ <;>
          (simp only [CHUNK]; split <;> omega)
      rw [hk, Int.toNat_ofNat] at h
      cases hc : read_chunk k r.fp with
      | none =>
        rw [hc] at h
        cases h
      | some bf =>
        obtain ⟨buffer, fp1⟩ := bf
        rw [hc] at h
        simp only [] at h
        cases hch : read_points_chunk L r.rs n k buffer with
        | none =>
          rw [hch] at h
          cases h
        | some o =>
          cases o with
          | fatal msg rs1 =>
            rw [hch] at h
            cases h
          | ok rs1 =>
            rw [hch] at h
            simp only [] at h
            obtain ⟨c1, c2, c3, c4, c5⟩ := read_points_chunk_x2 L r.rs rs1 hd n k buffer hch
            obtain ⟨i1, i2, i3, i4, i5⟩ := ih (total - (nread + k)).toNat (by omega)
              (nread + k) (n + k) { r with rs := rs1, fp := fp1 } c1 h rfl
            refine ⟨i1, i2.trans c2, i3.trans c3, ?_, ?_⟩
            · intro j h1 h2
              by_cases hj : j < n + k
              · rw [i5 j hj]
                exact c4 j h1 hj
              · exact i4 j (by omega) (by omega)
            · intro j hj
              rw [i5 j (by omega)]
              exact c5 j hj
    · rw [if_neg hlt] at h
      simp only [Option.some.injEq, Outcome.ok.injEq] at h
      subst h
      exact ⟨hd, rfl, rfl, fun j h1 h2 => absurd h2 (by omega), fun _ _ => rfl⟩

/-- The header loop changes neither the dimension nor the old point count nor the
points. -/
theorem header_loop_frame {α : Type} (fp : List (List Char)) (r r1 : Reader α)
    (h : header_loop fp r = .ok r1) :
    r1.rs.dimension = r.rs.dimension ∧ r1.rs.npoint_old = r.rs.npoint_old ∧
      r1.rs.pts = r.rs.pts := by
  induction fp generalizing r with
  | nil =>
    rw [header_loop] at h
    cases h
    exact ⟨rfl, rfl, rfl⟩
  | cons l fp ih =>
    rw [header_loop] at h
    split_ifs at h with hb hp hl h3 ht h2
    · have := ih _ h
      exact this
    · have := ih _ h
      exact this
    · have := ih _ h
      exact this
    · have := ih _ h
      exact this
    · unfold header_checks at h
      split_ifs at h with c1 c2 c3
      cases h
      exact ⟨rfl, rfl, rfl⟩

/-- The keyword scan leaves the `ReadSurf` object as it was. -/
theorem parse_keyword_rs {α : Type} (first : Bool) (r : Reader α) :
    (parse_keyword first r).rs = r.rs := by
  unfold parse_keyword
  simp only []
  split
  · rfl
  · rw [apply_ite Reader.rs]
    exact ite_self _

/-- The record loop of `read_lines` changes only the lines. -/
theorem read_lines_records_frame {α : Type} (k : Nat) (n : Int) (buf : Option (List Char))
    (st st1 : ReadSurf α) (h : read_lines_records k n buf st = some (.ok st1)) :
    st1.dimension = st.dimension ∧ st1.npoint_old = st.npoint_old ∧
      st1.npoint_new = st.npoint_new ∧ st1.pts = st.pts := by
  induction k generalizing n buf st with
  | zero =>
    rw [read_lines_records] at h
    cases h
    exact ⟨rfl, rfl, rfl, rfl⟩
  | succ k ih =>
    cases buf with
    | none =>
      rw [read_lines_records] at h
      cases h
    | some s =>
      rw [read_lines_records] at h
      cases ht : read_lines_tokens s with
      | none =>
        rw [ht] at h
        cases h
      | some t =>
        obtain ⟨p1, p2, buf1⟩ := t
        rw [ht] at h
        simp only [] at h
        unfold read_lines_record at h
        split_ifs at h with hbad
        · cases h
        · have := ih _ _ _ h
          exact this

/-- One buffer through `read_lines` changes only the lines. -/
theorem read_lines_chunk_frame {α : Type} (rs rs1 : ReadSurf α) (n : Int) (k : Nat)
    (buffer : List Char) (h : read_lines_chunk rs n k buffer = some (.ok rs1)) :
    rs1.dimension = rs.dimension ∧ rs1.npoint_old = rs.npoint_old ∧
      rs1.npoint_new = rs.npoint_new ∧ rs1.pts = rs.pts := by
  unfold read_lines_chunk at h
  split at h
  · cases h
  · split_ifs at h
    · cases h
    · exact read_lines_records_frame _ _ _ _ _ h

/-- The batch loop of a section keeps what each of its batches keeps. -/
theorem read_section_proj {α β : Type}
    (chunk : ReadSurf α → Int → Nat → List Char → Option (Outcome (ReadSurf α)))
    (proj : ReadSurf α → β)
    (hchunk : ∀ rs n k buf rs1, chunk rs n k buf = some (.ok rs1) → proj rs1 = proj rs)
    (total nread n : Int) (r r1 : Reader α)
    (h : read_section chunk total nread n r = some (.ok r1)) :
    proj r1.rs = proj r.rs := by
  obtain ⟨m, hm⟩ : ∃ m, (total - nread).toNat = m := ⟨_, rfl⟩
  induction m using Nat.strong_induction_on generalizing nread n r with
  | _ m ih =>
    rw [read_section] at h
    by_cases hlt : nread < total
    · rw [if_pos hlt] at h
      cases hc : read_chunk (if total - nread > CHUNK then CHUNK else total - nread).toNat
          r.fp with
      | none =>
        rw [hc] at h
        cases h
      | some bf =>
        obtain ⟨buffer, fp1⟩ := bf
        rw [hc] at h
        simp only [] at h
        cases hch : chunk r.rs n
            (if total - nread > CHUNK then CHUNK else total - nread).toNat buffer with
        | none =>
          rw [hch] at h
          cases h
        | some o =>
          cases o with
          | fatal msg rs1 =>
            rw [hch] at h
            cases h
          | ok rs1 =>
            rw [hch] at h
            simp only [] at h
            have := ih _ (by
              rw [← hm]
              simp only [CHUNK]
              split <;> omega) _ _ { r with rs := rs1, fp := fp1 } h rfl
            rw [this]
            exact hchunk _ _ _ _ _ hch
    · rw [if_neg hlt] at h
      simp only [Option.some.injEq, Outcome.ok.injEq] at h
      subst h
      rfl

/-- `read_points` in two dimensions: when it ends without fatal error, every new
point has a zero third coordinate. -/
theorem read_points_planar {α : Type} [Zero α] (L : Libm α) (r r1 : Reader α)
    (hd : r.rs.dimension = 2) (h : read_points L r = some (.ok r1)) :
    r1.rs.dimension = 2 ∧ r1.rs.npoint_old = r.rs.npoint_old ∧
      r1.rs.npoint_new = r.rs.npoint_new ∧
      ∀ j, r1.rs.npoint_old ≤ j → j < r1.rs.npoint_old + r1.rs.npoint_new →
        (r1.rs.pts j).x2 = 0 := by
  obtain ⟨i1, i2, i3, i4, -⟩ :=
    read_points_section_x2 L r.rs.npoint_new 0 r.rs.npoint_old r r1 hd h
  refine ⟨i1, i2, i3, ?_⟩
  intro j h1 h2
  rw [i2] at h1
  rw [i2, i3] at h2
  exact i4 j h1 (by omega)

/-- The two sections in two dimensions: when they are read without fatal error,
every new point has a zero third coordinate. -/
theorem read_sections_planar {α : Type} [Zero α] (L : Libm α) (r r2 : Reader α)
    (hd : r.rs.dimension = 2) (h : read_sections L r = some (.ok r2)) :
    r2.rs.dimension = 2 ∧ r2.rs.npoint_old = r.rs.npoint_old ∧
      ∀ j, r2.rs.npoint_old ≤ j → j < r2.rs.npoint_old + r2.rs.npoint_new →
        (r2.rs.pts j).x2 = 0 := by
  unfold read_sections at h
  by_cases hk : (parse_keyword true r).keyword ≠ "Points".toList
  · rw [if_pos hk] at h
    cases h
  rw [if_neg hk] at h
  cases hp : read_points L (parse_keyword true r) with
  | none =>
    rw [hp] at h
    cases h
  | some o =>
    cases o with
    | fatal msg r1 =>
      rw [hp] at h
      cases h
    | ok r1 =>
      rw [hp] at h
      simp only [] at h
      obtain ⟨i1, i2, i3, i4⟩ := read_points_planar L (parse_keyword true r) r1
        (by rw [parse_keyword_rs]; exact hd) hp
      rw [parse_keyword_rs] at i2 i3
      rw [if_pos i1] at h
      by_cases hk2 : (parse_keyword false r1).keyword ≠ "Lines".toList
      · rw [if_pos hk2] at h
        cases h
      rw [if_neg hk2] at h
      have hf := read_section_proj read_lines_chunk
        (fun rs => (rs.dimension, rs.npoint_old, rs.npoint_new, rs.pts))
        (fun rs n k buf rs1 hc => by
          obtain ⟨c1, c2, c3, c4⟩ := read_lines_chunk_frame rs rs1 n k buf hc
          simp only [c1, c2, c3, c4])
        _ _ _ _ r2 h
      rw [parse_keyword_rs] at hf
      simp only [Prod.mk.injEq] at hf
      obtain ⟨f1, f2, f3, f4⟩ := hf
      refine ⟨f1.trans i1, f2.trans i2, ?_⟩
      intro j h1 h2
      rw [f4]
      rw [f2] at h1
      rw [f2, f3] at h2
      exact i4 j h1 h2

/-- The transform pipeline in two dimensions, in an arithmetic where `0 + 0` and
`0 - 0` are `0`: when the new points have a zero third coordinate at its start,
the state in which it stops is planar. -/
theorem transform_pipeline_planar {α : Type} [Add α] [Sub α] [Mul α] [Div α] [Zero α]
    [One α] [OfScientific α] [DecidableEq α] (L : Libm α) (dom : Domain α)
    (h0 : (0 : α) + 0 = 0) (h1 : (0 : α) - 0 = 0) (args : List String) (st : ReadSurf α)
    (hd : st.dimension = 2)
    (hx : ∀ j, st.npoint_old ≤ j → j < st.npoint_old + st.npoint_new → (st.pts j).x2 = 0) :
    (transform_pipeline L dom args st).state.dimension = 2 ∧
      Planar (transform_pipeline L dom args st).state :=
  command_transforms_preserves L dom (fun s => s.dimension = 2 ∧ Planar s)
    (fun op s hs hv => Op.apply_planar L dom h0 h1 op s hs.1 hs.2 hv) args
    { st with origin0 := 0, origin1 := 0, origin2 := 0 } ⟨hd, rfl, hx⟩

/-- A valid operator keeps the third origin component of a 2-D state at zero, in
an arithmetic where `0 + 0` is `0`, whatever the points are. -/
theorem Op.apply_origin2 {α : Type} [Add α] [Sub α] [Mul α] [Div α] [Zero α] [One α]
    [OfScientific α] (L : Libm α) (dom : Domain α) (h0 : (0 : α) + 0 = 0) (op : Op)
    (st : ReadSurf α) (hd : st.dimension = 2) (ho : st.origin2 = 0)
    (hv : op.valid L st.dimension) : (op.apply L dom st).origin2 = 0 := by
  have h3 : ¬ (st.dimension = 3) := by omega
  cases op with
  | origin x y z => exact hv hd
  | trans x y z =>
    have hz : L.atof z = 0 := hv hd
    show st.origin2 + L.atof z = 0
    rw [ho, hz, h0]
  | atrans x y z => exact hv hd
  | ftrans x y z =>
    show (if st.dimension = 3 then _ else (0 : α)) = 0
    rw [if_neg h3]
  | scale x y z => exact ho
  | rotate t x y z => exact ho
  | invert =>
    have e : Sparta.invert st = invert_lines st := by
      unfold Sparta.invert
      simp only [hd, if_true]
      rw [if_neg]
      show ¬ (st.dimension = 3)
      exact h3
    show (Sparta.invert st).origin2 = 0
    rw [e]
    exact ho

/-- The transform pipeline in two dimensions, in an arithmetic where `0 + 0` is
`0`: in the state in which it stops the third origin component is zero and the
counts of the points are those at its start, whatever the points are. -/
theorem transform_pipeline_origin2 {α : Type} [Add α] [Sub α] [Mul α] [Div α] [Zero α]
    [One α] [OfScientific α] [DecidableEq α] (L : Libm α) (dom : Domain α)
    (h0 : (0 : α) + 0 = 0) (args : List String) (st : ReadSurf α)
    (hd : st.dimension = 2) :
    (transform_pipeline L dom args st).state.origin2 = 0 ∧
      (transform_pipeline L dom args st).state.npoint_old = st.npoint_old ∧
      (transform_pipeline L dom args st).state.npoint_new = st.npoint_new := by
  have h := command_transforms_preserves L dom
    (fun s => s.dimension = 2 ∧ s.origin2 = 0 ∧ s.npoint_old = st.npoint_old ∧
      s.npoint_new = st.npoint_new)
    (fun op s hs hv =>
      ⟨(Op.apply_dimension L dom op s).trans hs.1,
        Op.apply_origin2 L dom h0 op s hs.1 hs.2.1 hv,
        (Op.apply_counts L dom op s).1.trans hs.2.2.1,
        (Op.apply_counts L dom op s).2.2.2.1.trans hs.2.2.2⟩)
    args { st with origin0 := 0, origin1 := 0, origin2 := 0 } ⟨hd, rfl, rfl, rfl⟩
  exact h.2

/-- C17: planarity in two dimensions, in an arithmetic where `0 + 0` and `0 - 0`
are `0` (as in exact and in IEEE arithmetic).  When `read_points` ends without
fatal error, the third coordinate of every new point is `0`.  When the new points
have a zero third coordinate at the start of the transform pipeline, then for
every argument list the state in which the pipeline stops (the final state, or
the state at its fatal error) has a zero third origin component and a zero third
coordinate in every new point; argument lists being arbitrary, this holds after
every prefix of a sequence.  Hence the state of every call that completes is
planar. -/
theorem planarity_2d {α : Type} [Add α] [Sub α] [Mul α] [Div α] [Zero α]
    [One α] [OfScientific α] [DecidableEq α] (L : Libm α) (dom : Domain α)
    (h0 : (0 : α) + 0 = 0) (h1 : (0 : α) - 0 = 0) :
    (∀ (r r1 : Reader α), r.rs.dimension = 2 → read_points L r = some (.ok r1) →
      ∀ j, r1.rs.npoint_old ≤ j → j < r1.rs.npoint_old + r1.rs.npoint_new →
        (r1.rs.pts j).x2 = 0) ∧
    (∀ (args : List String) (st : ReadSurf α), st.dimension = 2 →
      (∀ j, st.npoint_old ≤ j → j < st.npoint_old + st.npoint_new → (st.pts j).x2 = 0) →
      Planar (transform_pipeline L dom args st).state) ∧
    (∀ (id : Int) (surf : Surf α) (arg : List String) (fp : List (List Char))
      (st : ReadSurf α),
      command L dom true 2 id surf arg (some fp) = some (.ok st) →
        st.npoint_old = surf.npoint ∧ Planar st) := by
  refine ⟨?_, ?_, ?_⟩
  · intro r r1 hd h
    exact (read_points_planar L r r1 hd h).2.2.2
  · intro args st hd hx
    exact (transform_pipeline_planar L dom h0 h1 args st hd hx).2
  · intro id surf arg fp st h
    unfold command at h
    simp only [Bool.true_eq_false, if_false] at h
    by_cases hlen : arg.length < 2
    · rw [if_pos hlen] at h
      cases h
    rw [if_neg hlen] at h
    cases hc : command_read L 2 id surf (arg.getD 1 "") (some fp) with
    | none =>
      rw [hc] at h
      cases h
    | some o =>
      cases o with
      | fatal msg r =>
        rw [hc] at h
        cases h
      | ok r =>
        rw [hc] at h
        simp only [] at h
        unfold command_read at hc
        simp only [] at hc
        cases hh : header (Reader.start 2 id surf fp) with
        | fatal msg r0 =>
          rw [hh] at hc
          cases hc
        | ok r0 =>
          rw [hh] at hc
          simp only [] at hc
          unfold header at hh
          cases hf : fgets (Reader.start 2 id surf fp).fp with
          | none =>
            rw [hf] at hh
            cases hh
          | some tf =>
            obtain ⟨title, fp1⟩ := tf
            rw [hf] at hh
            simp only [] at hh
            obtain ⟨e1, e2, -⟩ := header_loop_frame fp1 _ r0 hh
            obtain ⟨s1, s2, s3⟩ := read_sections_planar L r0 r e1 hc
            obtain ⟨p1, p2, p3⟩ := transform_pipeline_origin2 L dom h0 (arg.drop 2)
              (store_arrays surf r.rs) s1
            cases ht : transform_pipeline L dom (arg.drop 2) (store_arrays surf r.rs) with
            | fatal msg s =>
              rw [ht] at h
              cases h
            | ok s =>
              rw [ht] at h p1 p2 p3
              simp only [Option.some.injEq, Outcome.ok.injEq] at h
              subst h
              have q2 : s.npoint_old = r.rs.npoint_old := p2
              have q3 : s.npoint_new = r.rs.npoint_new := p3
              refine ⟨q2.trans (s2.trans e2), p1, ?_⟩
              intro j hj1 hj2
              have k1 : s.npoint_old ≤ j := hj1
              have k2 : j < s.npoint_old + s.npoint_new := hj2
              exact s3 j (by omega) (by omega)

/-- Witness of C17 over the rationals: the state after `trans 1 2 0` and
`scale 2 2 1` on one new point of a 2-D store is planar, and so is the state
after the call on the sample file of three points and two lines. -/
theorem planarity_2d_witness :
    Planar (transform_pipeline sampleLibm box10
      ["trans", "1", "2", "0", "scale", "2", "2", "1"] (pointBatch 2 ⟨1, 2, 0⟩ 0 0 0)).state ∧
    Planar (sampleFile2D.result sampleLibm 7 emptyStore) :=
  ⟨(planarity_2d sampleLibm box10 (by norm_num) (by norm_num)).2.1 _ _ rfl
      (fun _ _ _ => rfl),
    ((planarity_2d sampleLibm box10 (by norm_num) (by norm_num)).2.2 7 emptyStore
      ["s", "data.surf"] sampleFile2D.stream _
      (command_2d sampleLibm box10 7 emptyStore "s" "data.surf" sampleFile2D
        (by decide))).2⟩

/-! ### The rotation axis -/

theorem roundHalfEven_small (x : ℚ) (h : |x| ≤ 1 / 2) : roundHalfEven x = 0 := by
  rw [abs_le] at h
  obtain ⟨h1, h2⟩ := h
  unfold roundHalfEven
  by_cases hx : 0 ≤ x
  · have hf : ⌊x⌋ = 0 := by
      rw [Int.floor_eq_iff]
      constructor
      · simpa using hx
      · norm_num
        linarith
    rw [hf]
    simp only [Int.cast_zero, sub_zero]
    by_cases a : x < 1 / 2
    · rw [if_pos a]
    · rw [if_neg a, if_neg (by linarith)]
      rfl
  · have hf : ⌊x⌋ = -1 := by
      rw [Int.floor_eq_iff]
      constructor
      · norm_num
        linarith
      · norm_num
        linarith
    rw [hf]
    simp only [Int.cast_neg, Int.cast_one, sub_neg_eq_add]
    rw [if_neg (by linarith)]
    by_cases a : 1 / 2 < x + 1
    · rw [if_pos a]
      rfl
    · rw [if_neg a]
      rfl

theorem roundHalfEven_intCast (n : Int) : roundHalfEven (n : ℚ) = n := by
  unfold roundHalfEven
  rw [Int.floor_intCast, sub_self, if_pos (by norm_num)]

theorem Binary64.round_zero : Binary64.round 0 = .fin 0 := by
  rw [Binary64.round, if_pos rfl]

/-- Underflow: a number of magnitude up to `2^-1075`, half the least positive
`double`, rounds to zero. -/
theorem Binary64.round_underflow (q : ℚ) (h : |q| ≤ 2 ^ (-1075 : Int)) :
    Binary64.round q = .fin 0 := by
  unfold Binary64.round
  by_cases hq : q = 0
  · rw [if_pos hq]
  · have hbig : ¬ ((2 : ℚ) ^ 1024 - 2 ^ 970 ≤ |q|) := by
      have h2 : (2 : ℚ) ^ (-1075 : Int) < 2 ^ 1024 - 2 ^ 970 := by norm_num
      intro hc
      linarith
    have hpos : 0 < |q| := abs_pos.mpr hq
    have hlog : Int.log 2 |q| ≤ -1075 := by
      have h3 := @Int.log_mono_right ℚ _ _ 2 |q| (2 ^ (-1075 : Int)) hpos h
      have h4 := @Int.log_zpow ℚ _ _ 2 (by norm_num) (-1075)
      rw [Nat.cast_ofNat] at h4
      rw [h4] at h3
      exact h3
    have hu : Binary64.quantum q = 2 ^ (-1074 : Int) := by
      unfold Binary64.quantum
      rw [max_eq_right (by omega)]
      norm_num
    have hsmall : |q / 2 ^ (-1074 : Int)| ≤ 1 / 2 := by
      have hp : (0 : ℚ) < 2 ^ (-1074 : Int) := by positivity
      rw [abs_div, abs_of_pos hp, div_le_iff₀ hp]
      have e : (2 : ℚ) ^ (-1075 : Int) = 1 / 2 * 2 ^ (-1074 : Int) := by
        rw [show (-1075 : Int) = -1 + -1074 by norm_num, zpow_add₀ (by norm_num)]
        norm_num
      rw [← e]
      exact h
    rw [if_neg hq, if_neg hbig, hu, roundHalfEven_small _ hsmall, Int.cast_zero, zero_mul]

theorem Binary64.round_one : Binary64.round 1 = .fin 1 := by
  have hu : Binary64.quantum 1 = 2 ^ (-52 : Int) := by
    unfold Binary64.quantum
    rw [abs_one, Int.log_one_right]
    norm_num
  have hr : (1 : ℚ) / 2 ^ (-52 : Int) = ((2 ^ 52 : Int) : ℚ) := by norm_num
  rw [Binary64.round, if_neg one_ne_zero, if_neg (by norm_num), hu, hr,
    roundHalfEven_intCast]
  norm_num

theorem Binary64.one_point_zero : (1.0 : Binary64) = .fin 1 := by
  show Binary64.round (OfScientific.ofScientific 10 true 1) = .fin 1
  rw [show (OfScientific.ofScientific 10 true 1 : ℚ) = 1 by norm_num]
  exact Binary64.round_one

theorem tinyAxis_ne_zero : tinyAxis ≠ 0 := by
  intro h
  have h2 : (2 : ℚ) ^ (-600 : Int) = 0 := Binary64.fin.inj h
  exact absurd h2 (zpow_ne_zero _ (by norm_num))

/-- The square of `2^-600` underflows to zero. -/
theorem tinyAxis_mul_self : tinyAxis * tinyAxis = 0 := by
  show Binary64.round ((2 : ℚ) ^ (-600 : Int) * 2 ^ (-600 : Int)) = .fin 0
  apply Binary64.round_underflow
  rw [← zpow_add₀ (by norm_num), abs_of_pos (by positivity)]
  exact zpow_le_zpow_right₀ (by norm_num) (by norm_num)

theorem Binary64.zero_mul_zero : (0 : Binary64) * 0 = 0 := by
  show Binary64.round ((0 : ℚ) * 0) = .fin 0
  rw [mul_zero]
  exact Binary64.round_zero

theorem Binary64.zero_add_zero : (0 : Binary64) + 0 = 0 := by
  show Binary64.round ((0 : ℚ) + 0) = .fin 0
  rw [add_zero]
  exact Binary64.round_zero

/-- The counterexample to C21: with IEEE-754 binary64 arithmetic, in 3-D, the
arguments `rotate 0 0x1p-600 0 0` are accepted, the axis `(2^-600, 0, 0)` not
being zero; the squared length that `norm3` computes underflows to zero, its
root is zero, `norm3` divides `1.0` by it, and the axis it returns is
`(inf, NaN, NaN)`. -/
theorem rotate_axis_underflow_counterexample :
    command_step underflowLibm binary64Box "rotate" ["0", "0x1p-600", "0", "0"]
        binary64Batch = .ok (rotate underflowLibm 0 tinyAxis 0 0 binary64Batch) ∧
      tinyAxis ≠ 0 ∧
      underflowLibm.sqrt (tinyAxis * tinyAxis + 0 * 0 + 0 * 0) = 0 ∧
      norm3 underflowLibm ⟨tinyAxis, 0, 0⟩ = ⟨.inf false, .nan, .nan⟩ := by
  have hlen : underflowLibm.sqrt (tinyAxis * tinyAxis + 0 * 0 + 0 * 0) = 0 := by
    rw [tinyAxis_mul_self, Binary64.zero_mul_zero, Binary64.zero_add_zero,
      Binary64.zero_add_zero]
    show Binary64.sqrt (.fin 0) = .fin 0
    rw [Binary64.sqrt, if_neg (by norm_num), if_pos rfl]
  refine ⟨?_, tinyAxis_ne_zero, hlen, ?_⟩
  · have hs : command_step underflowLibm binary64Box "rotate" ["0", "0x1p-600", "0", "0"]
          binary64Batch = command_rotate underflowLibm 0 tinyAxis 0 0 binary64Batch := by
      simp [command_step, underflowLibm]
    rw [hs, command_rotate, if_neg, if_neg]
    · rintro ⟨h, -, -⟩
      exact tinyAxis_ne_zero h
    · rintro ⟨h, -⟩
      exact absurd h (by decide)
  · have hdiv : (1.0 : Binary64) / 0 = .inf false := by
      rw [Binary64.one_point_zero]
      show Binary64.div (.fin 1) (.fin 0) = .inf false
      simp [Binary64.div]
    have h1 : tinyAxis * Binary64.inf false = .inf false := by
      show Binary64.mul (.fin (2 ^ (-600 : Int))) (.inf false) = .inf false
      have hp : (0 : ℚ) < 2 ^ (-600 : Int) := by positivity
      rw [Binary64.mul, if_neg hp.ne', decide_eq_false (not_lt.mpr hp.le)]
      rfl
    have h2 : (0 : Binary64) * Binary64.inf false = .nan := by
      show Binary64.mul (.fin 0) (.inf false) = .nan
      simp [Binary64.mul]
    unfold norm3
    simp only []
    rw [hlen, hdiv, h1, h2]

/-- The pass of the keyword loop at `rotate` with a zero axis is fatal with the
geometry error, in every dimension, and the state is left as it was. -/
theorem command_step_rotate_zero {α : Type} [Add α] [Sub α] [Mul α] [Div α] [Zero α]
    [One α] [OfScientific α] [DecidableEq α] (L : Libm α) (dom : Domain α)
    (t x y z : String) (rest : List String) (st : ReadSurf α)
    (hx : L.atof x = 0) (hy : L.atof y = 0) (hz : L.atof z = 0) :
    command_step L dom "rotate" (t :: x :: y :: z :: rest) st = .fatal msgGeometry st := by
  simp [command_step, command_rotate, hx, hy, hz]

/-- A pass of the keyword loop at `rotate` that is not fatal has four arguments,
its axis is not zero, and it hands the state to `rotate`. -/
theorem command_step_rotate_ok {α : Type} [Add α] [Sub α] [Mul α] [Div α] [Zero α]
    [One α] [OfScientific α] [DecidableEq α] (L : Libm α) (dom : Domain α)
    (rest : List String) (st st1 : ReadSurf α)
    (h : command_step L dom "rotate" rest st = .ok st1) :
    ∃ t x y z tail, rest = t :: x :: y :: z :: tail ∧
      ¬ (L.atof x = 0 ∧ L.atof y = 0 ∧ L.atof z = 0) ∧
      st1 = rotate L (L.atof t) (L.atof x) (L.atof y) (L.atof z) st := by
  match rest, h with
  | [], h => simp [command_step] at h
  | [_], h => simp [command_step] at h
  | [_, _], h => simp [command_step] at h
  | [_, _, _], h => simp [command_step] at h
  | t :: x :: y :: z :: tail, h =>
    have hs : command_step L dom "rotate" (t :: x :: y :: z :: tail) st =
        command_rotate L (L.atof t) (L.atof x) (L.atof y) (L.atof z) st := by
      simp [command_step]
    rw [hs] at h
    unfold command_rotate at h
    split_ifs at h with h1 h2
    refine ⟨t, x, y, z, tail, rfl, h2, ?_⟩
    cases h
    rfl

/-- The loop over valid operators followed by `rotate` with a zero axis is fatal
with the geometry error in the state that the operators leave. -/
theorem command_transforms_rotate_zero {α : Type} [Add α] [Sub α] [Mul α] [Div α]
    [Zero α] [One α] [OfScientific α] [DecidableEq α] (L : Libm α) (dom : Domain α)
    (ops : List Op) (t x y z : String) (rest : List String) (st : ReadSurf α)
    (hvalid : ∀ op ∈ ops, op.valid L st.dimension)
    (hx : L.atof x = 0) (hy : L.atof y = 0) (hz : L.atof z = 0) :
    command_transforms L dom (opsTokens ops ++ "rotate" :: t :: x :: y :: z :: rest) st =
      .fatal msgGeometry (applyOps L dom ops st) := by
  induction ops generalizing st with
  | nil =>
    show command_transforms L dom ("rotate" :: t :: x :: y :: z :: rest) st = _
    rw [command_transforms, command_step_rotate_zero L dom t x y z rest st hx hy hz]
    rfl
  | cons op ops ih =>
    have hv : op.valid L st.dimension := hvalid op (List.mem_cons_self _ _)
    have hrest : ∀ o ∈ ops, o.valid L (op.apply L dom st).dimension := by
      intro o ho
      rw [Op.apply_dimension]
      exact hvalid o (List.mem_cons_of_mem _ ho)
    show command_transforms L dom
      (op.tokens ++ opsTokens ops ++ "rotate" :: t :: x :: y :: z :: rest) st = _
    rw [List.append_assoc, command_transforms_op L dom op _ st hv]
    exact ih (op.apply L dom st) hrest

/-- In an ordered field the squared length of a vector that is not zero is
positive. -/
theorem sum_sq_pos {β : Type} [LinearOrderedField β] (x y z : β)
    (h : ¬ (x = 0 ∧ y = 0 ∧ z = 0)) : 0 < x * x + y * y + z * z := by
  have hx := mul_self_nonneg x
  have hy := mul_self_nonneg y
  have hz := mul_self_nonneg z
  by_contra hle
  have h1 : x * x = 0 := by linarith
  have h2 : y * y = 0 := by linarith
  have h3 : z * z = 0 := by linarith
  exact h ⟨mul_self_eq_zero.mp h1, mul_self_eq_zero.mp h2, mul_self_eq_zero.mp h3⟩

/-- C21 as amended: in every dimension, a `rotate` operator whose axis is
`(0,0,0)` is fatal with the geometry error before `rotate` is applied: the pass
of the keyword loop leaves the state as it was, and after valid operators the
loop stops in the state they leave.  A pass at `rotate` that is not fatal hands
`rotate`, hence `norm3`, an axis that is not the zero vector.  In exact
arithmetic (`M`, over an ordered field, with an exact square root) the squared
length of that axis is positive and the root by which `norm3` divides is not
zero. -/
theorem rotate_zero_axis_rejected {α : Type} [Add α] [Sub α] [Mul α] [Div α] [Zero α]
    [One α] [OfScientific α] [DecidableEq α] (L : Libm α) (dom : Domain α)
    (st : ReadSurf α) {β : Type} [LinearOrderedField β] (M : Libm β) (hM : M.Exact)
    (domM : Domain β) (sM : ReadSurf β) :
    (∀ (t x y z : String) (rest : List String),
      L.atof x = 0 → L.atof y = 0 → L.atof z = 0 →
      command_step L dom "rotate" (t :: x :: y :: z :: rest) st = .fatal msgGeometry st) ∧
    (∀ (ops : List Op) (t x y z : String) (rest : List String),
      (∀ op ∈ ops, op.valid L st.dimension) →
      L.atof x = 0 → L.atof y = 0 → L.atof z = 0 →
      command_transforms L dom (opsTokens ops ++ "rotate" :: t :: x :: y :: z :: rest) st =
        .fatal msgGeometry (applyOps L dom ops st)) ∧
    (∀ (rest : List String) (st1 : ReadSurf α),
      command_step L dom "rotate" rest st = .ok st1 →
      ∃ t x y z tail, rest = t :: x :: y :: z :: tail ∧
        ¬ (L.atof x = 0 ∧ L.atof y = 0 ∧ L.atof z = 0) ∧
        st1 = rotate L (L.atof t) (L.atof x) (L.atof y) (L.atof z) st) ∧
    (∀ (rest : List String) (s1 : ReadSurf β),
      command_step M domM "rotate" rest sM = .ok s1 →
      ∃ t x y z tail, rest = t :: x :: y :: z :: tail ∧
        s1 = rotate M (M.atof t) (M.atof x) (M.atof y) (M.atof z) sM ∧
        0 < M.atof x * M.atof x + M.atof y * M.atof y + M.atof z * M.atof z ∧
        M.sqrt (M.atof x * M.atof x + M.atof y * M.atof y + M.atof z * M.atof z) ≠ 0) := by
  refine ⟨?_, ?_, ?_, ?_⟩
  · intro t x y z rest hx hy hz
    exact command_step_rotate_zero L dom t x y z rest st hx hy hz
  · intro ops t x y z rest hv hx hy hz
    exact command_transforms_rotate_zero L dom ops t x y z rest st hv hx hy hz
  · intro rest st1 h
    exact command_step_rotate_ok L dom rest st st1 h
  · intro rest s1 h
    obtain ⟨t, x, y, z, tail, e, hne, hs⟩ := command_step_rotate_ok M domM rest sM s1 h
    have hpos := sum_sq_pos (M.atof x) (M.atof y) (M.atof z) hne
    refine ⟨t, x, y, z, tail, e, hs, hpos, ?_⟩
    intro h0
    have h1 := hM.sqrt_mul_self _ hpos.le
    rw [h0, mul_zero] at h1
    exact absurd h1.symm hpos.ne'

/-- The witness of C21: over `Binary64`, in 3-D, `rotate 0 0 0 0` is fatal and
leaves the batch as it was; over the real numbers with the real `sqrt`, `sin`
and `cos`, in 3-D, `rotate 1 0 0 1` is accepted and the root by which `norm3`
divides is not zero. -/
theorem rotate_zero_axis_rejected_witness :
    command_step underflowLibm binary64Box "rotate" ["0", "0", "0", "0"] binary64Batch =
        .fatal msgGeometry binary64Batch ∧
    ∃ t x y z tail, ["1", "0", "0", "1"] = t :: x :: y :: z :: tail ∧
      rotate (⟨fun s => if s = "1" then 1 else 0, Real.sqrt, Real.sin, Real.cos⟩ : Libm ℝ)
          1 0 0 1 (pointBatch 3 ⟨1, 2, 0⟩ 0 0 0) =
        rotate (⟨fun s => if s = "1" then 1 else 0, Real.sqrt, Real.sin, Real.cos⟩ : Libm ℝ)
          (if t = "1" then 1 else 0) (if x = "1" then 1 else 0) (if y = "1" then 1 else 0)
          (if z = "1" then 1 else 0) (pointBatch 3 ⟨1, 2, 0⟩ 0 0 0) ∧
      (0 : ℝ) < (if x = "1" then 1 else 0) * (if x = "1" then 1 else 0) +
        (if y = "1" then 1 else 0) * (if y = "1" then 1 else 0) +
        (if z = "1" then 1 else 0) * (if z = "1" then 1 else 0) ∧
      Real.sqrt ((if x = "1" then 1 else 0) * (if x = "1" then 1 else 0) +
        (if y = "1" then 1 else 0) * (if y = "1" then 1 else 0) +
        (if z = "1" then 1 else 0) * (if z = "1" then 1 else 0)) ≠ 0 :=
  ⟨(rotate_zero_axis_rejected underflowLibm binary64Box binary64Batch
      (⟨fun s => if s = "1" then 1 else 0, Real.sqrt, Real.sin, Real.cos⟩ : Libm ℝ)
      ⟨fun _ hx => Real.mul_self_sqrt hx, Real.sin_neg, Real.cos_neg,
       fun x => by
        have h := Real.sin_sq_add_cos_sq x
        rw [sq, sq] at h
        exact h⟩
      ⟨0, 0, 0, 10, 10, 10⟩ (pointBatch 3 ⟨1, 2, 0⟩ 0 0 0)).1 "0" "0" "0" "0" [] rfl rfl rfl,
    (rotate_zero_axis_rejected underflowLibm binary64Box binary64Batch
      (⟨fun s => if s = "1" then 1 else 0, Real.sqrt, Real.sin, Real.cos⟩ : Libm ℝ)
      ⟨fun _ hx => Real.mul_self_sqrt hx, Real.sin_neg, Real.cos_neg,
       fun x => by
        have h := Real.sin_sq_add_cos_sq x
        rw [sq, sq] at h
        exact h⟩
      ⟨0, 0, 0, 10, 10, 10⟩ (pointBatch 3 ⟨1, 2, 0⟩ 0 0 0)).2.2.2 ["1", "0", "0", "1"]
      (rotate (⟨fun s => if s = "1" then 1 else 0, Real.sqrt, Real.sin, Real.cos⟩ : Libm ℝ)
        1 0 0 1 (pointBatch 3 ⟨1, 2, 0⟩ 0 0 0))
      (by simp [command_step, command_rotate, pointBatch])⟩

/-! ### The operators and the records just read -/

/-- The call on a well-formed 2-D file with operators: the keyword loop runs on
the arrays of the store, and the state returned holds the arrays as the sections
were read. -/
theorem command_2d_ops {α : Type} [Add α] [Sub α] [Mul α] [Div α] [Zero α] [One α]
    [OfScientific α] [DecidableEq α] (L : Libm α) (dom : Domain α) (id : Int)
    (surf : Surf α) (a0 a1 : String) (ops : List String) (f : File2D)
    (hf : f.WellFormed) :
    command L dom true 2 id surf (a0 :: a1 :: ops) (some f.stream) =
      (match transform_pipeline L dom ops (store_arrays surf (f.result L id surf)) with
        | .fatal msg st => some (.fatal msg (grown_arrays (f.result L id surf) st))
        | .ok st => some (.ok (grown_arrays (f.result L id surf) st))) := by
  have h1 := header_2d id surf f hf.1
  have h2 := read_sections_2d L f hf.1
    { Reader.start 2 id surf f.strings with
      rs := { (Reader.start 2 id surf f.strings).rs with
        npoint_new := f.points.length
        nline_new := f.lines.length }
      fp := f.sepP :: (f.points.map Record3.text ++
        (f.gap ++ ("Lines\n".toList :: f.sepL :: (f.lines.map Record3.text ++
          fgets_all f.rest))))
      line := "Points\n".toList } rfl rfl rfl rfl rfl
  rw [File2D.stream_eq f hf]
  unfold command command_read
  simp only [Bool.true_eq_false, if_false, List.length_cons]
  rw [if_neg (by omega), h1]
  simp only []
  rw [h2]
  rfl

/-- Whatever the operators are, a call that completes hands the store the
arrays and the counts of the same call without operators: the operators do not
reach the records just read. -/
theorem command_arrays_as_read {α : Type} [Add α] [Sub α] [Mul α] [Div α] [Zero α]
    [One α] [OfScientific α] [DecidableEq α] (L : Libm α) (dom : Domain α)
    (grid_exist : Bool) (dimension id : Int) (surf : Surf α) (a0 a1 : String)
    (ops : List String) (file : Option (List (List Char))) (st : ReadSurf α)
    (h : command L dom grid_exist dimension id surf (a0 :: a1 :: ops) file = some (.ok st)) :
    ∃ st0, command L dom grid_exist dimension id surf [a0, a1] file = some (.ok st0) ∧
      commit st = commit st0 := by
  unfold command at h ⊢
  by_cases hg : grid_exist = false
  · rw [if_pos hg] at h
    cases h
  rw [if_neg hg] at h ⊢
  rw [if_neg (by simp)] at h ⊢
  have e1 : (a0 :: a1 :: ops).getD 1 "" = a1 := rfl
  have e2 : [a0, a1].getD 1 "" = a1 := rfl
  rw [e1] at h
  rw [e2]
  cases hc : command_read L dimension id surf a1 file with
  | none =>
    rw [hc] at h
    cases h
  | some o =>
    cases o with
    | fatal msg r =>
      rw [hc] at h
      cases h
    | ok r =>
      rw [hc] at h
      simp only [] at h ⊢
      have hcnt := command_transforms_preserves L dom
        (fun s => s.npoint_old = r.rs.npoint_old ∧ s.nline_old = r.rs.nline_old ∧
          s.ntri_old = r.rs.ntri_old ∧ s.npoint_new = r.rs.npoint_new ∧
          s.nline_new = r.rs.nline_new ∧ s.ntri_new = r.rs.ntri_new)
        (fun op s hs _ => by
          obtain ⟨c1, c2, c3, c4, c5, c6⟩ := Op.apply_counts L dom op s
          exact ⟨c1.trans hs.1, c2.trans hs.2.1, c3.trans hs.2.2.1, c4.trans hs.2.2.2.1,
            c5.trans hs.2.2.2.2.1, c6.trans hs.2.2.2.2.2⟩)
        ((a0 :: a1 :: ops).drop 2)
        { store_arrays surf r.rs with origin0 := 0, origin1 := 0, origin2 := 0 }
        ⟨rfl, rfl, rfl, rfl, rfl, rfl⟩
      have hnil : transform_pipeline L dom (List.drop 2 [a0, a1]) (store_arrays surf r.rs) =
          .ok { store_arrays surf r.rs with origin0 := 0, origin1 := 0, origin2 := 0 } := by
        simp only [List.drop, transform_pipeline]
        rw [command_transforms]
      rw [hnil]
      simp only []
      cases ht : transform_pipeline L dom ((a0 :: a1 :: ops).drop 2)
          (store_arrays surf r.rs) with
      | fatal msg s =>
        rw [ht] at h
        cases h
      | ok s =>
        rw [ht] at h
        simp only [Option.some.injEq, Outcome.ok.injEq] at h
        subst h
        refine ⟨_, rfl, ?_⟩
        have hc2 : s.npoint_old = r.rs.npoint_old ∧ s.nline_old = r.rs.nline_old ∧
            s.ntri_old = r.rs.ntri_old ∧ s.npoint_new = r.rs.npoint_new ∧
            s.nline_new = r.rs.nline_new ∧ s.ntri_new = r.rs.ntri_new := by
          have h3 : (transform_pipeline L dom ((a0 :: a1 :: ops).drop 2)
              (store_arrays surf r.rs)).state = s := by
            rw [ht]
            rfl
          rw [← h3]
          exact hcnt
        obtain ⟨c1, c2, c3, c4, c5, c6⟩ := hc2
        simp only [commit, grown_arrays, store_arrays, c1, c2, c3, c4, c5, c6]

/-- The keyword loop on the single operator `invert`. -/
theorem transform_pipeline_invert {α : Type} [Add α] [Sub α] [Mul α] [Div α] [Zero α]
    [One α] [OfScientific α] [DecidableEq α] (L : Libm α) (dom : Domain α)
    (st : ReadSurf α) :
    transform_pipeline L dom ["invert"] st =
      .ok (invert { st with origin0 := 0, origin1 := 0, origin2 := 0 }) := by
  unfold transform_pipeline
  rw [command_transforms]
  simp only [command_step, command_invert, command_advance]
  simp only [String.reduceEq, if_false, if_true, List.drop]
  rw [command_transforms]

/-- C4, the divergence: the sample file of three points and the two lines
`1 1 2` and `2 2 3`, read in two dimensions on top of any store with the
arguments `s data.surf invert`, is read without fatal error, and the store then
holds the two new lines `(1,2)` and `(2,3)` as they were read: `invert` has not
exchanged the point indices of the new lines. -/
theorem invert_misses_new_lines (surf : Surf ℚ) :
    ∃ st, command sampleLibm box10 true 2 7 surf ["s", "data.surf", "invert"]
        (some sampleFile2D.stream) = some (.ok st) ∧
      (commit st).nline = surf.nline + 2 ∧
      (commit st).lines surf.nline = ⟨7, 1, 2⟩ ∧
      (commit st).lines (surf.nline + 1) = ⟨7, 2, 3⟩ := by
  refine ⟨grown_arrays (sampleFile2D.result sampleLibm 7 surf)
    (invert { store_arrays surf (sampleFile2D.result sampleLibm 7 surf) with
      origin0 := 0, origin1 := 0, origin2 := 0 }), ?_, ?_, ?_, ?_⟩
  · rw [command_2d_ops sampleLibm box10 7 surf "s" "data.surf" ["invert"] sampleFile2D
      (by decide), transform_pipeline_invert]
  · rw [invert_of_two _ rfl]
    rfl
  · have h := storeAt_map_get (Record3.line 7) sampleLineRecs surf.nline surf.lines 0
      (by decide)
    rw [Nat.cast_zero, Int.add_zero] at h
    exact h
  · exact storeAt_map_get (Record3.line 7) sampleLineRecs surf.nline surf.lines 1
      (by decide)

/-- The keyword loop on the single operator `ftrans` with accepted fractions. -/
theorem transform_pipeline_ftrans {α : Type} [Add α] [Sub α] [Mul α] [Div α] [Zero α]
    [One α] [OfScientific α] [DecidableEq α] (L : Libm α) (dom : Domain α)
    (x y z : String) (st : ReadSurf α) (h2 : st.dimension = 2 → L.atof z = 0.5) :
    transform_pipeline L dom ["ftrans", x, y, z] st =
      .ok (apply_ftrans dom (L.atof x) (L.atof y) (L.atof z)
        { st with origin0 := 0, origin1 := 0, origin2 := 0 }) := by
  have hg : ¬ (({ st with origin0 := 0, origin1 := 0, origin2 := 0 } : ReadSurf α).dimension = 2
      ∧ L.atof z ≠ 0.5) := fun h => h.2 (h2 h.1)
  unfold transform_pipeline
  rw [command_transforms]
  simp only [command_step, command_ftrans, command_advance]
  simp only [String.reduceEq, if_false, if_true, List.drop, if_neg hg]
  rw [command_transforms]

/-- The sample file of the three points `(1,1)`, `(2,1)`, `(2,2)`, read in two
dimensions on top of any store with the arguments
`s data.surf ftrans 0.5 0.5 0.5` in the box of extents `(10,10,10)`, is read
without fatal error; the origin becomes `(5,5,0)`, and the store holds the three
new points as they were read: the shift by `(5,5,0)` went to the array of the
store before the growth, not to the points just read. -/
theorem ftrans_misses_new_points (surf : Surf ℚ) :
    ∃ st, command fracLibm box10 true 2 7 surf
        ["s", "data.surf", "ftrans", "0.5", "0.5", "0.5"]
        (some sampleFile2D.stream) = some (.ok st) ∧
      st.origin0 = 5 ∧ st.origin1 = 5 ∧ st.origin2 = 0 ∧
      (commit st).npoint = surf.npoint + 3 ∧
      (commit st).pts surf.npoint = ⟨1, 1, 0⟩ ∧
      (commit st).pts (surf.npoint + 1) = ⟨2, 1, 0⟩ ∧
      (commit st).pts (surf.npoint + 2) = ⟨2, 2, 0⟩ := by
  refine ⟨grown_arrays (sampleFile2D.result fracLibm 7 surf)
    (apply_ftrans box10 (fracLibm.atof "0.5") (fracLibm.atof "0.5") (fracLibm.atof "0.5")
      { store_arrays surf (sampleFile2D.result fracLibm 7 surf) with
        origin0 := 0, origin1 := 0, origin2 := 0 }), ?_, ?_, ?_, ?_, ?_, ?_, ?_, ?_⟩
  · rw [command_2d_ops fracLibm box10 7 surf "s" "data.surf"
      ["ftrans", "0.5", "0.5", "0.5"] sampleFile2D (by decide),
      transform_pipeline_ftrans fracLibm box10 "0.5" "0.5" "0.5" _ (fun _ => rfl)]
  · show (0 : ℚ) + 0.5 * 10 = 5
    norm_num
  · show (0 : ℚ) + 0.5 * 10 = 5
    norm_num
  · rfl
  · rfl
  · have h := storeAt_map_get (Record3.point fracLibm) samplePointRecs surf.npoint surf.pts 0
      (by decide)
    rw [Nat.cast_zero, Int.add_zero] at h
    exact h
  · exact storeAt_map_get (Record3.point fracLibm) samplePointRecs surf.npoint surf.pts 1
      (by decide)
  · exact storeAt_map_get (Record3.point fracLibm) samplePointRecs surf.npoint surf.pts 2
      (by decide)

end Sparta
